import Mathlib

/-!
# Staffing dashboard: staffed percentage, role normalisation, roster reconciliation

A shallow embedding of the functions of the staffing dashboard: `staffedPercent`
(in `ActiveProjects.jsx`, `ProjectsManager.jsx` and `DetailProject.jsx`), the six copies of
`normalizeRole`, `processProjectData` (in `ActiveProjects.jsx` and `DetailProject.jsx`), the
figures and the diagnostic check of `Dashboard.jsx`, and the handlers that refresh the
project list, end a project, delete a member and rate the members of a team, followed by
the properties proved about them.

## Numbers

JavaScript numbers are IEEE-754 binary64 values.  The counts are integers far below
`2^51` (list lengths and staffing targets), on which binary64 addition is exact, so
the sums are kept as integers.  The quotient and the product of
`Math.round((assigned / needed) * 100)` are rounded to binary64 (round to nearest,
ties to even) as the host does; a number is represented by an exact fraction whose
denominator is a power of two.  `Math.round` is `⌊x + 1/2⌋`.

## Strings and values

A string is a list of characters.  `trim` and the class `\s` use the ECMAScript
white-space set.  `toLowerCase` lowers `A`..`Z` on ASCII strings; on other strings
it is the host's Unicode conversion, a parameter of the embedding.  A property read
on an object literal looks at the own properties and then at `Object.prototype`.

## Records

The responses of the remote service are JSON objects.  A record is a structure with the
fields that the code reads, each absent, `null` or holding a value of its documented type
(a string, an integer, a list), and with the list of its remaining fields.  On these
records every operation of `processProjectData` is defined, so it is a total function.

## Handlers

The event handlers (`fetchAllData`, `handleEndProject`, `endProject`, `deleteRow`,
`fetchRatingsAndSeparateMembers`, `submitRating`) are `async` functions that read and write
the component state.  Each is a function of the state at the call, of the user's answer to a
confirmation dialog and of the replies of the remote service, and gives the requests
issued, the states in which it waits for a reply, and the state when it has finished.
-/

namespace DataCollectors

/-! ## JavaScript numbers -/

/-- Number of binary digits of `n`, with `fuel` bounding the number of halvings. -/
def bitLengthAux : Nat → Nat → Nat
  | 0, _ => 0
  | fuel + 1, n => if n = 0 then 0 else bitLengthAux fuel (n / 2) + 1

/-- Number of binary digits of `n` (`0` for `0`): `2^(bitLength n - 1) ≤ n < 2^(bitLength n)`. -/
def bitLength (n : Nat) : Nat := bitLengthAux n n

/-- The integer nearest to `P / Q`, a tie going to the even neighbour. -/
def roundHalfEven (P Q : Nat) : Nat :=
  if 2 * (P % Q) < Q then P / Q
  else if Q < 2 * (P % Q) then P / Q + 1
  else P / Q + (P / Q) % 2

/-- The binary scaling `s` that brings `p / q` into the 53-bit significand range:
`2^52 ≤ (p / q) * 2^s < 2^53` (for `p, q > 0`). -/
def binaryShift (p q : Nat) : Int :=
  let s : Int := (bitLength q : Int) + 53 - (bitLength p : Int)
  if p * 2 ^ s.toNat < 2 ^ 53 * (q * 2 ^ (-s).toNat) then s else s - 1

/-- The binary64 value nearest to the positive rational `p / q` (ties to even), as a
fraction `(numerator, denominator)` whose denominator is a power of two.  Exponent
range limits (overflow, subnormals) are not reached by quotients of counts. -/
def roundDouble (p q : Nat) : Nat × Nat :=
  if p = 0 then (0, 1)
  else
    let s := binaryShift p q
    (roundHalfEven (p * 2 ^ s.toNat) (q * 2 ^ (-s).toNat) * 2 ^ (-s).toNat, 2 ^ s.toNat)

/-- A finite JavaScript number: the binary64 value `num / den`. -/
structure JSNumber where
  num : Int
  den : Nat
deriving DecidableEq, Repr

/-- The JavaScript quotient `a / b` of two integer-valued numbers, `b ≠ 0`. -/
def jsDiv (a b : Int) : JSNumber :=
  let m := roundDouble a.natAbs b.natAbs
  { num := a.sign * b.sign * (m.1 : Int), den := m.2 }

/-- The JavaScript product `x * k` of a number and an integer-valued number. -/
def jsMul (x : JSNumber) (k : Int) : JSNumber :=
  let m := roundDouble (x.num.natAbs * k.natAbs) x.den
  { num := x.num.sign * k.sign * (m.1 : Int), den := m.2 }

/-- The result of `Math.round(x)`: the integer `⌊x + 1/2⌋` (a tie goes towards `+∞`);
the results `0` and `-0` are both the integer `0`. -/
def mathRound (x : JSNumber) : Int := (2 * x.num + (x.den : Int)) / (2 * (x.den : Int))

/-- The expression `v || 0` on a count that is absent or an integer. -/
def orZero : Option Int → Int
  | none => 0
  | some v => if v = 0 then 0 else v

/-- The expression `Math.min(100, Math.round((assigned / needed) * 100))`. -/
def percentExpr (assigned needed : Int) : Int :=
  min 100 (mathRound (jsMul (jsDiv assigned needed) 100))

/-- The value of `Math.round((a / n) * 100)` for naturals `a` and `n > 0`, over the naturals. -/
def percentNat (a n : Nat) : Nat :=
  (2 * (roundDouble ((roundDouble a n).1 * 100) (roundDouble a n).2).1
      + (roundDouble ((roundDouble a n).1 * 100) (roundDouble a n).2).2)
    / (2 * (roundDouble ((roundDouble a n).1 * 100) (roundDouble a n).2).2)

/-- The formula of the specification, `round(100 * assigned / needed)` with round-half-up
on the exact quotient, for `needed > 0`: the integer `⌊100 * assigned / needed + 1/2⌋`. -/
def roundHalfUpPercent (assigned needed : Nat) : Int :=
  ((200 * assigned + needed : Nat) : Int) / ((2 * needed : Nat) : Int)

namespace ActiveProjects

/-- The fields of a processed project that `staffedPercent` reads: the three assigned
totals are list lengths, the three needed counts come from the API (`none` when absent). -/
structure Project where
  totalCollectors : Nat
  totalSupervisors : Nat
  totalBackcheckers : Nat
  numCollectorsNeeded : Option Int
  numSupervisorsNeeded : Option Int
  numBackcheckersNeeded : Option Int
deriving DecidableEq, Repr

/-- The sum `(totalCollectors || 0) + (totalSupervisors || 0) + (totalBackcheckers || 0)`. -/
def Project.assigned (project : Project) : Int :=
  orZero (some project.totalCollectors) + orZero (some project.totalSupervisors)
    + orZero (some project.totalBackcheckers)

/-- The sum of the three needed counts, each `|| 0`. -/
def Project.needed (project : Project) : Int :=
  orZero project.numCollectorsNeeded + orZero project.numSupervisorsNeeded
    + orZero project.numBackcheckersNeeded

/-- `staffedPercent` of `ActiveProjects.jsx`. -/
def staffedPercent (project : Project) : Int :=
  let assigned := project.assigned
  let needed := project.needed
  if needed = 0 then 0
  else percentExpr assigned needed

end ActiveProjects

namespace ProjectsManager

/-- The `totals` record built by `listFromMap`: three list lengths. -/
structure Totals where
  collectors : Nat
  supervisors : Nat
  backcheckers : Nat
deriving DecidableEq, Repr

/-- The fields of a listed project that `staffedPercent` reads. -/
structure Project where
  totals : Totals
  need_collectors : Option Int
  need_supervisors : Option Int
  need_backcheckers : Option Int
deriving DecidableEq, Repr

/-- The sum `(p.totals.collectors || 0) + (p.totals.supervisors || 0) + (p.totals.backcheckers || 0)`. -/
def Project.assigned (p : Project) : Int :=
  orZero (some p.totals.collectors) + orZero (some p.totals.supervisors)
    + orZero (some p.totals.backcheckers)

/-- The sum of the three `need_*` counts, each `|| 0`. -/
def Project.needed (p : Project) : Int :=
  orZero p.need_collectors + orZero p.need_supervisors + orZero p.need_backcheckers

/-- `staffedPercent` of `ProjectsManager.jsx`. -/
def staffedPercent (p : Project) : Int :=
  let assigned := p.assigned
  let needed := p.needed
  if needed = 0 then 0
  else percentExpr assigned needed

end ProjectsManager

namespace DetailProject

/-- The fields of the processed project held in the component state. -/
structure Project where
  totalCollectors : Nat
  totalSupervisors : Nat
  totalBackcheckers : Nat
  numCollectorsNeeded : Option Int
  numSupervisorsNeeded : Option Int
  numBackcheckersNeeded : Option Int
deriving DecidableEq, Repr

/-- The sum of the three assigned totals, each `|| 0`. -/
def Project.assigned (project : Project) : Int :=
  orZero (some project.totalCollectors) + orZero (some project.totalSupervisors)
    + orZero (some project.totalBackcheckers)

/-- The sum of the three needed counts, each `|| 0`. -/
def Project.needed (project : Project) : Int :=
  orZero project.numCollectorsNeeded + orZero project.numSupervisorsNeeded
    + orZero project.numBackcheckersNeeded

/-- `staffedPercent` of `DetailProject.jsx`; the state `project` is `none` while it is `null`. -/
def staffedPercent (project : Option Project) : Int :=
  match project with
  | none => 0
  | some project =>
    let assigned := project.assigned
    let needed := project.needed
    if needed = 0 then 0
    else percentExpr assigned needed

end DetailProject

/-! ## JavaScript strings and values -/

/-- The code points matched by `\s` and stripped by `String.prototype.trim`
(ECMAScript WhiteSpace and LineTerminator). -/
def isWhiteSpace (c : Char) : Bool :=
  let n := c.toNat
  (9 ≤ n && n ≤ 13) || n = 32 || n = 160 || n = 5760 || (8192 ≤ n && n ≤ 8202)
    || n = 8232 || n = 8233 || n = 8239 || n = 8287 || n = 12288 || n = 65279

/-- `String.prototype.trim`: white space removed from both ends. -/
def jsTrim (s : List Char) : List Char :=
  ((s.dropWhile isWhiteSpace).reverse.dropWhile isWhiteSpace).reverse

/-- `String.prototype.toLowerCase`.  On a string of ASCII characters it lowers the letters
`A`..`Z`; on any other string it is the host's Unicode case conversion, taken as the
parameter `unicodeLower`. -/
def toLowerCase (unicodeLower : List Char → List Char) (s : List Char) : List Char :=
  if s.all (fun c => c.toNat < 128) then s.map Char.toLower else unicodeLower s

/-- The call `.replace(/[-\s]/g, '_')`: every hyphen and every white-space character is
replaced by one underscore. -/
def replaceSeparators (s : List Char) : List Char :=
  s.map (fun c => if c = '-' || isWhiteSpace c then '_' else c)

/-- The constant `r` of `normalizeRole`, from the string `String(role)`. -/
def roleToken (unicodeLower : List Char → List Char) (s : List Char) : List Char :=
  replaceSeparators (toLowerCase unicodeLower (jsTrim s))

/-- The characters that a token of an ASCII string is made of: ASCII, fixed by lower-casing,
neither a hyphen nor white space. -/
def IsTokenChar (d : Char) : Prop :=
  d.toNat < 128 ∧ d.toLower = d ∧ (d = '-' || isWhiteSpace d) = false

/-- The JavaScript values met by `normalizeRole`: an absent or null role, a string, and the
two kinds of object that a property read on an object literal can produce (a built-in
function of the given name, and `Object.prototype`). -/
inductive JSValue where
  | undefined
  | null
  | str (s : List Char)
  | nativeFunction (name : List Char)
  | objectPrototype
deriving DecidableEq, Repr

/-- Truthiness (`ToBoolean`): `undefined`, `null` and the empty string are falsy. -/
def JSValue.toBoolean : JSValue → Bool
  | .undefined => false
  | .null => false
  | .str s => !s.isEmpty
  | .nativeFunction _ => true
  | .objectPrototype => true

/-- The conversion `String(v)`. -/
def JSValue.toJSString : JSValue → List Char
  | .undefined => "undefined".toList
  | .null => "null".toList
  | .str s => s
  | .nativeFunction name => "function ".toList ++ name ++ "() \x7b [native code] \x7d".toList
  | .objectPrototype => "[object Object]".toList

/-- A property read `Object.prototype[key]`: the properties every object literal inherits. -/
def objectPrototypeGet (key : List Char) : Option JSValue :=
  if key = "constructor".toList then some (.nativeFunction "Object".toList)
  else if key = "__proto__".toList then some .objectPrototype
  else if key ∈ ["hasOwnProperty".toList, "isPrototypeOf".toList,
      "propertyIsEnumerable".toList, "toLocaleString".toList, "toString".toList,
      "valueOf".toList, "__defineGetter__".toList, "__defineSetter__".toList,
      "__lookupGetter__".toList, "__lookupSetter__".toList] then some (.nativeFunction key)
  else none

/-- A property read `obj[key]` on an object literal with the given own string properties:
an own property first, then the prototype chain. -/
def objectGet (own : List (List Char × List Char)) (key : List Char) : Option JSValue :=
  match own.lookup key with
  | some v => some (.str v)
  | none => objectPrototypeGet key

/-- The expression `obj[key] || fallback`. -/
def getOr (own : List (List Char × List Char)) (key : List Char) (fallback : JSValue) : JSValue :=
  match objectGet own key with
  | some v => if v.toBoolean then v else fallback
  | none => fallback

namespace Dashboard

/-- The object literal `map` of `normalizeRole`. -/
def map : List (List Char × List Char) :=
  [("data_collector".toList, "data_collector".toList),
   ("collector".toList, "data_collector".toList),
   ("supervisor".toList, "supervisor".toList),
   ("backchecker".toList, "backchecker".toList),
   ("back_checker".toList, "backchecker".toList)]

/-- `normalizeRole` of `Dashboard.jsx`. -/
def normalizeRole (unicodeLower : List Char → List Char) (role : JSValue) : JSValue :=
  if !role.toBoolean then .str []
  else
    let r := roleToken unicodeLower role.toJSString
    getOr map r (.str r)

end Dashboard

namespace ActiveProjects

/-- The object literal `map` of `normalizeRole`. -/
def map : List (List Char × List Char) :=
  [("data_collector".toList, "data_collector".toList),
   ("collector".toList, "data_collector".toList),
   ("supervisor".toList, "supervisor".toList),
   ("backchecker".toList, "backchecker".toList),
   ("back_checker".toList, "backchecker".toList)]

/-- `normalizeRole` of `ActiveProjects.jsx`. -/
def normalizeRole (unicodeLower : List Char → List Char) (role : JSValue) : JSValue :=
  if !role.toBoolean then .str []
  else
    let r := roleToken unicodeLower role.toJSString
    getOr map r (.str r)

end ActiveProjects

namespace CollectorTable

/-- The object literal `map` of `normalizeRole`. -/
def map : List (List Char × List Char) :=
  [("data_collector".toList, "data_collector".toList),
   ("collector".toList, "data_collector".toList),
   ("supervisor".toList, "supervisor".toList),
   ("backchecker".toList, "backchecker".toList),
   ("back_checker".toList, "backchecker".toList)]

/-- `normalizeRole` of `CollectorTable.jsx`. -/
def normalizeRole (unicodeLower : List Char → List Char) (role : JSValue) : JSValue :=
  if !role.toBoolean then .str []
  else
    let r := roleToken unicodeLower role.toJSString
    getOr map r (.str r)

end CollectorTable

namespace DetailProject

/-- The object literal `map` of `normalizeRole`. -/
def map : List (List Char × List Char) :=
  [("data_collector".toList, "data_collector".toList),
   ("collector".toList, "data_collector".toList),
   ("supervisor".toList, "supervisor".toList),
   ("backchecker".toList, "backchecker".toList),
   ("back_checker".toList, "backchecker".toList)]

/-- `normalizeRole` of `DetailProject.jsx`. -/
def normalizeRole (unicodeLower : List Char → List Char) (role : JSValue) : JSValue :=
  if !role.toBoolean then .str []
  else
    let r := roleToken unicodeLower role.toJSString
    getOr map r (.str r)

end DetailProject

namespace ProjectsManager

/-- The object literal `map` of `normalizeRole`. -/
def map : List (List Char × List Char) :=
  [("data_collector".toList, "data_collector".toList),
   ("collector".toList, "data_collector".toList),
   ("supervisor".toList, "supervisor".toList),
   ("backchecker".toList, "backchecker".toList),
   ("back_checker".toList, "backchecker".toList)]

/-- `normalizeRole` of `ProjectsManager.jsx`. -/
def normalizeRole (unicodeLower : List Char → List Char) (role : JSValue) : JSValue :=
  if !role.toBoolean then .str []
  else
    let r := roleToken unicodeLower role.toJSString
    getOr map r (.str r)

end ProjectsManager

namespace TeamMembersManager

/-- The object literal `map` of `normalizeRole`. -/
def map : List (List Char × List Char) :=
  [("data_collector".toList, "data_collector".toList),
   ("collector".toList, "data_collector".toList),
   ("supervisor".toList, "supervisor".toList),
   ("backchecker".toList, "backchecker".toList),
   ("back_checker".toList, "backchecker".toList)]

/-- `normalizeRole` of `TeamMembersManager.jsx`. -/
def normalizeRole (unicodeLower : List Char → List Char) (role : JSValue) : JSValue :=
  if !role.toBoolean then .str []
  else
    let r := roleToken unicodeLower role.toJSString
    getOr map r (.str r)

end TeamMembersManager

/-! ## Records of the remote directory service

The responses are JSON.  A record is embedded with the fields that the components read, each
of which may be absent or `null`, and with its remaining fields kept as a list of
key/value pairs.  Text fields hold strings, count fields hold integers. -/

/-- A field of a record: absent, `null`, or holding a value. -/
inductive Field (α : Type) where
  | absent
  | null
  | value (v : α)
deriving DecidableEq, Repr

/-- The expression `field || fallback` on a text field: the string itself unless it is
absent, `null` or empty. -/
def Field.textOr (f : Field (List Char)) (fallback : List Char) : List Char :=
  match f with
  | .value s => if s.isEmpty then fallback else s
  | _ => fallback

/-- The expression `field || 0` on a count field. -/
def Field.numOr (f : Field Int) : Int :=
  match f with
  | .value v => if v = 0 then 0 else v
  | _ => 0

/-- The expression `field || []` on a list field (an array is truthy, also when empty). -/
def Field.listOr {α : Type} (f : Field (List α)) : List α :=
  match f with
  | .value l => l
  | _ => []

/-- The JavaScript value of a text field, as an argument of `normalizeRole`. -/
def Field.toJSValue (f : Field (List Char)) : JSValue :=
  match f with
  | .absent => .undefined
  | .null => .null
  | .value s => .str s

/-- The test `Array.isArray(f) && f.includes(x)` on a list-of-strings field. -/
def Field.isArrayIncluding (f : Field (List (List Char))) (x : List Char) : Bool :=
  match f with
  | .value l => l.contains x
  | _ => false

/-- A scalar JSON value, as held by the fields that these components never read. -/
inductive Scalar where
  | null
  | bool (b : Bool)
  | num (n : Int)
  | str (s : List Char)
deriving DecidableEq, Repr

/-- A team member record: an entry of a project's embedded role list, an entry of the member
directory, or an entry of a reconciled list. -/
structure Member where
  name : Field (List Char)
  role : Field (List Char)
  ve_code : Field (List Char)
  assigned_projects : Field (List (List Char))
  rest : List (List Char × Scalar)
deriving DecidableEq, Repr

/-- The expression `(m.name || '').trim()`: the trimmed name by which entries are compared. -/
def Member.trimmedName (m : Member) : List Char :=
  jsTrim (m.name.textOr [])

/-- The `project_info` object of a project payload. -/
structure ProjectInfo where
  id : Field Int
  name : Field (List Char)
  scrum_master : Field (List Char)
  start_date : Field (List Char)
  end_date : Field (List Char)
  duration_days : Field Int
  status : Field (List Char)
  collectors_needed : Field Int
  supervisors_needed : Field Int
  backcheckers_needed : Field Int
deriving DecidableEq, Repr

/-- The empty object `{}` taken for an absent `project_info`. -/
def ProjectInfo.empty : ProjectInfo :=
  { id := .absent, name := .absent, scrum_master := .absent, start_date := .absent,
    end_date := .absent, duration_days := .absent, status := .absent,
    collectors_needed := .absent, supervisors_needed := .absent,
    backcheckers_needed := .absent }

/-- The expression `projectData.project_info || {}`. -/
def ProjectInfo.orEmpty (f : Field ProjectInfo) : ProjectInfo :=
  match f with
  | .value info => info
  | _ => ProjectInfo.empty

/-- A project payload: a value of the `active_projects` map. -/
structure ProjectData where
  project_info : Field ProjectInfo
  data_collectors : Field (List Member)
  supervisors : Field (List Member)
  backcheckers : Field (List Member)
deriving DecidableEq, Repr

namespace ActiveProjects

/-- The object `{ ...m, role, ve_code: m.ve_code || 'N/A' }` built for an embedded entry. -/
def tagEmbedded (role : List Char) (m : Member) : Member :=
  { m with role := .value role, ve_code := .value (m.ve_code.textOr "N/A".toList) }

/-- The closure `assignedByRole` of `processProjectData`. -/
def assignedByRole (unicodeLower : List Char → List Char) (projectName : List Char)
    (allTeamMembers : List Member) (roleKey : List Char) : List Member :=
  (allTeamMembers.filter (fun member =>
      member.assigned_projects.isArrayIncluding projectName &&
      decide (normalizeRole unicodeLower member.role.toJSValue = .str roleKey))).map
    (fun member => { member with role := .value roleKey })

/-- The closure `dedupeByName` of `processProjectData`. -/
def dedupeByName (primary extras : List Member) : List Member :=
  primary ++ extras.filter (fun assigned =>
    !primary.any (fun existing => existing.trimmedName == assigned.trimmedName))

/-- The object returned by `processProjectData`: the fields read by `staffedPercent` and
the remaining ones. -/
structure ProcessedProject extends Project where
  id : List Char
  name : List Char
  scrumMaster : List Char
  startDate : Field (List Char)
  endDate : Field (List Char)
  durationDays : Field Int
  status : List Char
  members : List Member
  memberCount : Nat
  dataCollectors : List Member
  supervisors : List Member
  backcheckers : List Member
deriving DecidableEq, Repr

/-- `processProjectData` of `ActiveProjects.jsx`. -/
def processProjectData (unicodeLower : List Char → List Char) (projectName : List Char)
    (projectData : ProjectData) (allTeamMembers : List Member) : ProcessedProject :=
  let dataCollectorsFromProject :=
    projectData.data_collectors.listOr.map (tagEmbedded "data_collector".toList)
  let supervisorsFromProject :=
    projectData.supervisors.listOr.map (tagEmbedded "supervisor".toList)
  let backcheckersFromProject :=
    projectData.backcheckers.listOr.map (tagEmbedded "backchecker".toList)
  let assignedDataCollectors :=
    assignedByRole unicodeLower projectName allTeamMembers "data_collector".toList
  let assignedSupervisors :=
    assignedByRole unicodeLower projectName allTeamMembers "supervisor".toList
  let assignedBackcheckers :=
    assignedByRole unicodeLower projectName allTeamMembers "backchecker".toList
  let allDataCollectors := dedupeByName dataCollectorsFromProject assignedDataCollectors
  let allSupervisors := dedupeByName supervisorsFromProject assignedSupervisors
  let allBackcheckers := dedupeByName backcheckersFromProject assignedBackcheckers
  let allMembers := allDataCollectors ++ allSupervisors ++ allBackcheckers
  let info := ProjectInfo.orEmpty projectData.project_info
  { id := projectName
    name := info.name.textOr projectName
    scrumMaster := info.scrum_master.textOr "Not specified".toList
    startDate := info.start_date
    endDate := info.end_date
    durationDays := info.duration_days
    status := info.status.textOr "Unknown".toList
    numCollectorsNeeded := some info.collectors_needed.numOr
    numSupervisorsNeeded := some info.supervisors_needed.numOr
    numBackcheckersNeeded := some info.backcheckers_needed.numOr
    totalCollectors := allDataCollectors.length
    totalSupervisors := allSupervisors.length
    totalBackcheckers := allBackcheckers.length
    members := allMembers
    memberCount := allMembers.length
    dataCollectors := allDataCollectors
    supervisors := allSupervisors
    backcheckers := allBackcheckers }

end ActiveProjects

namespace DetailProject

/-- The call `byName.set(key, m)` on a `Map`, kept as a list of entries in insertion order:
an existing key keeps its place and takes the new value. -/
def mapSet (entries : List (List Char × Member)) (key : List Char) (m : Member) :
    List (List Char × Member) :=
  if entries.any (fun e => e.1 == key) then
    entries.map (fun e => if e.1 == key then (key, m) else e)
  else entries ++ [(key, m)]

/-- The map `byName` of `processProjectData`: every directory member under its trimmed name. -/
def byName (allTeam : List Member) : List (List Char × Member) :=
  allTeam.foldl (fun entries m => mapSet entries m.trimmedName m) []

/-- The remaining fields of `{ ...full, ...member }`: those of `full` in their order, taking
the value of `member` where it has the field, followed by the other fields of `member`. -/
def spreadRest (full member : List (List Char × Scalar)) : List (List Char × Scalar) :=
  full.map (fun e => (e.1, (member.lookup e.1).getD e.2))
    ++ member.filter (fun e => !full.any (fun f => f.1 == e.1))

/-- The field `assigned_projects` of `{ ...full, ...member }`. -/
def spreadField {α : Type} (full member : Field α) : Field α :=
  match member with
  | .absent => full
  | _ => member

/-- The closure `augment` of `processProjectData`. -/
def augment (allTeam : List Member) (member : Member) (role : List Char) : Member :=
  match (byName allTeam).lookup member.trimmedName with
  | some full =>
    { name := .value (member.name.textOr (full.name.textOr "Unknown".toList))
      role := .value role
      ve_code := .value (member.ve_code.textOr (full.ve_code.textOr "N/A".toList))
      assigned_projects := spreadField full.assigned_projects member.assigned_projects
      rest := spreadRest full.rest member.rest }
  | none =>
    { name := .value (member.name.textOr "Unknown".toList)
      role := .value role
      ve_code := .value (member.ve_code.textOr "N/A".toList)
      assigned_projects := member.assigned_projects
      rest := member.rest }

/-- The closure `assignedByRole` of `processProjectData`. -/
def assignedByRole (unicodeLower : List Char → List Char) (projectName : List Char)
    (allTeam : List Member) (roleKey : List Char) : List Member :=
  (allTeam.filter (fun m =>
      m.assigned_projects.isArrayIncluding projectName &&
      decide (normalizeRole unicodeLower m.role.toJSValue = .str roleKey))).map
    (fun m => { m with role := .value roleKey })

/-- The closure `dedupe` of `processProjectData`. -/
def dedupe (primary extras : List Member) : List Member :=
  primary ++ extras.filter (fun x =>
    !primary.any (fun y => y.trimmedName == x.trimmedName))

/-- The object returned by `processProjectData`. -/
structure ProcessedProject extends Project where
  id : List Char
  name : List Char
  scrumMaster : List Char
  startDate : Field (List Char)
  endDate : Field (List Char)
  durationDays : Field Int
  status : List Char
  members : List Member
  memberCount : Nat
  dataCollectors : List Member
  supervisors : List Member
  backcheckers : List Member
deriving DecidableEq, Repr

/-- `processProjectData` of `DetailProject.jsx`; `allTeam` is `none` when it is absent. -/
def processProjectData (unicodeLower : List Char → List Char) (projectName : List Char)
    (projectData : ProjectData) (allTeam : Option (List Member)) : ProcessedProject :=
  let team := allTeam.getD []
  let dcsFromProject :=
    projectData.data_collectors.listOr.map (fun m => augment team m "data_collector".toList)
  let supsFromProject :=
    projectData.supervisors.listOr.map (fun m => augment team m "supervisor".toList)
  let backsFromProject :=
    projectData.backcheckers.listOr.map (fun m => augment team m "backchecker".toList)
  let dcsAssigned := assignedByRole unicodeLower projectName team "data_collector".toList
  let supsAssigned := assignedByRole unicodeLower projectName team "supervisor".toList
  let backsAssigned := assignedByRole unicodeLower projectName team "backchecker".toList
  let allDCs := dedupe dcsFromProject dcsAssigned
  let allSUPs := dedupe supsFromProject supsAssigned
  let allBACKs := dedupe backsFromProject backsAssigned
  let info := ProjectInfo.orEmpty projectData.project_info
  let members := allDCs ++ allSUPs ++ allBACKs
  { id := projectName
    name := info.name.textOr projectName
    scrumMaster := info.scrum_master.textOr "Not specified".toList
    startDate := info.start_date
    endDate := info.end_date
    durationDays := info.duration_days
    status := info.status.textOr "Unknown".toList
    numCollectorsNeeded := some info.collectors_needed.numOr
    numSupervisorsNeeded := some info.supervisors_needed.numOr
    numBackcheckersNeeded := some info.backcheckers_needed.numOr
    totalCollectors := allDCs.length
    totalSupervisors := allSUPs.length
    totalBackcheckers := allBACKs.length
    members := members
    memberCount := members.length
    dataCollectors := allDCs
    supervisors := allSUPs
    backcheckers := allBACKs }

end DetailProject

namespace Dashboard

/-- A record of the team-members response, with the fields that the dashboard reads. -/
structure TeamMember where
  name : Field (List Char)
  role : Field (List Char)
  status : Field (List Char)
  current_project : Field (List Char)
  projects_count : Field Int
  assigned_projects_count : Field Int
  assigned_projects : Field (List (List Char))
  performance_score : Field Int
  rest : List (List Char × Scalar)
deriving DecidableEq, Repr

/-- A member as kept in the component state: the record with its role normalised and its two
counts made finite numbers. -/
structure NormalizedMember where
  name : Field (List Char)
  role : JSValue
  status : Field (List Char)
  current_project : Field (List Char)
  projects_count : Int
  assigned_projects_count : Int
  assigned_projects : Field (List (List Char))
  performance_score : Field Int
  rest : List (List Char × Scalar)
deriving DecidableEq, Repr

/-- `safeNum` on a count field: `Number(v)` when it is finite, otherwise 0
(`Number(undefined)` is `NaN`, `Number(null)` is 0). -/
def safeNum (v : Field Int) : Int :=
  match v with
  | .value n => n
  | _ => 0

/-- The normalisation of the fetched members in `fetchData`. -/
def normalizeMembers (unicodeLower : List Char → List Char) (teamData : List TeamMember) :
    List NormalizedMember :=
  teamData.map (fun m =>
    { name := m.name
      role := normalizeRole unicodeLower m.role.toJSValue
      status := m.status
      current_project := m.current_project
      projects_count := safeNum m.projects_count
      assigned_projects_count := safeNum m.assigned_projects_count
      assigned_projects := m.assigned_projects
      performance_score := m.performance_score
      rest := m.rest })

/-- Truthiness of a text field. -/
def textTruthy (f : Field (List Char)) : Bool :=
  match f with
  | .value s => !s.isEmpty
  | _ => false

/-- The predicate of the `anomalies` filter:
`m.status === 'available' && ((m.current_project && m.current_project !== null) ||
(m.assigned_projects_count > 0))`. -/
def isAnomaly (m : NormalizedMember) : Bool :=
  decide (m.status = .value "available".toList) &&
    ((textTruthy m.current_project && decide (m.current_project ≠ .null)) ||
      decide (m.assigned_projects_count > 0))

/-- The constant `anomalies`. -/
def anomalies (members : List NormalizedMember) : List NormalizedMember :=
  members.filter isAnomaly

end Dashboard

/-! ## The three roles of the reconciler -/

/-- The three role keys that `processProjectData` handles, for stating a property of each
of its three role lists. -/
inductive RoleKey where
  | dataCollector
  | supervisor
  | backchecker
deriving DecidableEq, Repr

/-- The string of a role key. -/
def RoleKey.key : RoleKey → List Char
  | .dataCollector => "data_collector".toList
  | .supervisor => "supervisor".toList
  | .backchecker => "backchecker".toList

/-- The embedded list of a project payload for a role. -/
def ProjectData.embedded (projectData : ProjectData) : RoleKey → Field (List Member)
  | .dataCollector => projectData.data_collectors
  | .supervisor => projectData.supervisors
  | .backchecker => projectData.backcheckers

/-- The reconciled list of a processed project for a role. -/
def ActiveProjects.ProcessedProject.roleList (p : ActiveProjects.ProcessedProject) :
    RoleKey → List Member
  | .dataCollector => p.dataCollectors
  | .supervisor => p.supervisors
  | .backchecker => p.backcheckers

/-- The reconciled list of a processed project of `DetailProject` for a role. -/
def DetailProject.ProcessedProject.roleList (p : DetailProject.ProcessedProject) :
    RoleKey → List Member
  | .dataCollector => p.dataCollectors
  | .supervisor => p.supervisors
  | .backchecker => p.backcheckers

/-! ## Enumeration of an object's properties

`Object.entries` lists the own properties whose key is an array index first, in ascending
numeric order, and then the other properties in the order of their creation, which for a
parsed JSON object is the order of the response text.  An object is kept as the list of its
own properties in creation order. -/

/-- The number written by a string of decimal digits. -/
def digitsValue (key : List Char) : Nat :=
  key.foldl (fun n c => 10 * n + (c.toNat - 48)) 0

/-- Whether a property key is an array index: the canonical decimal form of an integer
from 0 to `2^32 - 2`. -/
def isArrayIndex (key : List Char) : Bool :=
  !key.isEmpty && key.all Char.isDigit && (key.length == 1 || key.head? != some '0')
    && decide (digitsValue key < 4294967295)

/-- `Object.entries(own)`. -/
def objectEntries {α : Type} (own : List (List Char × α)) : List (List Char × α) :=
  (own.filter (fun e => isArrayIndex e.1)).insertionSort
      (fun a b => digitsValue a.1 ≤ digitsValue b.1)
    ++ own.filter (fun e => !isArrayIndex e.1)

/-! ## Requests, replies and the course of a handler

An event handler is an `async` function.  Its embedding is a function of the component state
at the call, of the user's answer to a confirmation dialog and of the replies of the remote
service; it gives the requests issued, the component state at each point where the handler
waits for a reply, and the state when it has finished.  A state update takes effect at once
and no other handler runs in between.  The dialogs opened by `alert` and the lines written
to the console change no state and are left out. -/

/-- The JSON body of a rating request. -/
structure RatingBody where
  team_member : Option Scalar
  project : Int
  rating : Option Int
  feedback : List Char
deriving DecidableEq, Repr

/-- A request sent to the remote service. -/
inductive Request where
  | getProjects
  | getTeamMembers
  | getAllProjects
  | getRatings
  | endProject (project_name : List Char)
  | deleteMember (id : Int)
  | postRating (body : RatingBody)
deriving DecidableEq, Repr

/-- The result of `response.json()`: the parsed body, or the message of the error with which
it rejects. -/
inductive Body (α : Type) where
  | parsed (v : α)
  | unreadable (message : List Char)
deriving DecidableEq, Repr

/-- The result of a `fetch` call: the promise rejects with an error (a transport failure),
or a response arrives. -/
inductive Reply (α : Type) where
  | rejected (message : List Char)
  | response (status : Nat) (statusText : List Char) (body : Body α)
deriving DecidableEq, Repr

/-- The property `ok` of a response: the status is in the range 200..299. -/
def isOk (status : Nat) : Bool := decide (200 ≤ status) && decide (status ≤ 299)

/-- Whether a reply is a success: a response arrived and its status is in the range
200..299. -/
def Reply.succeeded {α : Type} (r : Reply α) : Bool :=
  match r with
  | .rejected _ => false
  | .response status _ _ => isOk status

/-- The course of one call of a handler. -/
structure Run (σ : Type) where
  requests : List Request
  waiting : List σ
  final : σ
deriving DecidableEq, Repr

/-- The body of the `get-project` response. -/
structure ProjectsResponse where
  active_projects : Field (List (List Char × ProjectData))
deriving DecidableEq, Repr

/-- The body of the `teammembers` response read by `ActiveProjects`. -/
structure TeamMembersResponse where
  data : Field (List Member)
deriving DecidableEq, Repr

/-- The expression `status || ''` on a string. -/
def textOrEmpty (status : List Char) : List Char :=
  (Field.value status).textOr []

namespace ActiveProjects

/-- The component state that `fetchAllData` and `handleEndProject` write. -/
structure State where
  projects : List ProcessedProject
  teamMembers : List Member
  loading : Bool
  deletingProject : Option (List Char)
  refreshKey : Nat
  error : Option (List Char)
deriving DecidableEq, Repr

/-- The list `activeProjects` of `fetchAllData`: every entry of the map processed, then the
projects whose status lower-cases to `active`. -/
def activeProjects (unicodeLower : List Char → List Char)
    (active_projects : List (List Char × ProjectData)) (teamMembers : List Member) :
    List ProcessedProject :=
  let projectsArray := (objectEntries active_projects).map (fun e =>
    processProjectData unicodeLower e.1 e.2 teamMembers)
  projectsArray.filter (fun project =>
    toLowerCase unicodeLower (textOrEmpty project.status) == "active".toList)

/-- `fetchAllData` of `ActiveProjects.jsx`.  Both requests are issued together and awaited
with `Promise.all`, which rejects with the first rejection: `teamFirst` tells which one that
is when both reject. -/
def fetchAllData (unicodeLower : List Char → List Char) (st : State)
    (projectsReply : Reply ProjectsResponse) (teamMembersReply : Reply TeamMembersResponse)
    (teamFirst : Bool) : Run State :=
  let started : State := { st with loading := true, error := none }
  let finish (s : State) : Run State :=
    { requests := [.getProjects, .getTeamMembers]
      waiting := [started]
      final := { s with loading := false } }
  let fail (message : List Char) : Run State :=
    finish { started with error := some message, projects := [] }
  match projectsReply, teamMembersReply with
  | .rejected m, .rejected m' => fail (if teamFirst then m' else m)
  | .rejected m, .response _ _ _ => fail m
  | .response _ _ _, .rejected m' => fail m'
  | .response status statusText body, .response status' statusText' body' =>
    if !isOk status then
      fail ("Projects API failed: ".toList ++ (toString status).toList ++ [' '] ++ statusText)
    else if !isOk status' then
      fail ("Team Members API failed: ".toList ++ (toString status').toList ++ [' ']
        ++ statusText')
    else
      match body with
      | .unreadable m => fail m
      | .parsed projectsData =>
        match body' with
        | .unreadable m' => fail m'
        | .parsed teamMembersData =>
          let s : State := { started with teamMembers := teamMembersData.data.listOr }
          match projectsData.active_projects with
          | .value active_projects =>
            finish { s with
              projects := activeProjects unicodeLower active_projects
                teamMembersData.data.listOr }
          | _ =>
            finish { s with
              projects := []
              error := some "No projects data found in API response".toList }

/-- `handleEndProject` of `ActiveProjects.jsx`; `confirmed` is the answer to
`window.confirm`.  The project name and the body of the reply are only read for the texts
of the dialogs. -/
def handleEndProject (st : State) (projectId : List Char) (confirmed : Bool)
    (reply : Reply Unit) : Run State :=
  if !confirmed then { requests := [], waiting := [], final := st }
  else
    let started : State := { st with deletingProject := some projectId }
    let finish (s : State) : Run State :=
      { requests := [.endProject projectId]
        waiting := [started]
        final := { s with deletingProject := none } }
    match reply with
    | .rejected _ => finish started
    | .response status _ body =>
      if isOk status then
        match body with
        | .unreadable _ => finish started
        | .parsed _ =>
          finish { started with
            projects := started.projects.filter (fun p => p.id != projectId)
            refreshKey := started.refreshKey + 1 }
      else finish started

end ActiveProjects

namespace ProjectsManager

/-- The object `{ ...m, role }` built for an embedded entry. -/
def tagRole (role : List Char) (m : Member) : Member :=
  { m with role := .value role }

/-- An element of the list built by `listFromMap`: the fields read by `staffedPercent` and
the remaining ones. -/
structure ListedProject extends Project where
  id : List Char
  key : List Char
  name : List Char
  status : List Char
  scrum_master : List Char
  start_date : Field (List Char)
  end_date : Field (List Char)
  duration_days : Field Int
  members : List Member
deriving DecidableEq, Repr

/-- The function mapped by `listFromMap` over the entries `[key, val]`. -/
def listEntry (key : List Char) (val : ProjectData) : ListedProject :=
  let info := ProjectInfo.orEmpty val.project_info
  let dc := val.data_collectors.listOr.map (tagRole "data_collector".toList)
  let sup := val.supervisors.listOr.map (tagRole "supervisor".toList)
  let bc := val.backcheckers.listOr.map (tagRole "backchecker".toList)
  let members := dc ++ sup ++ bc
  let totals : Totals :=
    { collectors := dc.length, supervisors := sup.length, backcheckers := bc.length }
  { id := info.name.textOr key
    key := key
    name := info.name.textOr key
    status := info.status.textOr "unknown".toList
    scrum_master := info.scrum_master.textOr []
    start_date := info.start_date
    end_date := info.end_date
    duration_days := info.duration_days
    need_collectors := some info.collectors_needed.numOr
    need_supervisors := some info.supervisors_needed.numOr
    need_backcheckers := some info.backcheckers_needed.numOr
    totals := totals
    members := members }

/-- `listFromMap` of `ProjectsManager.jsx`. -/
def listFromMap (obj : Field (List (List Char × ProjectData))) : List ListedProject :=
  (objectEntries obj.listOr).map (fun e => listEntry e.1 e.2)

/-- The memoised list `activeProjects`. -/
def activeProjects (unicodeLower : List Char → List Char)
    (projectsActive : List (List Char × ProjectData)) : List ListedProject :=
  let arr := listFromMap (.value projectsActive)
  arr.filter (fun p => toLowerCase unicodeLower (textOrEmpty p.status) == "active".toList)

/-- The body of the `projects` response. -/
structure AllProjectsResponse where
  projects : Field (List (List Char × ProjectData))
deriving DecidableEq, Repr

/-- The component state that `fetchAll` and `endProject` write; `projectsAll` is `none`
while it is `null`. -/
structure State where
  loading : Bool
  endingId : Option (List Char)
  projectsActive : List (List Char × ProjectData)
  projectsAll : Option (List (List Char × ProjectData))
  error : Option (List Char)
deriving DecidableEq, Repr

/-- The state in which `fetchAll` waits for its first reply. -/
def fetchAllStarted (st : State) : State :=
  { st with loading := true, error := none }

/-- `fetchAll` of `ProjectsManager.jsx`: the active projects, then the projects of every
status. -/
def fetchAll (st : State) (activeReply : Reply ProjectsResponse)
    (allReply : Reply AllProjectsResponse) : Run State :=
  let started := fetchAllStarted st
  let fail (message : List Char) : Run State :=
    { requests := [.getProjects]
      waiting := [started]
      final := { started with error := some message, loading := false } }
  match activeReply with
  | .rejected m => fail m
  | .response status _ body =>
    if !isOk status then fail ("Active projects failed: ".toList ++ (toString status).toList)
    else
      match body with
      | .unreadable m => fail m
      | .parsed activeJson =>
        let s : State := { started with projectsActive := activeJson.active_projects.listOr }
        let finish (s' : State) : Run State :=
          { requests := [.getProjects, .getAllProjects]
            waiting := [started, s]
            final := { s' with loading := false } }
        match allReply with
        | .rejected m' => finish { s with error := some m' }
        | .response status' _ body' =>
          if isOk status' then
            match body' with
            | .unreadable m' => finish { s with error := some m' }
            | .parsed allJson => finish { s with projectsAll := some allJson.projects.listOr }
          else finish { s with projectsAll := none }

/-- `endProject` of `ProjectsManager.jsx`; `confirmed` is the answer to `window.confirm`.
After a successful reply `fetchAll()` is called and not awaited: it issues its first request
and the handler finishes.  The body of the reply is only read for the text of a dialog. -/
def endProject (st : State) (project : ListedProject) (confirmed : Bool)
    (reply : Reply Unit) : Run State :=
  if !confirmed then { requests := [], waiting := [], final := st }
  else
    let started : State := { st with endingId := some project.id }
    let fail : Run State :=
      { requests := [.endProject project.id]
        waiting := [started]
        final := { started with endingId := none } }
    match reply with
    | .rejected _ => fail
    | .response status _ body =>
      match body with
      | .unreadable _ => fail
      | .parsed _ =>
        if !isOk status then fail
        else
          { requests := [.endProject project.id, .getProjects]
            waiting := [started]
            final := { fetchAllStarted started with endingId := none } }

end ProjectsManager

namespace TeamMembersManager

/-- The body of the `teammembers` response as `fetchMembers` reads it: an object with a
`data` field, or the array itself. -/
inductive MembersJson where
  | wrapped (data : Field (List Member))
  | bare (rows : List Member)
deriving DecidableEq, Repr

/-- The value of the state `members`: an array, or the response object when it has no
`data`. -/
inductive MembersValue where
  | array (rows : List Member)
  | object
deriving DecidableEq, Repr

/-- The expression `json.data || json || []`. -/
def membersOf (json : MembersJson) : MembersValue :=
  match json with
  | .wrapped (.value rows) => .array rows
  | .wrapped _ => .object
  | .bare rows => .array rows

/-- The component state that `fetchMembers` and `deleteRow` write. -/
structure State where
  loading : Bool
  deletingId : Option Int
  members : MembersValue
  error : Option (List Char)
deriving DecidableEq, Repr

/-- `fetchMembers` of `TeamMembersManager.jsx`. -/
def fetchMembers (st : State) (reply : Reply MembersJson) : Run State :=
  let started : State := { st with loading := true, error := none }
  let finish (s : State) : Run State :=
    { requests := [.getTeamMembers]
      waiting := [started]
      final := { s with loading := false } }
  match reply with
  | .rejected m => finish { started with error := some m }
  | .response status _ body =>
    if !isOk status then
      finish { started with
        error := some ("Team members failed: ".toList ++ (toString status).toList) }
    else
      match body with
      | .unreadable m => finish { started with error := some m }
      | .parsed json => finish { started with members := membersOf json }

/-- `deleteRow` of `TeamMembersManager.jsx`; `confirmed` is the answer to `window.confirm`,
`reply` the reply to the `DELETE` request and `membersReply` the reply to the request of
`fetchMembers` that follows a successful deletion. -/
def deleteRow (st : State) (id : Int) (confirmed : Bool) (reply : Reply Unit)
    (membersReply : Reply MembersJson) : Run State :=
  if !confirmed then { requests := [], waiting := [], final := st }
  else
    let started : State := { st with deletingId := some id }
    let fail : Run State :=
      { requests := [.deleteMember id]
        waiting := [started]
        final := { started with deletingId := none } }
    match reply with
    | .rejected _ => fail
    | .response status _ _ =>
      if !isOk status && status != 204 then fail
      else
        let refresh := fetchMembers started membersReply
        { requests := .deleteMember id :: refresh.requests
          waiting := started :: refresh.waiting
          final := { refresh.final with deletingId := none } }

end TeamMembersManager

/-! ## Ratings of a project's team -/

/-- The field `id` of a member record (`none` when the record has none). -/
def Member.id (m : Member) : Option Scalar :=
  m.rest.lookup "id".toList

/-- The property key made from a value used as an index, as in `ratings[memberId]`. -/
def propertyKey (v : Option Scalar) : List Char :=
  match v with
  | none => "undefined".toList
  | some .null => "null".toList
  | some (.bool b) => if b then "true".toList else "false".toList
  | some (.num n) => (toString n).toList
  | some (.str s) => s

/-- `parseInt(value)` without a radix; `none` is `NaN`.  Leading white space is skipped, a
sign is read, a leading `0x` selects base 16, and the digits up to the first other
character are read.  The result is the integer itself (the host rounds it to binary64, which
changes only integers beyond `2^53`). -/
def parseInt (value : List Char) : Option Int :=
  let s := value.dropWhile isWhiteSpace
  let negative := s.head? == some '-'
  let s := if s.head? == some '-' || s.head? == some '+' then s.drop 1 else s
  let hex := s.take 2 == ['0', 'x'] || s.take 2 == ['0', 'X']
  let s := if hex then s.drop 2 else s
  let digitOf (c : Char) : Option Nat :=
    if c.isDigit then some (c.toNat - 48)
    else if hex && 'a'.toNat ≤ c.toNat && c.toNat ≤ 'f'.toNat then some (c.toNat - 87)
    else if hex && 'A'.toNat ≤ c.toNat && c.toNat ≤ 'F'.toNat then some (c.toNat - 55)
    else none
  let z := s.takeWhile (fun c => (digitOf c).isSome)
  if z.isEmpty then none
  else
    let n := z.foldl (fun n c => (if hex then 16 else 10) * n + (digitOf c).getD 0) 0
    some (if negative then -(n : Int) else (n : Int))

namespace DetailProject

/-- A rating record of the `rating` response. -/
structure Rating where
  team_member : Option Scalar
  project : Option Scalar
  rating : Field Int
  feedback : Field (List Char)
  rest : List (List Char × Scalar)
deriving DecidableEq, Repr

/-- An element of `ratedMembers`: the object `{ ...r, memberDetails }`. -/
structure RatedEntry where
  rating : Rating
  memberDetails : Member
deriving DecidableEq, Repr

/-- A value of the `ratings` map: the score and the feedback being edited for a member.  The
score is `none` when it is absent, `null` or the empty string, which the code does not
tell apart; the feedback is `none` when it is absent. -/
structure RatingDraft where
  rating : Option Int
  feedback : Option (List Char)
deriving DecidableEq, Repr

/-- Truthiness of a score: present and not zero. -/
def scoreTruthy (rating : Option Int) : Bool :=
  match rating with
  | some n => n != 0
  | none => false

/-- Truthiness of a feedback text: present and not empty. -/
def feedbackTruthy (feedback : Option (List Char)) : Bool :=
  match feedback with
  | some s => !s.isEmpty
  | none => false

/-- The component state that the rating handlers read and write.  The map `ratings` and the
map `submittingRatings` are kept as lists of bindings, the latest binding of a key first. -/
structure State where
  teamMembers : List Member
  allTeamMembers : List Member
  theid : Field Int
  ratings : List (List Char × RatingDraft)
  submittingRatings : List (List Char × Bool)
  ratedMembers : List RatedEntry
  unratedMembers : List Member
  tabLoading : Bool
  allRatings : List Rating
deriving DecidableEq, Repr

/-- The constant `projectRatings`: the ratings `r` with `r.project === theid`. -/
def projectRatings (theid : Int) (arr : List Rating) : List Rating :=
  arr.filter (fun r => decide (r.project = some (.num theid)))

/-- The constant `unrated`: the team members `m` for which `ratedIds.has(m.id)` is false. -/
def unrated (theid : Int) (arr : List Rating) (teamMembers : List Member) : List Member :=
  let ratedIds := (projectRatings theid arr).map (fun r => r.team_member)
  teamMembers.filter (fun m => !ratedIds.contains m.id)

/-- The constant `rated`: every rating of the project with the directory record of its
member, or a placeholder when the directory has none. -/
def rated (theid : Int) (arr : List Rating) (allTeamMembers : List Member) :
    List RatedEntry :=
  (projectRatings theid arr).map (fun r =>
    let tm := allTeamMembers.find? (fun m => decide (m.id = r.team_member))
    { rating := r
      memberDetails := tm.getD
        { name := .value "Unknown Member".toList
          role := .absent
          ve_code := .absent
          assigned_projects := .absent
          rest := match r.team_member with
            | some v => [("id".toList, v)]
            | none => [] } })

/-- The object `map` built from the ratings of the project. -/
def ratingsMap (theid : Int) (arr : List Rating) : List (List Char × RatingDraft) :=
  (projectRatings theid arr).foldl (fun map r =>
    (propertyKey r.team_member,
      { rating := match r.rating with
          | .value n => some n
          | _ => none
        feedback := some (r.feedback.textOr []) }) :: map) []

/-- `fetchRatingsAndSeparateMembers` of `DetailProject.jsx`. -/
def fetchRatingsAndSeparateMembers (st : State) (reply : Reply (List Rating)) : Run State :=
  match st.theid with
  | .value theid =>
    if theid = 0 then { requests := [], waiting := [], final := st }
    else
      let started : State := { st with tabLoading := true }
      let finish (s : State) : Run State :=
        { requests := [.getRatings]
          waiting := [started]
          final := { s with tabLoading := false } }
      match reply with
      | .rejected _ => finish started
      | .response status _ body =>
        if isOk status then
          match body with
          | .unreadable _ => finish started
          | .parsed arr =>
            finish { started with
              allRatings := arr
              unratedMembers := unrated theid arr st.teamMembers
              ratedMembers := rated theid arr st.allTeamMembers
              ratings := ratingsMap theid arr }
        else finish started
  | _ => { requests := [], waiting := [], final := st }

/-- The field of a draft that `handleRatingChange` sets, with its new value. -/
inductive DraftChange where
  | rating (value : Option Int)
  | feedback (value : List Char)
deriving DecidableEq, Repr

/-- `handleRatingChange` of `DetailProject.jsx`. -/
def handleRatingChange (st : State) (memberId : Option Scalar) (change : DraftChange) :
    State :=
  let key := propertyKey memberId
  let previous : RatingDraft :=
    (st.ratings.lookup key).getD { rating := none, feedback := none }
  let next : RatingDraft :=
    match change with
    | .rating value => { previous with rating := value }
    | .feedback value => { previous with feedback := some value }
  { st with ratings := (key, next) :: st.ratings }

/-- The `onChange` handler of the score input of `renderUnratedMemberCard`. -/
def ratingInputChange (st : State) (memberId : Option Scalar) (value : List Char) : State :=
  let inBound : Bool :=
    match parseInt value with
    | some n => decide (1 ≤ n) && decide (n ≤ 12)
    | none => false
  if value.isEmpty || inBound then
    handleRatingChange st memberId (.rating (if value.isEmpty then none else parseInt value))
  else st

/-- `submitRating` of `DetailProject.jsx`; `reply` is the reply to the rating request and
`ratingsReply` the reply to the request of `fetchRatingsAndSeparateMembers` that follows a
successful submission.  A call that is refused opens a dialog and changes nothing. -/
def submitRating (st : State) (member : Member) (reply : Reply Unit)
    (ratingsReply : Reply (List Rating)) : Run State :=
  let memberId := member.id
  let key := propertyKey memberId
  let refused : Run State := { requests := [], waiting := [], final := st }
  match st.theid, st.ratings.lookup key with
  | .value theid, some ratingData =>
    if theid = 0 then refused
    else if !scoreTruthy ratingData.rating && !feedbackTruthy ratingData.feedback then refused
    else if scoreTruthy ratingData.rating && decide (ratingData.rating.getD 0 > 12) then
      refused
    else
      let body : RatingBody :=
        { team_member := memberId
          project := theid
          rating := if scoreTruthy ratingData.rating then ratingData.rating else none
          feedback := (ratingData.feedback.getD []) }
      let started : State := { st with submittingRatings := (key, true) :: st.submittingRatings }
      let fail : Run State :=
        { requests := [.postRating body]
          waiting := [started]
          final := { started with
            submittingRatings := (key, false) :: started.submittingRatings } }
      match reply with
      | .rejected _ => fail
      | .response status _ _ =>
        if isOk status then
          let refresh := fetchRatingsAndSeparateMembers started ratingsReply
          let cleared : State :=
            { refresh.final with ratings := refresh.final.ratings.filter (fun e => e.1 != key) }
          { requests := .postRating body :: refresh.requests
            waiting := started :: refresh.waiting
            final := { cleared with
              submittingRatings := (key, false) :: cleared.submittingRatings } }
        else fail
  | _, _ => refused

end DetailProject

/-! ## Dashboard figures -/

/-- An exception thrown by the host. -/
inductive JSError where
  | typeError
deriving DecidableEq, Repr

namespace Dashboard

/-- `Number(v)` on a score field; `none` is `NaN` (`Number(undefined)` is `NaN`,
`Number(null)` is 0). -/
def number (v : Field Int) : Option Int :=
  match v with
  | .absent => none
  | .null => some 0
  | .value n => some n

/-- `avg`: the mean of the finite numbers among the values; `none` is `null`.  Scores are
integer-valued, so their sum is exact; the quotient is rounded to binary64. -/
def avg (arr : List (Field Int)) : Option JSNumber :=
  let xs := arr.filterMap number
  if xs.length = 0 then none
  else some (jsDiv xs.sum xs.length)

/-- `x.toFixed(1)` on a number below `10^21`: the sign, then the integer nearest to
`|x| * 10` (the larger one on a tie) written with a point before its last digit. -/
def toFixedOne (x : JSNumber) : List Char :=
  let n := (2 * (10 * x.num.natAbs) + x.den) / (2 * x.den)
  (if x.num < 0 then ['-'] else []) ++ (toString (n / 10)).toList ++ ['.']
    ++ (toString (n % 10)).toList

/-- The constant `avgPerfOverall`: `avg(...).toFixed(1)`, which throws a `TypeError` when
`avg` returns `null`. -/
def avgPerfOverall (members : List NormalizedMember) : Except JSError (List Char) :=
  match avg (members.map (fun m => m.performance_score)) with
  | none => .error .typeError
  | some x => .ok (toFixedOne x)

/-- The slice `DCs`. -/
def DCs (members : List NormalizedMember) : List NormalizedMember :=
  members.filter (fun m => decide (m.role = .str "data_collector".toList))

/-- The slice `SUPs`. -/
def SUPs (members : List NormalizedMember) : List NormalizedMember :=
  members.filter (fun m => decide (m.role = .str "supervisor".toList))

/-- The slice `BCKs`. -/
def BCKs (members : List NormalizedMember) : List NormalizedMember :=
  members.filter (fun m => decide (m.role = .str "backchecker".toList))

/-- The test `m.status === 'available'`. -/
def isAvailable (m : NormalizedMember) : Bool :=
  decide (m.status = .value "available".toList)

/-- The test `m.status === 'deployed'`. -/
def isDeployed (m : NormalizedMember) : Bool :=
  decide (m.status = .value "deployed".toList)

/-- The list `readyDCs`. -/
def readyDCs (members : List NormalizedMember) : List NormalizedMember :=
  (DCs members).filter isAvailable

/-- The list `readySUPs`. -/
def readySUPs (members : List NormalizedMember) : List NormalizedMember :=
  (SUPs members).filter isAvailable

/-- The list `readyBCKs`. -/
def readyBCKs (members : List NormalizedMember) : List NormalizedMember :=
  (BCKs members).filter isAvailable

/-- The constant `totalMembers`. -/
def totalMembers (members : List NormalizedMember) : Int :=
  members.length

/-- The constant `totalDeployed`. -/
def totalDeployed (members : List NormalizedMember) : Int :=
  (members.filter isDeployed).length

/-- The constant `totalAvailable`, shown on the card `Available (Bench)`. -/
def totalAvailable (members : List NormalizedMember) : Int :=
  totalMembers members - totalDeployed members

end Dashboard

/-! ## Binary64 rounding: lemmas -/

theorem bitLengthAux_bounds (fuel : Nat) : ∀ n : Nat, n ≤ fuel →
    n < 2 ^ bitLengthAux fuel n ∧ (n ≠ 0 → 2 ^ bitLengthAux fuel n ≤ 2 * n) := by
  induction fuel with
  | zero =>
    intro n hn
    have : n = 0 := by omega
    subst this
    simp [bitLengthAux]
  | succ fuel ih =>
    intro n hn
    unfold bitLengthAux
    by_cases h0 : n = 0
    · subst h0; simp
    · simp only [h0, if_false]
      have hle : n / 2 ≤ fuel := by omega
      obtain ⟨h1, h2⟩ := ih (n / 2) hle
      constructor
      · rw [pow_succ]; omega
      · intro _
        rw [pow_succ]
        by_cases h3 : n / 2 = 0
        · have : n = 1 := by omega
          subst this
          simp [h3, bitLengthAux]
          cases fuel <;> simp [bitLengthAux]
        · have := h2 h3
          omega

theorem bitLength_lt (n : Nat) : n < 2 ^ bitLength n :=
  (bitLengthAux_bounds n n le_rfl).1

theorem bitLength_le (n : Nat) (h : n ≠ 0) : 2 ^ bitLength n ≤ 2 * n :=
  (bitLengthAux_bounds n n le_rfl).2 h

theorem roundHalfEven_ge (P Q : Nat) : P / Q ≤ roundHalfEven P Q := by
  unfold roundHalfEven
  split_ifs <;> omega

theorem roundHalfEven_le (P Q : Nat) : roundHalfEven P Q ≤ P / Q + 1 := by
  unfold roundHalfEven
  split_ifs <;> omega

theorem div_le_div_of_cross {P Q P' Q' : Nat} (hQ : 0 < Q) (hQ' : 0 < Q')
    (h : P * Q' ≤ P' * Q) : P / Q ≤ P' / Q' := by
  rw [Nat.le_div_iff_mul_le hQ']
  have h1 : P / Q * Q ≤ P := Nat.div_mul_le_self P Q
  have h2 : P / Q * Q' * Q ≤ P' * Q := by
    calc P / Q * Q' * Q = P / Q * Q * Q' := by ring
      _ ≤ P * Q' := Nat.mul_le_mul_right _ h1
      _ ≤ P' * Q := h
  exact Nat.le_of_mul_le_mul_right h2 hQ

theorem roundHalfEven_mono {P Q P' Q' : Nat} (hQ : 0 < Q) (hQ' : 0 < Q')
    (h : P * Q' ≤ P' * Q) : roundHalfEven P Q ≤ roundHalfEven P' Q' := by
  have hk : P / Q ≤ P' / Q' := div_le_div_of_cross hQ hQ' h
  rcases Nat.lt_or_eq_of_le hk with hlt | heq
  · calc roundHalfEven P Q ≤ P / Q + 1 := roundHalfEven_le P Q
      _ ≤ P' / Q' := hlt
      _ ≤ roundHalfEven P' Q' := roundHalfEven_ge P' Q'
  · -- equal integer parts: compare the remainders
    have hP : Q * (P / Q) + P % Q = P := Nat.div_add_mod P Q
    have hP' : Q' * (P' / Q') + P' % Q' = P' := Nat.div_add_mod P' Q'
    have hr : P % Q * Q' ≤ P' % Q' * Q := by
      have e1 : P * Q' = Q * Q' * (P / Q) + P % Q * Q' := by
        conv_lhs => rw [← hP]
        ring
      have e2 : P' * Q = Q * Q' * (P / Q) + P' % Q' * Q := by
        conv_lhs => rw [← hP', ← heq]
        ring
      rw [e1, e2] at h
      omega
    unfold roundHalfEven
    rw [← heq]
    by_cases c1 : 2 * (P % Q) < Q
    · simp only [c1, if_true]
      split_ifs <;> omega
    · simp only [c1, if_false]
      have c1' : Q ≤ 2 * (P % Q) := by omega
      have hge : Q' ≤ 2 * (P' % Q') := by
        have : Q * Q' ≤ 2 * (P' % Q') * Q := by
          calc Q * Q' ≤ 2 * (P % Q) * Q' := Nat.mul_le_mul_right _ c1'
            _ = 2 * (P % Q * Q') := by ring
            _ ≤ 2 * (P' % Q' * Q) := Nat.mul_le_mul_left _ hr
            _ = 2 * (P' % Q') * Q := by ring
        rw [Nat.mul_comm Q Q'] at this
        exact Nat.le_of_mul_le_mul_right this hQ
      have n1 : ¬ 2 * (P' % Q') < Q' := by omega
      simp only [n1, if_false]
      by_cases c2 : Q < 2 * (P % Q)
      · simp only [c2, if_true]
        have : Q' < 2 * (P' % Q') := by
          have : Q * Q' < 2 * (P' % Q') * Q := by
            calc Q * Q' < 2 * (P % Q) * Q' := Nat.mul_lt_mul_of_pos_right c2 hQ'
              _ = 2 * (P % Q * Q') := by ring
              _ ≤ 2 * (P' % Q' * Q) := Nat.mul_le_mul_left _ hr
              _ = 2 * (P' % Q') * Q := by ring
          rw [Nat.mul_comm Q Q'] at this
          exact Nat.lt_of_mul_lt_mul_right this
        simp only [this, if_true]
        exact le_rfl
      · simp only [c2, if_false]
        split_ifs <;> omega

theorem two_zpow_split (s : Int) :
    ((2 : ℚ) ^ s.toNat) / ((2 : ℚ) ^ (-s).toNat) = (2 : ℚ) ^ s := by
  have h : (s.toNat : Int) - ((-s).toNat : Int) = s := Int.toNat_sub_toNat_neg s
  conv_rhs => rw [← h]
  rw [zpow_sub₀ (by norm_num : (2 : ℚ) ≠ 0), zpow_natCast, zpow_natCast]

/-- The scaled quotient `(p / q) * 2^s`. -/
theorem scaled_eq (p q : Nat) (s : Int) :
    ((p * 2 ^ s.toNat : Nat) : ℚ) / ((q * 2 ^ (-s).toNat : Nat) : ℚ) = (p : ℚ) / q * (2 : ℚ) ^ s := by
  rw [← two_zpow_split s]
  push_cast
  rw [mul_div_mul_comm]

theorem scaled_lt_iff (p q : Nat) (hq : 0 < q) (s : Int) (k : Nat) :
    p * 2 ^ s.toNat < 2 ^ k * (q * 2 ^ (-s).toNat) ↔ (p : ℚ) / q * (2 : ℚ) ^ s < 2 ^ k := by
  rw [← scaled_eq]
  have hQ : (0 : ℚ) < ((q * 2 ^ (-s).toNat : Nat) : ℚ) := by
    have : 0 < q * 2 ^ (-s).toNat := Nat.mul_pos hq (by positivity)
    exact_mod_cast this
  rw [div_lt_iff₀ hQ]
  constructor
  · intro h; exact_mod_cast h
  · intro h; exact_mod_cast h

theorem scaled_le_iff (p q : Nat) (hq : 0 < q) (s : Int) (k : Nat) :
    2 ^ k * (q * 2 ^ (-s).toNat) ≤ p * 2 ^ s.toNat ↔ (2 : ℚ) ^ k ≤ (p : ℚ) / q * (2 : ℚ) ^ s := by
  rw [← scaled_eq]
  have hQ : (0 : ℚ) < ((q * 2 ^ (-s).toNat : Nat) : ℚ) := by
    have : 0 < q * 2 ^ (-s).toNat := Nat.mul_pos hq (by positivity)
    exact_mod_cast this
  rw [le_div_iff₀ hQ]
  constructor
  · intro h; exact_mod_cast h
  · intro h; exact_mod_cast h

theorem binaryShift_range (p q : Nat) (hp : 0 < p) (hq : 0 < q) :
    (2 : ℚ) ^ 52 ≤ (p : ℚ) / q * (2 : ℚ) ^ binaryShift p q ∧
    (p : ℚ) / q * (2 : ℚ) ^ binaryShift p q < 2 ^ 53 := by
  have hp1 : ((p : ℚ)) < 2 ^ bitLength p := by exact_mod_cast bitLength_lt p
  have hp2 : (2 : ℚ) ^ bitLength p ≤ 2 * p := by exact_mod_cast bitLength_le p (by omega)
  have hq1 : ((q : ℚ)) < 2 ^ bitLength q := by exact_mod_cast bitLength_lt q
  have hq2 : (2 : ℚ) ^ bitLength q ≤ 2 * q := by exact_mod_cast bitLength_le q (by omega)
  have hpQ : (0 : ℚ) < p := by exact_mod_cast hp
  have hqQ : (0 : ℚ) < q := by exact_mod_cast hq
  set A : ℚ := 2 ^ bitLength p with hA
  set B : ℚ := 2 ^ bitLength q with hB
  have hApos : 0 < A := by positivity
  have hBpos : 0 < B := by positivity
  set s0 : Int := (bitLength q : Int) + 53 - (bitLength p : Int) with hs0
  have hpow : (2 : ℚ) ^ s0 = B * 2 ^ 53 / A := by
    rw [hs0, zpow_sub₀ (by norm_num : (2 : ℚ) ≠ 0), zpow_add₀ (by norm_num : (2 : ℚ) ≠ 0)]
    simp only [zpow_natCast, hA, hB]
    norm_cast
  have hlow : (2 : ℚ) ^ 53 ≤ (p : ℚ) / q * (2 : ℚ) ^ s0 * 2 := by
    rw [hpow, div_mul_div_comm, div_mul_eq_mul_div, le_div_iff₀ (by positivity)]
    nlinarith [mul_le_mul hq1.le hp2 hApos.le hBpos.le]
  have hhigh : (p : ℚ) / q * (2 : ℚ) ^ s0 < 2 ^ 54 := by
    rw [hpow, div_mul_div_comm, div_lt_iff₀ (by positivity)]
    nlinarith [mul_lt_mul hp1 hq2 hBpos hApos.le]
  unfold binaryShift
  simp only []
  rw [← hs0]
  split_ifs with hc
  · rw [scaled_lt_iff p q hq s0 53] at hc
    exact ⟨by linarith, hc⟩
  · rw [scaled_lt_iff p q hq s0 53, not_lt] at hc
    have hstep : (2 : ℚ) ^ (s0 - 1) = (2 : ℚ) ^ s0 / 2 := by
      rw [zpow_sub₀ (by norm_num : (2 : ℚ) ≠ 0)]; simp
    rw [hstep]
    constructor
    · have : (p : ℚ) / q * ((2 : ℚ) ^ s0 / 2) = (p : ℚ) / q * (2 : ℚ) ^ s0 / 2 := by ring
      rw [this]; linarith
    · have : (p : ℚ) / q * ((2 : ℚ) ^ s0 / 2) = (p : ℚ) / q * (2 : ℚ) ^ s0 / 2 := by ring
      rw [this]; linarith

theorem roundDouble_den_pos (p q : Nat) : 0 < (roundDouble p q).2 := by
  unfold roundDouble
  split_ifs
  · simp
  · simp only []
    positivity

theorem roundDouble_val (p q : Nat) (hp : 0 < p) :
    ((roundDouble p q).1 : ℚ) / ((roundDouble p q).2 : ℚ) =
      (roundHalfEven (p * 2 ^ (binaryShift p q).toNat) (q * 2 ^ (-binaryShift p q).toNat) : ℚ)
        * (2 : ℚ) ^ (-binaryShift p q) := by
  unfold roundDouble
  rw [if_neg (by omega)]
  simp only []
  rw [← two_zpow_split (-binaryShift p q), neg_neg]
  push_cast
  rw [mul_div_assoc]

theorem mantissa_range (p q : Nat) (hp : 0 < p) (hq : 0 < q) :
    2 ^ 52 ≤ roundHalfEven (p * 2 ^ (binaryShift p q).toNat) (q * 2 ^ (-binaryShift p q).toNat) ∧
    roundHalfEven (p * 2 ^ (binaryShift p q).toNat) (q * 2 ^ (-binaryShift p q).toNat) ≤ 2 ^ 53 := by
  obtain ⟨h1, h2⟩ := binaryShift_range p q hp hq
  rw [← scaled_le_iff p q hq] at h1
  rw [← scaled_lt_iff p q hq] at h2
  have hQ : 0 < q * 2 ^ (-binaryShift p q).toNat := Nat.mul_pos hq (by positivity)
  constructor
  · refine le_trans ?_ (roundHalfEven_ge _ _)
    rw [Nat.le_div_iff_mul_le hQ]
    exact h1
  · refine le_trans (roundHalfEven_le _ _) ?_
    have : p * 2 ^ (binaryShift p q).toNat / (q * 2 ^ (-binaryShift p q).toNat) < 2 ^ 53 := by
      rw [Nat.div_lt_iff_lt_mul hQ]
      exact h2
    omega

/-- Rounding to binary64 is monotone: `p / q ≤ p' / q'` gives
`roundDouble p q ≤ roundDouble p' q'` (as rationals). -/
theorem roundDouble_mono_rat {p q p' q' : Nat} (hp : 0 < p) (hq : 0 < q) (hq' : 0 < q')
    (h : p * q' ≤ p' * q) :
    ((roundDouble p q).1 : ℚ) / ((roundDouble p q).2 : ℚ) ≤
      ((roundDouble p' q').1 : ℚ) / ((roundDouble p' q').2 : ℚ) := by
  have hp' : 0 < p' := by
    rcases Nat.eq_zero_or_pos p' with h0 | h0
    · subst h0
      have : 0 < p * q' := Nat.mul_pos hp hq'
      omega
    · exact h0
  have hx : (p : ℚ) / q ≤ (p' : ℚ) / q' := by
    rw [div_le_div_iff₀ (by exact_mod_cast hq) (by exact_mod_cast hq')]
    exact_mod_cast h
  have hxpos : (0 : ℚ) < (p : ℚ) / q := by
    have : (0 : ℚ) < p := by exact_mod_cast hp
    have : (0 : ℚ) < q := by exact_mod_cast hq
    positivity
  rw [roundDouble_val p q hp, roundDouble_val p' q' hp']
  obtain ⟨r1, r2⟩ := binaryShift_range p q hp hq
  obtain ⟨r1', r2'⟩ := binaryShift_range p' q' hp' hq'
  obtain ⟨m1, m2⟩ := mantissa_range p q hp hq
  obtain ⟨m1', m2'⟩ := mantissa_range p' q' hp' hq'
  set s := binaryShift p q with hs
  set s' := binaryShift p' q' with hs'
  set m := roundHalfEven (p * 2 ^ s.toNat) (q * 2 ^ (-s).toNat) with hm
  set m' := roundHalfEven (p' * 2 ^ s'.toNat) (q' * 2 ^ (-s').toNat) with hm'
  have h2 : (1 : ℚ) ≤ 2 := by norm_num
  rcases lt_trichotomy s s' with hlt | heq | hgt
  · -- a larger shift for a larger quotient is impossible
    exfalso
    have e1 : (2 : ℚ) ^ (s + 1) ≤ (2 : ℚ) ^ s' := zpow_le_zpow_right₀ h2 (by omega)
    have e2 : (2 : ℚ) ^ (s + 1) = (2 : ℚ) ^ s * 2 := by
      rw [zpow_add₀ (by norm_num : (2 : ℚ) ≠ 0)]; simp
    have e3 : (p : ℚ) / q * (2 : ℚ) ^ (s + 1) ≤ (p' : ℚ) / q' * (2 : ℚ) ^ s' :=
      mul_le_mul hx e1 (by positivity) (le_trans hxpos.le hx)
    rw [e2] at e3
    have : (2 : ℚ) ^ 53 ≤ (p : ℚ) / q * ((2 : ℚ) ^ s * 2) := by
      have : (p : ℚ) / q * ((2 : ℚ) ^ s * 2) = (p : ℚ) / q * (2 : ℚ) ^ s * 2 := by ring
      rw [this]; linarith
    linarith
  · -- same binade: the significands are ordered
    have hmm : m ≤ m' := by
      rw [hm, hm', ← heq]
      apply roundHalfEven_mono (Nat.mul_pos hq (by positivity)) (Nat.mul_pos hq' (by positivity))
      calc p * 2 ^ s.toNat * (q' * 2 ^ (-s).toNat)
          = p * q' * (2 ^ s.toNat * 2 ^ (-s).toNat) := by ring
        _ ≤ p' * q * (2 ^ s.toNat * 2 ^ (-s).toNat) := Nat.mul_le_mul_right _ h
        _ = p' * 2 ^ s.toNat * (q * 2 ^ (-s).toNat) := by ring
    rw [← heq]
    have : (m : ℚ) ≤ (m' : ℚ) := by exact_mod_cast hmm
    exact mul_le_mul_of_nonneg_right this (by positivity)
  · -- a smaller binade lies wholly below a larger one
    have e1 : (2 : ℚ) ^ (-s + 1) ≤ (2 : ℚ) ^ (-s') := zpow_le_zpow_right₀ h2 (by omega)
    have e2 : (2 : ℚ) ^ (-s + 1) = (2 : ℚ) ^ (-s) * 2 := by
      rw [zpow_add₀ (by norm_num : (2 : ℚ) ≠ 0)]; simp
    have hmQ : (m : ℚ) ≤ 2 ^ 53 := by exact_mod_cast m2
    have hmQ' : (2 : ℚ) ^ 52 ≤ (m' : ℚ) := by exact_mod_cast m1'
    have pos1 : (0 : ℚ) < (2 : ℚ) ^ (-s) := by positivity
    have pos2 : (0 : ℚ) < (2 : ℚ) ^ (-s') := by positivity
    calc (m : ℚ) * (2 : ℚ) ^ (-s) ≤ 2 ^ 53 * (2 : ℚ) ^ (-s) :=
          mul_le_mul_of_nonneg_right hmQ pos1.le
      _ = 2 ^ 52 * ((2 : ℚ) ^ (-s) * 2) := by ring
      _ ≤ 2 ^ 52 * (2 : ℚ) ^ (-s') := by
          rw [← e2]; exact mul_le_mul_of_nonneg_left e1 (by positivity)
      _ ≤ (m' : ℚ) * (2 : ℚ) ^ (-s') := mul_le_mul_of_nonneg_right hmQ' pos2.le

/-- Monotonicity of `roundDouble`, in cross-multiplied form over the naturals. -/
theorem roundDouble_mono {p q p' q' : Nat} (hq : 0 < q) (hq' : 0 < q')
    (h : p * q' ≤ p' * q) :
    (roundDouble p q).1 * (roundDouble p' q').2 ≤ (roundDouble p' q').1 * (roundDouble p q).2 := by
  rcases Nat.eq_zero_or_pos p with h0 | hp
  · subst h0
    simp [roundDouble]
  · have := roundDouble_mono_rat hp hq hq' h
    rw [div_le_div_iff₀ (by exact_mod_cast roundDouble_den_pos p q)
      (by exact_mod_cast roundDouble_den_pos p' q')] at this
    exact_mod_cast this

theorem orZero_some (v : Int) : orZero (some v) = v := by
  show (if v = 0 then 0 else v) = v
  split_ifs with h
  · exact h.symm
  · rfl

theorem sign_mul_natCast (k : Nat) (c : Int) (hc : c.sign = 1) :
    (k : Int).sign * c.sign * ((if k = 0 then 0 else c) : Int) = if k = 0 then 0 else c := by
  by_cases hk : k = 0
  · simp [hk]
  · have : (0 : Int) < k := by omega
    simp [hk, Int.sign_eq_one_of_pos this, hc]

theorem jsDiv_natCast (a n : Nat) (hn : 0 < n) :
    jsDiv (a : Int) (n : Int) =
      { num := ((roundDouble a n).1 : Int), den := (roundDouble a n).2 } := by
  unfold jsDiv
  simp only [Int.natAbs_cast]
  have hs : (n : Int).sign = 1 := Int.sign_eq_one_of_pos (by omega)
  by_cases ha : a = 0
  · subst ha; simp [roundDouble]
  · have hs' : (a : Int).sign = 1 := Int.sign_eq_one_of_pos (by omega)
    simp [hs, hs']

theorem jsMul_natCast (k d c : Nat) (hc : 0 < c) :
    jsMul { num := (k : Int), den := d } (c : Int) =
      { num := ((roundDouble (k * c) d).1 : Int), den := (roundDouble (k * c) d).2 } := by
  unfold jsMul
  simp only [Int.natAbs_cast]
  have hs : (c : Int).sign = 1 := Int.sign_eq_one_of_pos (by omega)
  by_cases hk : k = 0
  · subst hk; simp [roundDouble]
  · have hs' : (k : Int).sign = 1 := Int.sign_eq_one_of_pos (by omega)
    simp [hs, hs']

theorem percentExpr_natCast (a n : Nat) (hn : 0 < n) :
    percentExpr (a : Int) (n : Int) = min 100 ((percentNat a n : Nat) : Int) := by
  unfold percentExpr
  rw [jsDiv_natCast a n hn]
  have h100 : (100 : Int) = ((100 : Nat) : Int) := rfl
  rw [h100, jsMul_natCast _ _ 100 (by norm_num)]
  unfold mathRound percentNat
  simp only []
  norm_cast

theorem percentNat_mono {a a' n : Nat} (hn : 0 < n) (h : a ≤ a') :
    percentNat a n ≤ percentNat a' n := by
  have h1 : (roundDouble a n).1 * (roundDouble a' n).2 ≤ (roundDouble a' n).1 * (roundDouble a n).2 :=
    roundDouble_mono hn hn (Nat.mul_le_mul_right n h)
  have h2 := @roundDouble_mono ((roundDouble a n).1 * 100) (roundDouble a n).2
    ((roundDouble a' n).1 * 100) (roundDouble a' n).2
    (roundDouble_den_pos a n) (roundDouble_den_pos a' n)
    (by calc (roundDouble a n).1 * 100 * (roundDouble a' n).2
          = (roundDouble a n).1 * (roundDouble a' n).2 * 100 := by ring
        _ ≤ (roundDouble a' n).1 * (roundDouble a n).2 * 100 := Nat.mul_le_mul_right _ h1
        _ = (roundDouble a' n).1 * 100 * (roundDouble a n).2 := by ring)
  unfold percentNat
  have d1 := roundDouble_den_pos ((roundDouble a n).1 * 100) (roundDouble a n).2
  have d2 := roundDouble_den_pos ((roundDouble a' n).1 * 100) (roundDouble a' n).2
  apply div_le_div_of_cross (by omega) (by omega)
  nlinarith [h2]

/-- For a positive needed total, the expression is monotone in the assigned total. -/
theorem percentExpr_mono {a a' n : Int} (ha : 0 ≤ a) (hn : 0 < n) (h : a ≤ a') :
    percentExpr a n ≤ percentExpr a' n := by
  lift a to Nat using ha
  lift a' to Nat using (le_trans (Int.natCast_nonneg a) h)
  lift n to Nat using hn.le
  have hn' : 0 < n := by exact_mod_cast hn
  rw [percentExpr_natCast a n hn', percentExpr_natCast a' n hn']
  have : percentNat a n ≤ percentNat a' n := percentNat_mono hn' (by exact_mod_cast h)
  have : ((percentNat a n : Nat) : Int) ≤ ((percentNat a' n : Nat) : Int) := by exact_mod_cast this
  exact min_le_min le_rfl this

theorem percentExpr_range {a n : Int} (ha : 0 ≤ a) (hn : 0 < n) :
    0 ≤ percentExpr a n ∧ percentExpr a n ≤ 100 := by
  lift a to Nat using ha
  lift n to Nat using hn.le
  have hn' : 0 < n := by exact_mod_cast hn
  rw [percentExpr_natCast a n hn']
  constructor
  · exact le_min (by norm_num) (Int.natCast_nonneg _)
  · exact min_le_left _ _

theorem percentExpr_le (a n : Int) : percentExpr a n ≤ 100 := min_le_left _ _

/-! ## Binary64 rounding: error of `(a / n) * 100` -/

theorem roundHalfEven_near (P Q : Nat) (hQ : 0 < Q) :
    2 * P ≤ 2 * (roundHalfEven P Q * Q) + Q ∧ 2 * (roundHalfEven P Q * Q) ≤ 2 * P + Q := by
  have hP : Q * (P / Q) + P % Q = P := Nat.div_add_mod P Q
  have hr : P % Q < Q := Nat.mod_lt P hQ
  have e : (P / Q + 1) * Q = Q * (P / Q) + Q := by ring
  have e' : P / Q * Q = Q * (P / Q) := by ring
  unfold roundHalfEven
  split_ifs with c1 c2
  · rw [e']; omega
  · rw [e]; omega
  · rcases Nat.mod_two_eq_zero_or_one (P / Q) with h | h
    · rw [h, Nat.add_zero, e']; omega
    · rw [h, e]; omega

/-- Relative error of one rounding: `|fl(x) - x| ≤ x * 2^(-53)`. -/
theorem roundDouble_error (p q : Nat) (hp : 0 < p) (hq : 0 < q) :
    (p : ℚ) / q * (1 - 1 / 2 ^ 53) ≤ ((roundDouble p q).1 : ℚ) / ((roundDouble p q).2 : ℚ) ∧
    ((roundDouble p q).1 : ℚ) / ((roundDouble p q).2 : ℚ) ≤ (p : ℚ) / q * (1 + 1 / 2 ^ 53) := by
  rw [roundDouble_val p q hp]
  obtain ⟨r1, _⟩ := binaryShift_range p q hp hq
  set s := binaryShift p q with hs
  have hQ : 0 < q * 2 ^ (-s).toNat := Nat.mul_pos hq (by positivity)
  obtain ⟨n1, n2⟩ := roundHalfEven_near (p * 2 ^ s.toNat) (q * 2 ^ (-s).toNat) hQ
  set m := roundHalfEven (p * 2 ^ s.toNat) (q * 2 ^ (-s).toNat) with hm
  have hQq : (0 : ℚ) < ((q * 2 ^ (-s).toNat : Nat) : ℚ) := by exact_mod_cast hQ
  have ht := scaled_eq p q s
  set t : ℚ := (p : ℚ) / q * (2 : ℚ) ^ s with htdef
  -- |m - t| ≤ 1/2
  have b1 : t ≤ (m : ℚ) + 1 / 2 := by
    rw [← ht, div_le_iff₀ hQq]
    have : ((2 * (p * 2 ^ s.toNat) : Nat) : ℚ) ≤ ((2 * (m * (q * 2 ^ (-s).toNat)) + q * 2 ^ (-s).toNat : Nat) : ℚ) := by
      exact_mod_cast n1
    push_cast at this ⊢
    linarith
  have b2 : (m : ℚ) ≤ t + 1 / 2 := by
    have : ((2 * (m * (q * 2 ^ (-s).toNat)) : Nat) : ℚ) ≤ ((2 * (p * 2 ^ s.toNat) + q * 2 ^ (-s).toNat : Nat) : ℚ) := by
      exact_mod_cast n2
    have h3 : t * ((q * 2 ^ (-s).toNat : Nat) : ℚ) = ((p * 2 ^ s.toNat : Nat) : ℚ) := by
      rw [← ht, div_mul_cancel₀ _ hQq.ne']
    push_cast at this h3
    have h4 : (m : ℚ) * ((q : ℚ) * 2 ^ (-s).toNat) ≤ (t + 1 / 2) * ((q : ℚ) * 2 ^ (-s).toNat) := by
      nlinarith
    have hpos : (0 : ℚ) < (q : ℚ) * 2 ^ (-s).toNat := by exact_mod_cast hQq
    exact le_of_mul_le_mul_right h4 hpos
  have hpos : (0 : ℚ) < (2 : ℚ) ^ s := by positivity
  have hinv : (2 : ℚ) ^ (-s) * (2 : ℚ) ^ s = 1 := by
    rw [← zpow_add₀ (by norm_num : (2 : ℚ) ≠ 0)]; simp
  have hx : (p : ℚ) / q = t * (2 : ℚ) ^ (-s) := by
    rw [htdef, mul_assoc, mul_comm ((2 : ℚ) ^ s), hinv, mul_one]
  have hposn : (0 : ℚ) < (2 : ℚ) ^ (-s) := by positivity
  rw [hx]
  have ht52 : (2 : ℚ) ^ 52 ≤ t := r1
  constructor
  · have : t * (1 - 1 / 2 ^ 53) ≤ (m : ℚ) := by nlinarith
    calc t * (2 : ℚ) ^ (-s) * (1 - 1 / 2 ^ 53) = t * (1 - 1 / 2 ^ 53) * (2 : ℚ) ^ (-s) := by ring
      _ ≤ (m : ℚ) * (2 : ℚ) ^ (-s) := mul_le_mul_of_nonneg_right this hposn.le
  · have : (m : ℚ) ≤ t * (1 + 1 / 2 ^ 53) := by nlinarith
    calc (m : ℚ) * (2 : ℚ) ^ (-s) ≤ t * (1 + 1 / 2 ^ 53) * (2 : ℚ) ^ (-s) :=
          mul_le_mul_of_nonneg_right this hposn.le
      _ = t * (2 : ℚ) ^ (-s) * (1 + 1 / 2 ^ 53) := by ring

theorem nat_round_ge (k d R : Nat) (hd : 0 < d) (h : (R : ℚ) ≤ (k : ℚ) / d + 1 / 2) :
    R ≤ (2 * k + d) / (2 * d) := by
  rw [Nat.le_div_iff_mul_le (by omega)]
  have hdq : (0 : ℚ) < d := by exact_mod_cast hd
  have h' : (R : ℚ) * (2 * d) ≤ 2 * k + d := by
    have := mul_le_mul_of_nonneg_right h (by positivity : (0 : ℚ) ≤ 2 * d)
    have e : ((k : ℚ) / d + 1 / 2) * (2 * d) = 2 * k + d := by
      field_simp
      ring
    rw [e] at this
    exact this
  exact_mod_cast h'

theorem nat_round_lt (k d R : Nat) (hd : 0 < d) (h : (k : ℚ) / d + 1 / 2 < (R : ℚ) + 1) :
    (2 * k + d) / (2 * d) < R + 1 := by
  rw [Nat.div_lt_iff_lt_mul (by omega)]
  have hdq : (0 : ℚ) < d := by exact_mod_cast hd
  have h' : (2 * k + d : ℚ) < ((R : ℚ) + 1) * (2 * d) := by
    have := mul_lt_mul_of_pos_right h (by positivity : (0 : ℚ) < 2 * d)
    have e : ((k : ℚ) / d + 1 / 2) * (2 * d) = 2 * k + d := by
      field_simp
      ring
    rw [e] at this
    exact this
  exact_mod_cast h'

/-- The value `(a / n) * 100` computed in binary64 lies within a relative error of
`(1 ± 2^(-53))^2` of the exact `100 * a / n`. -/
theorem percent_value_bounds (a n : Nat) (ha : 0 < a) (hn : 0 < n) :
    100 * ((a : ℚ) / n) * (1 - 1 / 2 ^ 53) ^ 2 ≤
      ((roundDouble ((roundDouble a n).1 * 100) (roundDouble a n).2).1 : ℚ)
        / ((roundDouble ((roundDouble a n).1 * 100) (roundDouble a n).2).2 : ℚ) ∧
    ((roundDouble ((roundDouble a n).1 * 100) (roundDouble a n).2).1 : ℚ)
        / ((roundDouble ((roundDouble a n).1 * 100) (roundDouble a n).2).2 : ℚ) ≤
      100 * ((a : ℚ) / n) * (1 + 1 / 2 ^ 53) ^ 2 := by
  obtain ⟨l1, u1⟩ := roundDouble_error a n ha hn
  have hx : (0 : ℚ) < (a : ℚ) / n := by
    have : (0 : ℚ) < a := by exact_mod_cast ha
    have : (0 : ℚ) < n := by exact_mod_cast hn
    positivity
  have hd := roundDouble_den_pos a n
  have hdq : (0 : ℚ) < ((roundDouble a n).2 : ℚ) := by exact_mod_cast hd
  have hnum : 0 < (roundDouble a n).1 := by
    rcases Nat.eq_zero_or_pos (roundDouble a n).1 with h0 | h0
    · rw [h0] at l1
      simp only [Nat.cast_zero, zero_div] at l1
      have : (0 : ℚ) < (a : ℚ) / n * (1 - 1 / 2 ^ 53) := mul_pos hx (by norm_num)
      linarith
    · exact h0
  obtain ⟨l2, u2⟩ := roundDouble_error ((roundDouble a n).1 * 100) (roundDouble a n).2
    (Nat.mul_pos hnum (by norm_num)) hd
  have e : (((roundDouble a n).1 * 100 : Nat) : ℚ) / ((roundDouble a n).2 : ℚ) =
      100 * (((roundDouble a n).1 : ℚ) / ((roundDouble a n).2 : ℚ)) := by
    push_cast; ring
  rw [e] at l2 u2
  constructor
  · refine le_trans ?_ l2
    have : 100 * ((a : ℚ) / n) * (1 - 1 / 2 ^ 53) ^ 2 =
        100 * ((a : ℚ) / n * (1 - 1 / 2 ^ 53)) * (1 - 1 / 2 ^ 53) := by ring
    rw [this]
    exact mul_le_mul_of_nonneg_right (mul_le_mul_of_nonneg_left l1 (by norm_num)) (by norm_num)
  · refine le_trans u2 ?_
    have : 100 * ((a : ℚ) / n) * (1 + 1 / 2 ^ 53) ^ 2 =
        100 * ((a : ℚ) / n * (1 + 1 / 2 ^ 53)) * (1 + 1 / 2 ^ 53) := by ring
    rw [this]
    exact mul_le_mul_of_nonneg_right (mul_le_mul_of_nonneg_left u1 (by norm_num)) (by norm_num)

theorem percentNat_zero (n : Nat) : percentNat 0 n = 0 := by
  simp [percentNat, roundDouble]

theorem percentNat_ge_of_le (a n : Nat) (hn : 0 < n) (h : n ≤ a) : 100 ≤ percentNat a n := by
  have ha : 0 < a := by omega
  obtain ⟨l, _⟩ := percent_value_bounds a n ha hn
  unfold percentNat
  apply nat_round_ge _ _ 100 (roundDouble_den_pos _ _)
  have hx : (1 : ℚ) ≤ (a : ℚ) / n := by
    rw [le_div_iff₀ (by exact_mod_cast hn)]
    simpa using (by exact_mod_cast h : (n : ℚ) ≤ a)
  have : (100 : ℚ) * 1 * (1 - 1 / 2 ^ 53) ^ 2 ≤ 100 * ((a : ℚ) / n) * (1 - 1 / 2 ^ 53) ^ 2 :=
    mul_le_mul_of_nonneg_right (mul_le_mul_of_nonneg_left hx (by norm_num)) (by positivity)
  have c : (100 : ℚ) - 1 / 2 ≤ 100 * 1 * (1 - 1 / 2 ^ 53) ^ 2 := by norm_num
  push_cast
  linarith

/-- Away from exact ties the binary64 computation agrees with round-half-up of the exact
percentage; at a tie it is that value or one less. -/
theorem percentNat_near (a n : Nat) (hn : 0 < n) (hb : n < 2 ^ 44) (han : a ≤ n) :
    ((200 * a + n) % (2 * n) ≠ 0 → percentNat a n = (200 * a + n) / (2 * n)) ∧
    (percentNat a n = (200 * a + n) / (2 * n) ∨ percentNat a n + 1 = (200 * a + n) / (2 * n)) := by
  rcases Nat.eq_zero_or_pos a with h0 | ha
  · subst h0
    have : (200 * 0 + n) / (2 * n) = 0 := Nat.div_eq_of_lt (by omega)
    rw [percentNat_zero, this]
    exact ⟨fun _ => rfl, Or.inl rfl⟩
  obtain ⟨l, u⟩ := percent_value_bounds a n ha hn
  have hd := roundDouble_den_pos ((roundDouble a n).1 * 100) (roundDouble a n).2
  set k := (roundDouble ((roundDouble a n).1 * 100) (roundDouble a n).2).1 with hk
  set d := (roundDouble ((roundDouble a n).1 * 100) (roundDouble a n).2).2 with hdd
  have hpn : percentNat a n = (2 * k + d) / (2 * d) := rfl
  have hnq : (0 : ℚ) < n := by exact_mod_cast hn
  have hx0 : (0 : ℚ) ≤ (a : ℚ) / n := by positivity
  have hx1 : (a : ℚ) / n ≤ 1 := by
    rw [div_le_iff₀ hnq]
    simpa using (by exact_mod_cast han : (a : ℚ) ≤ n)
  -- absolute error at most 2^(-45)
  have cu : (100 : ℚ) * (1 + 1 / 2 ^ 53) ^ 2 ≤ 100 + 1 / 2 ^ 45 := by norm_num
  have cl : (100 : ℚ) - 1 / 2 ^ 45 ≤ 100 * (1 - 1 / 2 ^ 53) ^ 2 := by norm_num
  have u' : (k : ℚ) / d ≤ 100 * ((a : ℚ) / n) + 1 / 2 ^ 45 := by
    have : 100 * ((a : ℚ) / n) * (1 + 1 / 2 ^ 53) ^ 2 = (a : ℚ) / n * (100 * (1 + 1 / 2 ^ 53) ^ 2) := by ring
    rw [this] at u
    have h1 : (a : ℚ) / n * (100 * (1 + 1 / 2 ^ 53) ^ 2) ≤ (a : ℚ) / n * (100 + 1 / 2 ^ 45) :=
      mul_le_mul_of_nonneg_left cu hx0
    have h2 : (a : ℚ) / n * (1 / 2 ^ 45) ≤ 1 * (1 / 2 ^ 45) :=
      mul_le_mul_of_nonneg_right hx1 (by positivity)
    linarith
  have l' : 100 * ((a : ℚ) / n) - 1 / 2 ^ 45 ≤ (k : ℚ) / d := by
    have : 100 * ((a : ℚ) / n) * (1 - 1 / 2 ^ 53) ^ 2 = (a : ℚ) / n * (100 * (1 - 1 / 2 ^ 53) ^ 2) := by ring
    rw [this] at l
    have h1 : (a : ℚ) / n * (100 - 1 / 2 ^ 45) ≤ (a : ℚ) / n * (100 * (1 - 1 / 2 ^ 53) ^ 2) :=
      mul_le_mul_of_nonneg_left cl hx0
    have h2 : (a : ℚ) / n * (1 / 2 ^ 45) ≤ 1 * (1 / 2 ^ 45) :=
      mul_le_mul_of_nonneg_right hx1 (by positivity)
    linarith
  -- the exact value 100 a / n + 1/2 = R + ρ / (2 n)
  set R := (200 * a + n) / (2 * n) with hR
  set ρ := (200 * a + n) % (2 * n) with hρ
  have hdm : 2 * n * R + ρ = 200 * a + n := Nat.div_add_mod _ _
  have hρlt : ρ < 2 * n := Nat.mod_lt _ (by omega)
  have hy : 100 * ((a : ℚ) / n) + 1 / 2 = (R : ℚ) + (ρ : ℚ) / (2 * n) := by
    have : ((2 * n * R + ρ : Nat) : ℚ) = ((200 * a + n : Nat) : ℚ) := by exact_mod_cast hdm
    push_cast at this
    have e1 : (R : ℚ) + (ρ : ℚ) / (2 * n) = (2 * n * R + ρ) / (2 * n) := by
      field_simp
      ring
    rw [e1, this]
    field_simp
    ring
  have hstep : (1 : ℚ) / 2 ^ 45 < 1 / (2 * n) := by
    apply one_div_lt_one_div_of_lt (by positivity)
    have : 2 * n < 2 ^ 45 := by
      have : (2 : Nat) ^ 45 = 2 * 2 ^ 44 := by norm_num
      omega
    exact_mod_cast this
  have hfrac_nonneg : (0 : ℚ) ≤ (ρ : ℚ) / (2 * n) := by positivity
  constructor
  · intro hne
    have hρ1 : 1 ≤ ρ := Nat.one_le_iff_ne_zero.mpr hne
    have hlo : (1 : ℚ) / (2 * n) ≤ (ρ : ℚ) / (2 * n) := by
      apply div_le_div_of_nonneg_right _ (by positivity)
      exact_mod_cast hρ1
    have hhi : (ρ : ℚ) / (2 * n) ≤ 1 - 1 / (2 * n) := by
      rw [← sub_nonneg]
      have : (1 : ℚ) - 1 / (2 * n) - (ρ : ℚ) / (2 * n) = ((2 * n : ℚ) - 1 - ρ) / (2 * n) := by
        field_simp
      rw [this]
      apply div_nonneg _ (by positivity)
      have : (ρ : ℚ) + 1 ≤ 2 * n := by exact_mod_cast hρlt
      linarith
    rw [hpn]
    apply le_antisymm
    · have := nat_round_lt k d R hd (by linarith)
      omega
    · exact nat_round_ge k d R hd (by linarith)
  · rw [hpn]
    by_cases hz : ρ = 0
    · -- a tie: the computed value is within 2^(-45) of R - 1/2
      have hy' : 100 * ((a : ℚ) / n) + 1 / 2 = (R : ℚ) := by rw [hy, hz]; simp
      have hup := nat_round_lt k d R hd (by linarith)
      rcases Nat.eq_zero_or_pos R with hR0 | hRpos
      · left; omega
      · have hlow := nat_round_ge k d (R - 1) hd (by
          have : ((R - 1 : Nat) : ℚ) = (R : ℚ) - 1 := by
            rw [Nat.cast_sub hRpos]; simp
          rw [this]
          have : (1 : ℚ) / 2 ^ 45 < 1 := by norm_num
          linarith)
        omega
    · left
      have hρ1 : 1 ≤ ρ := Nat.one_le_iff_ne_zero.mpr hz
      have hlo : (1 : ℚ) / (2 * n) ≤ (ρ : ℚ) / (2 * n) := by
        apply div_le_div_of_nonneg_right _ (by positivity)
        exact_mod_cast hρ1
      have hhi : (ρ : ℚ) / (2 * n) ≤ 1 - 1 / (2 * n) := by
        rw [← sub_nonneg]
        have : (1 : ℚ) - 1 / (2 * n) - (ρ : ℚ) / (2 * n) = ((2 * n : ℚ) - 1 - ρ) / (2 * n) := by
          field_simp
        rw [this]
        apply div_nonneg _ (by positivity)
        have : (ρ : ℚ) + 1 ≤ 2 * n := by exact_mod_cast hρlt
        linarith
      apply le_antisymm
      · have := nat_round_lt k d R hd (by linarith)
        omega
      · exact nat_round_ge k d R hd (by linarith)

/-- For a positive needed total below `2^44`, the binary64 computation
`Math.min(100, Math.round((a / n) * 100))` equals `min(100, round-half-up(100 * a / n))`
unless the exact percentage lies half-way between two integers. -/
theorem percentExpr_eq_roundHalfUp (a n : Nat) (hn : 0 < n) (hb : n < 2 ^ 44)
    (hnt : (200 * a + n) % (2 * n) ≠ 0) :
    percentExpr (a : Int) (n : Int) = min 100 (roundHalfUpPercent a n) := by
  rw [percentExpr_natCast a n hn]
  have hR : roundHalfUpPercent a n = (((200 * a + n) / (2 * n) : Nat) : Int) := by
    unfold roundHalfUpPercent
    norm_cast
  rw [hR]
  rcases Nat.le_total a n with han | hna
  · rw [(percentNat_near a n hn hb han).1 hnt]
  · have h1 : 100 ≤ percentNat a n := percentNat_ge_of_le a n hn hna
    have h2 : 100 ≤ (200 * a + n) / (2 * n) := by
      rw [Nat.le_div_iff_mul_le (by omega)]
      omega
    have h1' : (100 : Int) ≤ ((percentNat a n : Nat) : Int) := by exact_mod_cast h1
    have h2' : (100 : Int) ≤ (((200 * a + n) / (2 * n) : Nat) : Int) := by exact_mod_cast h2
    rw [min_eq_left h1', min_eq_left h2']

/-! ## Staffing aggregator: the claims -/

theorem activeProjects_assigned_nonneg (project : ActiveProjects.Project) :
    0 ≤ project.assigned := by
  unfold ActiveProjects.Project.assigned
  rw [orZero_some, orZero_some, orZero_some]
  omega

theorem projectsManager_assigned_nonneg (p : ProjectsManager.Project) : 0 ≤ p.assigned := by
  unfold ProjectsManager.Project.assigned
  rw [orZero_some, orZero_some, orZero_some]
  omega

theorem detailProject_assigned_nonneg (project : DetailProject.Project) :
    0 ≤ project.assigned := by
  unfold DetailProject.Project.assigned
  rw [orZero_some, orZero_some, orZero_some]
  omega

/-- C1. For every project whose total needed count (each absent count taken as 0) is 0,
`staffedPercent` returns 0, whatever the assigned counts are. -/
theorem staffedPercent_zero_needed (project : ActiveProjects.Project)
    (h : project.needed = 0) : ActiveProjects.staffedPercent project = 0 := by
  unfold ActiveProjects.staffedPercent
  simp [h]

/-- C1, at a project that needs nobody and has eight members assigned. -/
theorem staffedPercent_zero_needed_witness :
    ActiveProjects.staffedPercent ⟨5, 2, 1, none, some 0, none⟩ = 0 :=
  staffedPercent_zero_needed ⟨5, 2, 1, none, some 0, none⟩ (by decide)

/-- C2 (failing input). The scenario of the specification (3 + 1 + 0 needed, 2 collectors and
1 supervisor assigned) gives 75; but with 23 assigned of 40 needed the exact percentage is
57.5, whose round-half-up is 58, and `staffedPercent` returns 57: the quotient `23 / 40` is
rounded to binary64 before it is multiplied by 100, and the product falls just below 57.5. -/
theorem staffedPercent_tie_rounds_down :
    ActiveProjects.staffedPercent ⟨2, 1, 0, some 3, some 1, some 0⟩ = 75 ∧
    ActiveProjects.staffedPercent ⟨23, 0, 0, some 40, some 0, some 0⟩ = 57 ∧
    min 100 (roundHalfUpPercent 23 40) = 58 := by
  decide

/-- Supplement to C2: with a positive needed total below `2^44`, `staffedPercent` equals
`min(100, round-half-up(100 * assigned / needed))` for every assigned total whose exact
percentage is not half-way between two integers. -/
theorem staffedPercent_eq_roundHalfUp (project : ActiveProjects.Project) (n : Nat)
    (hn : project.needed = (n : Int)) (hpos : 0 < n) (hb : n < 2 ^ 44)
    (hnt : (200 * (project.totalCollectors + project.totalSupervisors
      + project.totalBackcheckers) + n) % (2 * n) ≠ 0) :
    ActiveProjects.staffedPercent project =
      min 100 (roundHalfUpPercent (project.totalCollectors + project.totalSupervisors
        + project.totalBackcheckers) n) := by
  have ha : project.assigned = ((project.totalCollectors + project.totalSupervisors
      + project.totalBackcheckers : Nat) : Int) := by
    unfold ActiveProjects.Project.assigned
    rw [orZero_some, orZero_some, orZero_some]
    push_cast
    rfl
  unfold ActiveProjects.staffedPercent
  simp only [hn, ha]
  rw [if_neg (by exact_mod_cast hpos.ne'), percentExpr_eq_roundHalfUp _ n hpos hb hnt]

/-- Supplement to C2, at 22 members assigned of 40 needed (55 percent). -/
theorem staffedPercent_eq_roundHalfUp_witness :
    ActiveProjects.staffedPercent ⟨20, 2, 0, some 40, some 0, some 0⟩ =
      min 100 (roundHalfUpPercent (20 + 2 + 0) 40) :=
  staffedPercent_eq_roundHalfUp ⟨20, 2, 0, some 40, some 0, some 0⟩ 40 (by decide) (by decide)
    (by decide) (by decide)

/-- C3 (as stated, refuted). With a negative needed total the percentage decreases when the
assigned count grows: needed -1 gives 0 for nobody assigned and -100 for one member assigned. -/
theorem staffedPercent_not_monotone :
    ActiveProjects.staffedPercent ⟨1, 0, 0, some (-1), some 0, some 0⟩ <
      ActiveProjects.staffedPercent ⟨0, 0, 0, some (-1), some 0, some 0⟩ ∧
    ProjectsManager.staffedPercent ⟨⟨1, 0, 0⟩, some (-1), some 0, some 0⟩ <
      ProjectsManager.staffedPercent ⟨⟨0, 0, 0⟩, some (-1), some 0, some 0⟩ := by
  decide

/-- C3 (amended). For two projects with the same needed counts whose total is not negative,
a total assigned count that is no larger gives a staffed percentage that is no larger; in
`ActiveProjects` and in `ProjectsManager`. -/
theorem staffedPercent_mono :
    (∀ p q : ActiveProjects.Project,
      p.numCollectorsNeeded = q.numCollectorsNeeded →
      p.numSupervisorsNeeded = q.numSupervisorsNeeded →
      p.numBackcheckersNeeded = q.numBackcheckersNeeded →
      0 ≤ p.needed → p.assigned ≤ q.assigned →
      ActiveProjects.staffedPercent p ≤ ActiveProjects.staffedPercent q) ∧
    (∀ p q : ProjectsManager.Project,
      p.need_collectors = q.need_collectors →
      p.need_supervisors = q.need_supervisors →
      p.need_backcheckers = q.need_backcheckers →
      0 ≤ p.needed → p.assigned ≤ q.assigned →
      ProjectsManager.staffedPercent p ≤ ProjectsManager.staffedPercent q) := by
  constructor
  · intro p q h1 h2 h3 hn ha
    have hq : q.needed = p.needed := by
      unfold ActiveProjects.Project.needed
      rw [h1, h2, h3]
    unfold ActiveProjects.staffedPercent
    simp only [hq]
    split_ifs with h0
    · exact le_rfl
    · exact percentExpr_mono (activeProjects_assigned_nonneg p) (lt_of_le_of_ne hn (Ne.symm h0)) ha
  · intro p q h1 h2 h3 hn ha
    have hq : q.needed = p.needed := by
      unfold ProjectsManager.Project.needed
      rw [h1, h2, h3]
    unfold ProjectsManager.staffedPercent
    simp only [hq]
    split_ifs with h0
    · exact le_rfl
    · exact percentExpr_mono (projectsManager_assigned_nonneg p) (lt_of_le_of_ne hn (Ne.symm h0)) ha

/-- C3 (amended), at 22 and 23 members assigned of 40 needed. -/
theorem staffedPercent_mono_witness :
    ActiveProjects.staffedPercent ⟨22, 0, 0, some 40, some 0, some 0⟩ ≤
      ActiveProjects.staffedPercent ⟨20, 2, 1, some 40, some 0, some 0⟩ ∧
    ProjectsManager.staffedPercent ⟨⟨22, 0, 0⟩, some 40, some 0, some 0⟩ ≤
      ProjectsManager.staffedPercent ⟨⟨20, 2, 1⟩, some 40, some 0, some 0⟩ :=
  ⟨staffedPercent_mono.1 ⟨22, 0, 0, some 40, some 0, some 0⟩ ⟨20, 2, 1, some 40, some 0, some 0⟩
      rfl rfl rfl (by decide) (by decide),
   staffedPercent_mono.2 ⟨⟨22, 0, 0⟩, some 40, some 0, some 0⟩ ⟨⟨20, 2, 1⟩, some 40, some 0, some 0⟩
      rfl rfl rfl (by decide) (by decide)⟩

/-- C4 (as stated, refuted). With one member assigned and a needed total of -1 the result is
-100, which is not between 0 and 100. -/
theorem staffedPercent_negative :
    ActiveProjects.staffedPercent ⟨1, 0, 0, some (-1), some 0, some 0⟩ = -100 ∧
    DetailProject.staffedPercent (some ⟨1, 0, 0, some (-1), some 0, some 0⟩) = -100 := by
  decide

/-- C4 (amended). `staffedPercent` never exceeds 100, and it is at least 0 for every project
whose total needed count is not negative; in `ActiveProjects` and in `DetailProject` (where
the project may still be `null`). -/
theorem staffedPercent_range :
    (∀ p : ActiveProjects.Project, ActiveProjects.staffedPercent p ≤ 100 ∧
      (0 ≤ p.needed → 0 ≤ ActiveProjects.staffedPercent p)) ∧
    (DetailProject.staffedPercent none = 0) ∧
    (∀ p : DetailProject.Project, DetailProject.staffedPercent (some p) ≤ 100 ∧
      (0 ≤ p.needed → 0 ≤ DetailProject.staffedPercent (some p))) := by
  refine ⟨?_, rfl, ?_⟩
  · intro p
    unfold ActiveProjects.staffedPercent
    simp only []
    split_ifs with h0
    · exact ⟨by norm_num, fun _ => le_rfl⟩
    · exact ⟨percentExpr_le _ _, fun hn =>
        (percentExpr_range (activeProjects_assigned_nonneg p) (lt_of_le_of_ne hn (Ne.symm h0))).1⟩
  · intro p
    unfold DetailProject.staffedPercent
    simp only []
    split_ifs with h0
    · exact ⟨by norm_num, fun _ => le_rfl⟩
    · exact ⟨percentExpr_le _ _, fun hn =>
        (percentExpr_range (detailProject_assigned_nonneg p) (lt_of_le_of_ne hn (Ne.symm h0))).1⟩

/-- C4 (amended), at a needed total of 2 made of the counts 3 and -1. -/
theorem staffedPercent_range_witness :
    0 ≤ ActiveProjects.staffedPercent ⟨7, 0, 0, some 3, some (-1), some 0⟩ ∧
    0 ≤ DetailProject.staffedPercent (some ⟨7, 0, 0, some 3, some (-1), some 0⟩) :=
  ⟨(staffedPercent_range.1 ⟨7, 0, 0, some 3, some (-1), some 0⟩).2 (by decide),
   (staffedPercent_range.2.2 ⟨7, 0, 0, some 3, some (-1), some 0⟩).2 (by decide)⟩

/-! ## Role normaliser: lemmas -/

theorem toLowerCase_nil (ul : List Char → List Char) : toLowerCase ul [] = [] := by
  simp [toLowerCase]

theorem toLowerCase_ascii (ul : List Char → List Char) (s : List Char)
    (h : ∀ c ∈ s, c.toNat < 128) : toLowerCase ul s = s.map Char.toLower := by
  unfold toLowerCase
  rw [if_pos]
  simpa using h

theorem dropWhile_eq_nil_of_all {p : Char → Bool} {s : List Char} (h : ∀ c ∈ s, p c = true) :
    s.dropWhile p = [] := by
  induction s with
  | nil => rfl
  | cons c cs ih =>
    have hc : p c = true := h c (List.mem_cons_self _ _)
    rw [List.dropWhile_cons, if_pos hc]
    exact ih (fun d hd => h d (List.mem_cons_of_mem _ hd))

theorem jsTrim_whitespace (s : List Char) (h : ∀ c ∈ s, isWhiteSpace c = true) : jsTrim s = [] := by
  unfold jsTrim
  rw [dropWhile_eq_nil_of_all h]
  rfl

theorem jsTrim_sublist (s : List Char) : (jsTrim s).Sublist s := by
  unfold jsTrim
  have h1 : ((s.dropWhile isWhiteSpace).reverse.dropWhile isWhiteSpace).Sublist
      (s.dropWhile isWhiteSpace).reverse := List.dropWhile_sublist _
  have h2 := List.reverse_sublist.mpr h1
  rw [List.reverse_reverse] at h2
  exact h2.trans (List.dropWhile_sublist _)

theorem jsTrim_ascii (s : List Char) (h : ∀ c ∈ s, c.toNat < 128) :
    ∀ c ∈ jsTrim s, c.toNat < 128 :=
  fun c hc => h c ((jsTrim_sublist s).subset hc)

theorem roleToken_nil (ul : List Char → List Char) : roleToken ul [] = [] := by
  simp [roleToken, jsTrim, toLowerCase, replaceSeparators]

theorem roleToken_whitespace (ul : List Char → List Char) (s : List Char)
    (h : ∀ c ∈ s, isWhiteSpace c = true) : roleToken ul s = [] := by
  unfold roleToken
  rw [jsTrim_whitespace s h, toLowerCase_nil]
  rfl

theorem dashboard_normalizeRole_str (ul : List Char → List Char) (s : List Char) :
    Dashboard.normalizeRole ul (.str s) =
      getOr Dashboard.map (roleToken ul s) (.str (roleToken ul s)) := by
  unfold Dashboard.normalizeRole
  cases s with
  | nil => simp [JSValue.toBoolean, roleToken_nil]; rfl
  | cons c cs => simp [JSValue.toBoolean, JSValue.toJSString]

theorem activeProjects_normalizeRole_str (ul : List Char → List Char) (s : List Char) :
    ActiveProjects.normalizeRole ul (.str s) =
      getOr ActiveProjects.map (roleToken ul s) (.str (roleToken ul s)) := by
  unfold ActiveProjects.normalizeRole
  cases s with
  | nil => simp [JSValue.toBoolean, roleToken_nil]; rfl
  | cons c cs => simp [JSValue.toBoolean, JSValue.toJSString]

theorem toLower_of_sep (c : Char) (h : c = '-' ∨ isWhiteSpace c = true) : c.toLower = c := by
  rcases h with h | h
  · subst h; rfl
  · unfold Char.toLower
    have : ¬ (c.toNat ≥ 65 ∧ c.toNat ≤ 90) := by
      intro ⟨h1, h2⟩
      simp [isWhiteSpace] at h
      omega
    simp [this]

theorem replaceSeparators_append (s t : List Char) :
    replaceSeparators (s ++ t) = replaceSeparators s ++ replaceSeparators t := by
  simp [replaceSeparators]

theorem replaceSeparators_run (run : List Char)
    (h : ∀ c ∈ run, c = '-' ∨ isWhiteSpace c = true) :
    replaceSeparators (run.map Char.toLower) = List.replicate run.length '_' := by
  induction run with
  | nil => rfl
  | cons c cs ih =>
    have hc := h c (List.mem_cons_self _ _)
    have ih' := ih (fun d hd => h d (List.mem_cons_of_mem _ hd))
    simp only [List.map_cons, List.length_cons, List.replicate_succ]
    rw [toLower_of_sep c hc]
    unfold replaceSeparators at ih' ⊢
    rw [List.map_cons, ih']
    rcases hc with hc | hc
    · simp [hc]
    · simp [hc]

theorem dashboard_normalizeRole_truthy (ul : List Char → List Char) (role : JSValue)
    (h : role.toBoolean = true) :
    Dashboard.normalizeRole ul role =
      getOr Dashboard.map (roleToken ul role.toJSString)
        (.str (roleToken ul role.toJSString)) := by
  unfold Dashboard.normalizeRole
  simp [h]

theorem dashboard_normalizeRole_of_key (ul : List Char → List Char) (role : JSValue)
    (key : List Char) (v : JSValue) (htok : roleToken ul role.toJSString = key) (hne : key ≠ [])
    (h1 : key ≠ "undefined".toList) (h2 : key ≠ "null".toList)
    (hget : getOr Dashboard.map key (.str key) = v) : Dashboard.normalizeRole ul role = v := by
  have ht : role.toBoolean = true := by
    cases role with
    | undefined => exact absurd htok.symm h1
    | null => exact absurd htok.symm h2
    | str s =>
      cases s with
      | nil => exact absurd ((roleToken_nil ul).symm.trans htok).symm hne
      | cons c cs => rfl
    | nativeFunction name => rfl
    | objectPrototype => rfl
  rw [dashboard_normalizeRole_truthy ul role ht, htok, hget]

theorem replaceSeparators_lower_congr (s t : List Char)
    (h : List.Forall₂ (fun c d => c.toLower = d.toLower ∨
      ((c = ' ' ∨ c = '-' ∨ c = '_') ∧ (d = ' ' ∨ d = '-' ∨ d = '_'))) s t) :
    replaceSeparators (s.map Char.toLower) = replaceSeparators (t.map Char.toLower) := by
  induction h with
  | nil => rfl
  | cons hcd _ ih =>
    unfold replaceSeparators at ih ⊢
    simp only [List.map_cons, List.map_map] at ih ⊢
    rw [ih]
    congr 1
    rcases hcd with hl | ⟨hc, hd⟩
    · simp [hl]
    · rcases hc with hc | hc | hc <;> rcases hd with hd | hd | hd <;> subst hc <;> subst hd <;> rfl

theorem tokenChar_ofNat : ∀ n : Nat, n < 128 →
    IsTokenChar (if (Char.ofNat n).toLower = '-' || isWhiteSpace (Char.ofNat n).toLower
      then '_' else (Char.ofNat n).toLower) := by
  unfold IsTokenChar
  decide

theorem roleToken_ascii_chars (ul : List Char → List Char) (s : List Char)
    (hs : ∀ c ∈ s, c.toNat < 128) : ∀ d ∈ roleToken ul s, IsTokenChar d := by
  intro d hd
  unfold roleToken at hd
  rw [toLowerCase_ascii ul _ (jsTrim_ascii s hs)] at hd
  unfold replaceSeparators at hd
  rw [List.map_map, List.mem_map] at hd
  obtain ⟨c, hc, rfl⟩ := hd
  have hc128 : c.toNat < 128 := jsTrim_ascii s hs c hc
  have := tokenChar_ofNat c.toNat hc128
  rw [Char.ofNat_toNat] at this
  exact this

theorem dropWhile_of_all_false {p : Char → Bool} (l : List Char) (h : ∀ c ∈ l, p c = false) :
    l.dropWhile p = l := by
  cases l with
  | nil => rfl
  | cons c cs =>
    rw [List.dropWhile_cons, if_neg]
    simp [h c (List.mem_cons_self _ _)]

/-- A token of an ASCII string is its own token. -/
theorem roleToken_fixed (ul : List Char → List Char) (r : List Char)
    (h : ∀ d ∈ r, IsTokenChar d) : roleToken ul r = r := by
  have hws : ∀ d ∈ r, isWhiteSpace d = false := by
    intro d hd
    have := (h d hd).2.2
    simp only [Bool.or_eq_false_iff] at this
    exact this.2
  have htrim : jsTrim r = r := by
    unfold jsTrim
    rw [dropWhile_of_all_false r hws,
      dropWhile_of_all_false r.reverse (fun c hc => hws c (List.mem_reverse.mp hc)),
      List.reverse_reverse]
  unfold roleToken
  rw [htrim, toLowerCase_ascii ul r (fun d hd => (h d hd).1)]
  have hlow : r.map Char.toLower = r := by
    conv_rhs => rw [← List.map_id r]
    apply List.map_congr_left
    intro d hd
    exact (h d hd).2.1
  rw [hlow]
  unfold replaceSeparators
  conv_rhs => rw [← List.map_id r]
  apply List.map_congr_left
  intro d hd
  have := (h d hd).2.2
  simp only [this, id]
  rfl

theorem not_tokenChar_upper (r : List Char) (h : ∀ d ∈ r, IsTokenChar d) (c : Char)
    (hc : c.toLower ≠ c) : c ∉ r :=
  fun hmem => hc (h c hmem).2.1

theorem objectPrototypeGet_token (r : List Char) (h : ∀ d ∈ r, IsTokenChar d)
    (h1 : r ≠ "constructor".toList) (h2 : r ≠ "__proto__".toList) :
    objectPrototypeGet r = none := by
  unfold objectPrototypeGet
  rw [if_neg h1, if_neg h2, if_neg]
  intro hmem
  simp only [List.mem_cons, List.mem_singleton, List.not_mem_nil, or_false] at hmem
  have hO := not_tokenChar_upper r h 'O' (by decide)
  have hP := not_tokenChar_upper r h 'P' (by decide)
  have hS := not_tokenChar_upper r h 'S' (by decide)
  have hG := not_tokenChar_upper r h 'G' (by decide)
  have hE := not_tokenChar_upper r h 'E' (by decide)
  rcases hmem with e | e | e | e | e | e | e | e | e | e <;> rw [e] at hO hP hS hG hE
  · exact hO (by decide)
  · exact hP (by decide)
  · exact hE (by decide)
  · exact hS (by decide)
  · exact hS (by decide)
  · exact hO (by decide)
  · exact hG (by decide)
  · exact hS (by decide)
  · exact hG (by decide)
  · exact hS (by decide)


theorem getOr_token (r : List Char) (hr : ∀ d ∈ r, IsTokenChar d)
    (k1 : r ≠ "data_collector".toList) (k2 : r ≠ "collector".toList)
    (k3 : r ≠ "supervisor".toList) (k4 : r ≠ "backchecker".toList)
    (k5 : r ≠ "back_checker".toList)
    (h1 : r ≠ "constructor".toList) (h2 : r ≠ "__proto__".toList) :
    getOr Dashboard.map r (.str r) = .str r := by
  have hown : Dashboard.map.lookup r = none := by
    unfold Dashboard.map
    simp only [List.lookup, beq_eq_false_iff_ne.mpr k1, beq_eq_false_iff_ne.mpr k2,
      beq_eq_false_iff_ne.mpr k3, beq_eq_false_iff_ne.mpr k4, beq_eq_false_iff_ne.mpr k5]
  unfold getOr objectGet
  rw [hown]
  simp only []
  rw [objectPrototypeGet_token r hr h1 h2]

/-! ## Role normaliser: the claims -/

/-- C5 (failing input). On the role `constructor` the lookup `map[r]` finds the inherited
property `Object.prototype.constructor`; the result is the function `Object`, and
normalising that result gives a string, not the function again. -/
theorem normalizeRole_constructor_not_idempotent (ul : List Char → List Char) :
    Dashboard.normalizeRole ul (.str "constructor".toList) = .nativeFunction "Object".toList ∧
    Dashboard.normalizeRole ul (Dashboard.normalizeRole ul (.str "constructor".toList)) =
      .str "function_object()_\x7b_[native_code]_\x7d".toList ∧
    Dashboard.normalizeRole ul (Dashboard.normalizeRole ul (.str "constructor".toList)) ≠
      Dashboard.normalizeRole ul (.str "constructor".toList) := by
  have e1 : Dashboard.normalizeRole ul (.str "constructor".toList) =
      .nativeFunction "Object".toList := by rfl
  have e2 : Dashboard.normalizeRole ul (.nativeFunction "Object".toList) =
      .str "function_object()_\x7b_[native_code]_\x7d".toList := by rfl
  rw [e1, e2]
  exact ⟨rfl, rfl, fun h => JSValue.noConfusion h⟩

/-- Supplement to C5: on ASCII strings whose token is not the name of a property inherited
from `Object.prototype`, `normalizeRole` is idempotent. -/
theorem normalizeRole_idempotent_ascii (ul : List Char → List Char) (s : List Char)
    (hs : ∀ c ∈ s, c.toNat < 128)
    (h1 : roleToken ul s ≠ "constructor".toList) (h2 : roleToken ul s ≠ "__proto__".toList) :
    Dashboard.normalizeRole ul (Dashboard.normalizeRole ul (.str s)) =
      Dashboard.normalizeRole ul (.str s) := by
  have hr := roleToken_ascii_chars ul s hs
  rw [dashboard_normalizeRole_str ul s]
  set r := roleToken ul s with hrdef
  have c1 : Dashboard.normalizeRole ul (.str "data_collector".toList) =
      .str "data_collector".toList := by rfl
  have c2 : Dashboard.normalizeRole ul (.str "supervisor".toList) =
      .str "supervisor".toList := by rfl
  have c3 : Dashboard.normalizeRole ul (.str "backchecker".toList) =
      .str "backchecker".toList := by rfl
  by_cases k1 : r = "data_collector".toList
  · rw [k1]; exact c1
  by_cases k2 : r = "collector".toList
  · rw [k2]; exact c1
  by_cases k3 : r = "supervisor".toList
  · rw [k3]; exact c2
  by_cases k4 : r = "backchecker".toList
  · rw [k4]; exact c3
  by_cases k5 : r = "back_checker".toList
  · rw [k5]; exact c3
  have hget := getOr_token r hr k1 k2 k3 k4 k5 h1 h2
  rw [hget, dashboard_normalizeRole_str ul r, roleToken_fixed ul r hr, hget]

/-- C6. Whenever the token of the input (trimmed, lower-cased, every white-space or hyphen
character replaced by an underscore) is `data_collector` or `collector`, `normalizeRole`
returns `data_collector`; for `supervisor` it returns `supervisor`; for `backchecker` or
`back_checker` it returns `backchecker`. -/
theorem normalizeRole_lookup (ul : List Char → List Char) (role : JSValue) :
    ((roleToken ul role.toJSString = "data_collector".toList ∨
        roleToken ul role.toJSString = "collector".toList) →
      Dashboard.normalizeRole ul role = .str "data_collector".toList) ∧
    (roleToken ul role.toJSString = "supervisor".toList →
      Dashboard.normalizeRole ul role = .str "supervisor".toList) ∧
    ((roleToken ul role.toJSString = "backchecker".toList ∨
        roleToken ul role.toJSString = "back_checker".toList) →
      Dashboard.normalizeRole ul role = .str "backchecker".toList) := by
  refine ⟨?_, ?_, ?_⟩
  · rintro (h | h)
    · exact dashboard_normalizeRole_of_key ul role _ _ h (by decide) (by decide) (by decide) rfl
    · exact dashboard_normalizeRole_of_key ul role _ _ h (by decide) (by decide) (by decide) rfl
  · intro h
    exact dashboard_normalizeRole_of_key ul role _ _ h (by decide) (by decide) (by decide) rfl
  · rintro (h | h)
    · exact dashboard_normalizeRole_of_key ul role _ _ h (by decide) (by decide) (by decide) rfl
    · exact dashboard_normalizeRole_of_key ul role _ _ h (by decide) (by decide) (by decide) rfl

/-- C6, at one input for each of the three canonical roles. -/
theorem normalizeRole_lookup_witness :
    Dashboard.normalizeRole id (.str " Data-Collector ".toList) = .str "data_collector".toList ∧
    Dashboard.normalizeRole id (.str "SUPERVISOR".toList) = .str "supervisor".toList ∧
    Dashboard.normalizeRole id (.str "Back Checker".toList) = .str "backchecker".toList :=
  ⟨(normalizeRole_lookup id (.str " Data-Collector ".toList)).1 (Or.inl (by decide)),
   (normalizeRole_lookup id (.str "SUPERVISOR".toList)).2.1 (by decide),
   (normalizeRole_lookup id (.str "Back Checker".toList)).2.2 (Or.inr (by decide))⟩

/-- C7 (failing input). The tokens `constructor` and `__proto__` are none of the five lookup
keys, yet `normalizeRole` does not return them: it returns the inherited property value, which
is not a string. -/
theorem normalizeRole_inherited_not_passed_through (ul : List Char → List Char) :
    roleToken ul "constructor".toList = "constructor".toList ∧
    Dashboard.map.lookup "constructor".toList = none ∧
    Dashboard.normalizeRole ul (.str "constructor".toList) ≠ .str "constructor".toList ∧
    roleToken ul "--Proto--".toList = "__proto__".toList ∧
    Dashboard.map.lookup "__proto__".toList = none ∧
    Dashboard.normalizeRole ul (.str "--Proto--".toList) = .objectPrototype := by
  have e1 : Dashboard.normalizeRole ul (.str "constructor".toList) =
      .nativeFunction "Object".toList := by rfl
  have e2 : roleToken ul "constructor".toList = "constructor".toList := by rfl
  have e3 : roleToken ul "--Proto--".toList = "__proto__".toList := by rfl
  have e4 : Dashboard.normalizeRole ul (.str "--Proto--".toList) = .objectPrototype := by rfl
  rw [e1]
  exact ⟨e2, by decide, fun h => JSValue.noConfusion h, e3, by decide, e4⟩

/-- Supplement to C7: on ASCII strings whose token is none of the five lookup keys and not
the name of a property inherited from `Object.prototype`, `normalizeRole` returns the token
itself, as a string. -/
theorem normalizeRole_passthrough_ascii (ul : List Char → List Char) (s : List Char)
    (hs : ∀ c ∈ s, c.toNat < 128)
    (k1 : roleToken ul s ≠ "data_collector".toList) (k2 : roleToken ul s ≠ "collector".toList)
    (k3 : roleToken ul s ≠ "supervisor".toList) (k4 : roleToken ul s ≠ "backchecker".toList)
    (k5 : roleToken ul s ≠ "back_checker".toList)
    (h1 : roleToken ul s ≠ "constructor".toList) (h2 : roleToken ul s ≠ "__proto__".toList) :
    Dashboard.normalizeRole ul (.str s) = .str (roleToken ul s) := by
  rw [dashboard_normalizeRole_str ul s]
  exact getOr_token _ (roleToken_ascii_chars ul s hs) k1 k2 k3 k4 k5 h1 h2

/-- C8. `normalizeRole` returns the empty string for `undefined`, `null` and the empty
string, and for every string that consists of white space only. -/
theorem normalizeRole_empty (ul : List Char → List Char) :
    Dashboard.normalizeRole ul .undefined = .str [] ∧
    Dashboard.normalizeRole ul .null = .str [] ∧
    Dashboard.normalizeRole ul (.str []) = .str [] ∧
    ∀ s : List Char, (∀ c ∈ s, isWhiteSpace c = true) →
      Dashboard.normalizeRole ul (.str s) = .str [] := by
  refine ⟨rfl, rfl, rfl, ?_⟩
  intro s hs
  rw [dashboard_normalizeRole_str, roleToken_whitespace ul s hs]
  rfl

/-- C8, at the string made of a space, a tab, a no-break space and a line feed. -/
theorem normalizeRole_empty_witness :
    Dashboard.normalizeRole id (.str [Char.ofNat 32, Char.ofNat 9, Char.ofNat 160, Char.ofNat 10]) = .str [] :=
  (normalizeRole_empty id).2.2.2 _ (by decide)

/-- C9. `normalizeRole` is insensitive to letter case, to surrounding white space and to the
choice of separator: two ASCII strings whose trimmed forms agree position by position up to
letter case and up to exchanging a space, a hyphen and an underscore, have the same result. -/
theorem normalizeRole_insensitive (ul : List Char → List Char) (s t : List Char)
    (hs : ∀ c ∈ s, c.toNat < 128) (ht : ∀ c ∈ t, c.toNat < 128)
    (h : List.Forall₂ (fun c d => c.toLower = d.toLower ∨
      ((c = ' ' ∨ c = '-' ∨ c = '_') ∧ (d = ' ' ∨ d = '-' ∨ d = '_'))) (jsTrim s) (jsTrim t)) :
    ActiveProjects.normalizeRole ul (.str s) = ActiveProjects.normalizeRole ul (.str t) := by
  have e : roleToken ul s = roleToken ul t := by
    unfold roleToken
    rw [toLowerCase_ascii ul _ (jsTrim_ascii s hs), toLowerCase_ascii ul _ (jsTrim_ascii t ht)]
    exact replaceSeparators_lower_congr _ _ h
  rw [activeProjects_normalizeRole_str, activeProjects_normalizeRole_str, e]

/-- C9, at the three spellings of the data collector role. -/
theorem normalizeRole_insensitive_witness :
    ActiveProjects.normalizeRole id (.str " Data-Collector ".toList) =
        ActiveProjects.normalizeRole id (.str "data collector".toList) ∧
    ActiveProjects.normalizeRole id (.str "data collector".toList) =
        ActiveProjects.normalizeRole id (.str "DATA_COLLECTOR".toList) ∧
    ActiveProjects.normalizeRole id (.str "DATA_COLLECTOR".toList) = .str "data_collector".toList :=
  ⟨normalizeRole_insensitive id _ _ (by decide) (by decide) (by decide),
   normalizeRole_insensitive id _ _ (by decide) (by decide) (by decide),
   by decide⟩

/-- C10 (as stated, refuted). The input `back - checker` does not normalise to
`backchecker`: its three separator characters give three underscores. -/
theorem normalizeRole_run_not_collapsed :
    ActiveProjects.normalizeRole id (.str "back - checker".toList) = .str "back___checker".toList ∧
    ActiveProjects.normalizeRole id (.str "back - checker".toList) ≠ .str "backchecker".toList ∧
    ActiveProjects.normalizeRole id (.str "data  collector".toList) ≠ .str "data_collector".toList := by
  decide

/-- C10 (amended). Every white-space or hyphen character inside the trimmed token yields its
own underscore: a run of `k` such characters between `a` and `b` yields exactly `k`
underscores.  So `back-checker` and `data collector` normalise to `backchecker` and
`data_collector`, while `back - checker` and `data  collector` keep three and two
underscores. -/
theorem roleToken_run (ul : List Char → List Char) :
    (∀ a run b : List Char, (∀ c ∈ a ++ run ++ b, c.toNat < 128) →
      jsTrim (a ++ run ++ b) = a ++ run ++ b →
      (∀ c ∈ run, c = '-' ∨ isWhiteSpace c = true) →
      roleToken ul (a ++ run ++ b) =
        replaceSeparators (a.map Char.toLower) ++ List.replicate run.length '_'
          ++ replaceSeparators (b.map Char.toLower)) ∧
    ActiveProjects.normalizeRole ul (.str "back-checker".toList) = .str "backchecker".toList ∧
    ActiveProjects.normalizeRole ul (.str "data collector".toList) =
      .str "data_collector".toList ∧
    ActiveProjects.normalizeRole ul (.str "back - checker".toList) =
      .str "back___checker".toList ∧
    ActiveProjects.normalizeRole ul (.str "data  collector".toList) =
      .str "data__collector".toList := by
  have e1 : ActiveProjects.normalizeRole ul (.str "back-checker".toList) =
      .str "backchecker".toList := by rfl
  have e2 : ActiveProjects.normalizeRole ul (.str "data collector".toList) =
      .str "data_collector".toList := by rfl
  have e3 : ActiveProjects.normalizeRole ul (.str "back - checker".toList) =
      .str "back___checker".toList := by rfl
  have e4 : ActiveProjects.normalizeRole ul (.str "data  collector".toList) =
      .str "data__collector".toList := by rfl
  refine ⟨?_, e1, e2, e3, e4⟩
  intro a run b hascii htrim hrun
  unfold roleToken
  rw [htrim, toLowerCase_ascii ul _ hascii, List.map_append, List.map_append,
    replaceSeparators_append, replaceSeparators_append, replaceSeparators_run run hrun]

/-- C10 (amended), at the run of three separators in `back - checker`. -/
theorem roleToken_run_witness :
    roleToken id ("back".toList ++ " - ".toList ++ "checker".toList) =
      replaceSeparators ("back".toList.map Char.toLower) ++ List.replicate 3 '_'
        ++ replaceSeparators ("checker".toList.map Char.toLower) :=
  (roleToken_run id).1 "back".toList " - ".toList "checker".toList
    (by decide) (by decide) (by decide)

/-! ## Role normaliser: the six copies -/

/-- C11. The six copies of `normalizeRole` (in `ActiveProjects`, `CollectorTable`,
`Dashboard`, `DetailProject`, `ProjectsManager` and `TeamMembersManager`) return the same
result for every input. -/
theorem normalizeRole_copies_agree (ul : List Char → List Char) (role : JSValue) :
    CollectorTable.normalizeRole ul role = ActiveProjects.normalizeRole ul role ∧
    Dashboard.normalizeRole ul role = ActiveProjects.normalizeRole ul role ∧
    DetailProject.normalizeRole ul role = ActiveProjects.normalizeRole ul role ∧
    ProjectsManager.normalizeRole ul role = ActiveProjects.normalizeRole ul role ∧
    TeamMembersManager.normalizeRole ul role = ActiveProjects.normalizeRole ul role :=
  ⟨rfl, rfl, rfl, rfl, rfl⟩

/-! ## Roster reconciler: lemmas -/

theorem isArrayIncluding_iff (f : Field (List (List Char))) (x : List Char) :
    f.isArrayIncluding x = true ↔ ∃ l, f = .value l ∧ x ∈ l := by
  cases f with
  | absent => simp [Field.isArrayIncluding]
  | null => simp [Field.isArrayIncluding]
  | value l => simp [Field.isArrayIncluding]

theorem trimmedName_tagEmbedded (role : List Char) (m : Member) :
    (ActiveProjects.tagEmbedded role m).trimmedName = m.trimmedName := rfl

theorem roleList_eq (ul : List Char → List Char) (pn : List Char) (pd : ProjectData)
    (dir : List Member) (R : RoleKey) :
    (ActiveProjects.processProjectData ul pn pd dir).roleList R =
      ActiveProjects.dedupeByName ((pd.embedded R).listOr.map (ActiveProjects.tagEmbedded R.key))
        (ActiveProjects.assignedByRole ul pn dir R.key) := by
  cases R <;> rfl

theorem filter_name_map_tag (role n : List Char) (l : List Member) :
    (l.map (ActiveProjects.tagEmbedded role)).filter (fun m => m.trimmedName == n) =
      (l.filter (fun m => m.trimmedName == n)).map (ActiveProjects.tagEmbedded role) := by
  induction l with
  | nil => rfl
  | cons a l ih =>
    simp only [List.map_cons, List.filter_cons, trimmedName_tagEmbedded]
    split_ifs
    · simp only [List.map_cons, ih]
    · exact ih

/-- Among the entries of a merged list, those with the trimmed name of a primary entry are
the primary ones. -/
theorem dedupeByName_filter_name (primary extras : List Member) (n : List Char)
    (h : ∃ p ∈ primary, p.trimmedName = n) :
    (ActiveProjects.dedupeByName primary extras).filter (fun m => m.trimmedName == n) =
      primary.filter (fun m => m.trimmedName == n) := by
  unfold ActiveProjects.dedupeByName
  rw [List.filter_append, List.filter_filter]
  have : extras.filter (fun a => (a.trimmedName == n) &&
      !primary.any (fun existing => existing.trimmedName == a.trimmedName)) = [] := by
    rw [List.filter_eq_nil_iff]
    intro a _ ha
    obtain ⟨p, hp, hpn⟩ := h
    simp only [Bool.and_eq_true, beq_iff_eq, Bool.not_eq_true', List.any_eq_false] at ha
    exact ha.2 p hp (by simp [hpn, ha.1])
  rw [this, List.append_nil]

theorem dedupe_filter_name (primary extras : List Member) (n : List Char)
    (h : ∃ p ∈ primary, p.trimmedName = n) :
    (DetailProject.dedupe primary extras).filter (fun m => m.trimmedName == n) =
      primary.filter (fun m => m.trimmedName == n) :=
  dedupeByName_filter_name primary extras n h

theorem detailProject_roleList_eq (ul : List Char → List Char) (pn : List Char)
    (pd : ProjectData) (allTeam : Option (List Member)) (R : RoleKey) :
    (DetailProject.processProjectData ul pn pd allTeam).roleList R =
      DetailProject.dedupe
        ((pd.embedded R).listOr.map (fun m => DetailProject.augment (allTeam.getD []) m R.key))
        (DetailProject.assignedByRole ul pn (allTeam.getD []) R.key) := by
  cases R <;> rfl

/-! ## Roster reconciler: the claims -/

/-- C12. Dedupe, primary wins.  In `ActiveProjects`, when the embedded list of a role has
exactly one entry `e` with a given trimmed name, the reconciled list of that role has
exactly one entry with that trimmed name, and it is `e` with its role tag and its `ve_code`
default: no field of a directory candidate of the same name enters it.  The merge functions
`dedupeByName` and `dedupe` keep the primary entries of a name that the primary list has, and
nothing else of that name; in `DetailProject` the primary list is the list of the augmented
embedded entries. -/
theorem reconcile_primary_wins (ul : List Char → List Char) (pn : List Char)
    (pd : ProjectData) (dir : List Member) :
    (∀ (R : RoleKey) (e : Member),
      (pd.embedded R).listOr.filter (fun m => m.trimmedName == e.trimmedName) = [e] →
      ((ActiveProjects.processProjectData ul pn pd dir).roleList R).filter
          (fun m => m.trimmedName == e.trimmedName) =
        [{ name := e.name, role := .value R.key,
           ve_code := .value (e.ve_code.textOr "N/A".toList),
           assigned_projects := e.assigned_projects, rest := e.rest }]) ∧
    (∀ (primary extras : List Member) (p : Member),
      primary.filter (fun m => m.trimmedName == p.trimmedName) = [p] →
      (ActiveProjects.dedupeByName primary extras).filter
          (fun m => m.trimmedName == p.trimmedName) = [p] ∧
      (DetailProject.dedupe primary extras).filter
          (fun m => m.trimmedName == p.trimmedName) = [p]) ∧
    (∀ (allTeam : Option (List Member)) (R : RoleKey) (p : Member),
      ((pd.embedded R).listOr.map
          (fun m => DetailProject.augment (allTeam.getD []) m R.key)).filter
        (fun m => m.trimmedName == p.trimmedName) = [p] →
      ((DetailProject.processProjectData ul pn pd allTeam).roleList R).filter
          (fun m => m.trimmedName == p.trimmedName) = [p]) := by
  refine ⟨?_, ?_, ?_⟩
  · intro R e he
    have hmem : e ∈ (pd.embedded R).listOr := by
      have : e ∈ (pd.embedded R).listOr.filter (fun m => m.trimmedName == e.trimmedName) := by
        rw [he]; exact List.mem_singleton.mpr rfl
      exact (List.mem_filter.mp this).1
    rw [roleList_eq, dedupeByName_filter_name _ _ e.trimmedName
      ⟨ActiveProjects.tagEmbedded R.key e, List.mem_map_of_mem _ hmem, rfl⟩,
      filter_name_map_tag, he]
    rfl
  · intro primary extras p hp
    have hmem : p ∈ primary := by
      have : p ∈ primary.filter (fun m => m.trimmedName == p.trimmedName) := by
        rw [hp]; exact List.mem_singleton.mpr rfl
      exact (List.mem_filter.mp this).1
    exact ⟨by rw [dedupeByName_filter_name _ _ p.trimmedName ⟨p, hmem, rfl⟩, hp],
      by rw [dedupe_filter_name _ _ p.trimmedName ⟨p, hmem, rfl⟩, hp]⟩
  · intro allTeam R p hp
    have hmem : p ∈ (pd.embedded R).listOr.map
        (fun m => DetailProject.augment (allTeam.getD []) m R.key) := by
      have : p ∈ ((pd.embedded R).listOr.map
          (fun m => DetailProject.augment (allTeam.getD []) m R.key)).filter
          (fun m => m.trimmedName == p.trimmedName) := by
        rw [hp]; exact List.mem_singleton.mpr rfl
      exact (List.mem_filter.mp this).1
    rw [detailProject_roleList_eq, dedupe_filter_name _ _ p.trimmedName ⟨p, hmem, rfl⟩, hp]

/-- C12, at project `P1` whose embedded collectors hold one `Ana` (no other field) and whose
directory holds `Ana ` with role `Collector`, code `VE7`, assigned to `P1`, and an `id`.
A member is written `⟨name, role, ve_code, assigned_projects, rest⟩`, a payload
`⟨project_info, data_collectors, supervisors, backcheckers⟩`. -/
theorem reconcile_primary_wins_witness :
    ((ActiveProjects.processProjectData id "P1".toList
        ⟨.absent, .value [⟨.value "Ana".toList, .absent, .absent, .absent, []⟩],
          .absent, .absent⟩
        [⟨.value "Ana ".toList, .value "Collector".toList, .value "VE7".toList,
          .value ["P1".toList], [("id".toList, .num 7)]⟩]).roleList .dataCollector).filter
        (fun m => m.trimmedName == "Ana".toList) =
      [⟨.value "Ana".toList, .value "data_collector".toList, .value "N/A".toList,
        .absent, []⟩] :=
  (reconcile_primary_wins id "P1".toList
      ⟨.absent, .value [⟨.value "Ana".toList, .absent, .absent, .absent, []⟩],
        .absent, .absent⟩
      [⟨.value "Ana ".toList, .value "Collector".toList, .value "VE7".toList,
        .value ["P1".toList], [("id".toList, .num 7)]⟩]).1 .dataCollector
    ⟨.value "Ana".toList, .absent, .absent, .absent, []⟩ (by decide)

/-- Supplement to C12: in `DetailProject` the primary entry is the augmented embedded entry.
For the embedded `Ana` without other fields and the directory record `Ana` with code `VE7`,
an assignment to `P1` and an `id`, the single `Ana` of the collector list has the name and
the role tag of the embedded entry and takes the code, the assignment list and the `id`
from the directory record. -/
theorem detailProject_primary_augmented :
    (DetailProject.processProjectData id "P1".toList
        ⟨.absent, .value [⟨.value "Ana".toList, .absent, .absent, .absent, []⟩],
          .absent, .absent⟩
        (some [⟨.value "Ana".toList, .value "Collector".toList, .value "VE7".toList,
          .value ["P1".toList], [("id".toList, .num 7)]⟩])).dataCollectors =
      [⟨.value "Ana".toList, .value "data_collector".toList, .value "VE7".toList,
        .value ["P1".toList], [("id".toList, .num 7)]⟩] := by
  decide

theorem dedupeByName_nil (extras : List Member) :
    ActiveProjects.dedupeByName [] extras = extras := by
  unfold ActiveProjects.dedupeByName
  simp

/-- C13. Union: when the embedded list of a role is absent, `null` or empty, the reconciled
list of that role consists of exactly the directory members whose `assigned_projects` is a
list containing the project identifier and whose normalised role is that role, in directory
order, each with its role set to the role key. -/
theorem reconcile_union (ul : List Char → List Char) (pn : List Char) (pd : ProjectData)
    (dir : List Member) (R : RoleKey) (h : (pd.embedded R).listOr = []) :
    (ActiveProjects.processProjectData ul pn pd dir).roleList R =
      (dir.filter (fun m => m.assigned_projects.isArrayIncluding pn &&
          decide (ActiveProjects.normalizeRole ul m.role.toJSValue = .str R.key))).map
        (fun m => { m with role := .value R.key }) := by
  rw [roleList_eq, h]
  exact dedupeByName_nil _

/-- C13, at an absent embedded list and a directory of three members assigned to `P1`: two
collectors and a supervisor. -/
theorem reconcile_union_witness :
    (ActiveProjects.processProjectData id "P1".toList ⟨.absent, .absent, .absent, .absent⟩
        [⟨.value "Ana".toList, .value "Data Collector".toList, .absent,
          .value ["P1".toList], []⟩,
         ⟨.value "Ben".toList, .value "supervisor".toList, .absent, .value ["P1".toList], []⟩,
         ⟨.value "Cy".toList, .value "collector".toList, .absent,
          .value ["P2".toList, "P1".toList], []⟩]).roleList .dataCollector =
      [⟨.value "Ana".toList, .value "data_collector".toList, .absent,
          .value ["P1".toList], []⟩,
       ⟨.value "Cy".toList, .value "data_collector".toList, .absent,
          .value ["P2".toList, "P1".toList], []⟩] :=
  (reconcile_union id "P1".toList ⟨.absent, .absent, .absent, .absent⟩
      [⟨.value "Ana".toList, .value "Data Collector".toList, .absent,
        .value ["P1".toList], []⟩,
       ⟨.value "Ben".toList, .value "supervisor".toList, .absent, .value ["P1".toList], []⟩,
       ⟨.value "Cy".toList, .value "collector".toList, .absent,
        .value ["P2".toList, "P1".toList], []⟩] .dataCollector (by decide)).trans (by decide)

theorem roleList_split (ul : List Char → List Char) (pn : List Char) (pd : ProjectData)
    (dir : List Member) (R : RoleKey) :
    (ActiveProjects.processProjectData ul pn pd dir).roleList R =
      (pd.embedded R).listOr.map (ActiveProjects.tagEmbedded R.key) ++
        (ActiveProjects.assignedByRole ul pn dir R.key).filter (fun assigned =>
          !((pd.embedded R).listOr.map (ActiveProjects.tagEmbedded R.key)).any
            (fun existing => existing.trimmedName == assigned.trimmedName)) := by
  rw [roleList_eq]
  rfl

theorem roleList_take (ul : List Char → List Char) (pn : List Char) (pd : ProjectData)
    (dir : List Member) (R : RoleKey) :
    ((ActiveProjects.processProjectData ul pn pd dir).roleList R).take
        (pd.embedded R).listOr.length =
      (pd.embedded R).listOr.map (ActiveProjects.tagEmbedded R.key) := by
  rw [roleList_split]
  exact List.take_left' (List.length_map _ _)

theorem any_name_map_tag (role : List Char) (l : List Member) (n : List Char) :
    (l.map (ActiveProjects.tagEmbedded role)).any (fun existing => existing.trimmedName == n) =
      l.any (fun e => e.trimmedName == n) := by
  induction l with
  | nil => rfl
  | cons a l ih => simp only [List.map_cons, List.any_cons, trimmedName_tagEmbedded, ih]

theorem roleList_drop (ul : List Char → List Char) (pn : List Char) (pd : ProjectData)
    (dir : List Member) (R : RoleKey) :
    ((ActiveProjects.processProjectData ul pn pd dir).roleList R).drop
        (pd.embedded R).listOr.length =
      (dir.filter (fun m => m.assigned_projects.isArrayIncluding pn &&
          decide (ActiveProjects.normalizeRole ul m.role.toJSValue = .str R.key) &&
          !(pd.embedded R).listOr.any (fun e => e.trimmedName == m.trimmedName))).map
        (fun m => { m with role := .value R.key }) := by
  rw [roleList_split, List.drop_left' (List.length_map _ _)]
  unfold ActiveProjects.assignedByRole
  rw [List.filter_map, List.filter_filter]
  congr 1
  apply List.filter_congr
  intro m _
  simp only [Function.comp]
  rw [any_name_map_tag]
  have : ({ m with role := Field.value R.key } : Member).trimmedName = m.trimmedName := rfl
  rw [this, Bool.and_comm]

/-- C14 (as stated, refuted). With no embedded collectors and two directory members named
`Ana` who are both collectors assigned to the project, the collector list has two entries
with the trimmed name `Ana`; so has the list of a payload that embeds `Ana` twice. -/
theorem reconcile_keeps_duplicates :
    (ActiveProjects.processProjectData id "P1".toList ⟨.absent, .absent, .absent, .absent⟩
        [⟨.value "Ana".toList, .value "collector".toList, .value "VE1".toList,
          .value ["P1".toList], []⟩,
         ⟨.value "Ana".toList, .value "collector".toList, .value "VE2".toList,
          .value ["P1".toList], []⟩]).dataCollectors.map Member.trimmedName =
      ["Ana".toList, "Ana".toList] ∧
    (ActiveProjects.processProjectData id "P1".toList
        ⟨.absent, .value [⟨.value "Ana".toList, .absent, .absent, .absent, []⟩,
          ⟨.value " Ana".toList, .absent, .absent, .absent, []⟩], .absent, .absent⟩
        []).dataCollectors.map Member.trimmedName = ["Ana".toList, "Ana".toList] := by
  decide

/-- C14 (amended). In each role list no entry taken from the directory has the trimmed name
of an embedded entry; hence the list has no two entries with the same trimmed name whenever
the embedded entries of that role have pairwise distinct trimmed names and so have the
directory members that match the role and the project. -/
theorem reconcile_dedup (ul : List Char → List Char) (pn : List Char) (pd : ProjectData)
    (dir : List Member) (R : RoleKey) :
    (∀ x ∈ ((ActiveProjects.processProjectData ul pn pd dir).roleList R).drop
        (pd.embedded R).listOr.length,
      ∀ y ∈ ((ActiveProjects.processProjectData ul pn pd dir).roleList R).take
        (pd.embedded R).listOr.length, x.trimmedName ≠ y.trimmedName) ∧
    (((pd.embedded R).listOr.map Member.trimmedName).Nodup →
      ((dir.filter (fun m => m.assigned_projects.isArrayIncluding pn &&
          decide (ActiveProjects.normalizeRole ul m.role.toJSValue = .str R.key))).map
        Member.trimmedName).Nodup →
      (((ActiveProjects.processProjectData ul pn pd dir).roleList R).map
        Member.trimmedName).Nodup) := by
  have hdisj : ∀ x ∈ ((ActiveProjects.processProjectData ul pn pd dir).roleList R).drop
        (pd.embedded R).listOr.length,
      ∀ y ∈ ((ActiveProjects.processProjectData ul pn pd dir).roleList R).take
        (pd.embedded R).listOr.length, x.trimmedName ≠ y.trimmedName := by
    intro x hx y hy
    rw [roleList_drop] at hx
    rw [roleList_take] at hy
    obtain ⟨m, hm, rfl⟩ := List.mem_map.mp hx
    obtain ⟨e, he, rfl⟩ := List.mem_map.mp hy
    have hf := (List.mem_filter.mp hm).2
    simp only [Bool.and_eq_true, Bool.not_eq_true', List.any_eq_false, beq_iff_eq] at hf
    intro heq
    exact hf.2 e he heq.symm
  refine ⟨hdisj, ?_⟩
  intro h1 h2
  have hsplit := List.take_append_drop (pd.embedded R).listOr.length
    ((ActiveProjects.processProjectData ul pn pd dir).roleList R)
  rw [← hsplit, List.map_append, List.nodup_append]
  refine ⟨?_, ?_, ?_⟩
  · rw [roleList_take, List.map_map]
    exact h1
  · rw [roleList_drop, List.map_map]
    have hsub : (dir.filter (fun m => m.assigned_projects.isArrayIncluding pn &&
          decide (ActiveProjects.normalizeRole ul m.role.toJSValue = .str R.key) &&
          !(pd.embedded R).listOr.any (fun e => e.trimmedName == m.trimmedName))).Sublist
        (dir.filter (fun m => m.assigned_projects.isArrayIncluding pn &&
          decide (ActiveProjects.normalizeRole ul m.role.toJSValue = .str R.key))) := by
      rw [← List.filter_filter]
      exact (List.filter_sublist _).filter _
    exact (h2.sublist (hsub.map Member.trimmedName))
  · intro n hn1 hn2
    obtain ⟨y, hy, rfl⟩ := List.mem_map.mp hn1
    obtain ⟨x, hx, hxy⟩ := List.mem_map.mp hn2
    exact hdisj x hx y hy hxy

/-- C14 (amended), at an embedded `Ana` and the directory members `Ana`, `Ben` and `Cy`, all
collectors assigned to the project. -/
theorem reconcile_dedup_witness :
    (((ActiveProjects.processProjectData id "P1".toList
        ⟨.absent, .value [⟨.value "Ana".toList, .absent, .absent, .absent, []⟩],
          .absent, .absent⟩
        [⟨.value "Ana".toList, .value "collector".toList, .absent, .value ["P1".toList], []⟩,
         ⟨.value "Ben".toList, .value "collector".toList, .absent, .value ["P1".toList], []⟩,
         ⟨.value "Cy".toList, .value "collector".toList, .absent, .value ["P1".toList], []⟩]
        ).roleList .dataCollector).map Member.trimmedName).Nodup :=
  (reconcile_dedup id "P1".toList
      ⟨.absent, .value [⟨.value "Ana".toList, .absent, .absent, .absent, []⟩],
        .absent, .absent⟩
      [⟨.value "Ana".toList, .value "collector".toList, .absent, .value ["P1".toList], []⟩,
       ⟨.value "Ben".toList, .value "collector".toList, .absent, .value ["P1".toList], []⟩,
       ⟨.value "Cy".toList, .value "collector".toList, .absent, .value ["P1".toList], []⟩]
      .dataCollector).2 (by decide) (by decide)

/-- C15 (as stated, refuted). `Ana` is embedded as a collector, and the directory has an
`Ana` who is a supervisor assigned to the project: the directory entry is in the supervisor
list, and the member list holds the name under both roles. -/
theorem reconcile_cross_role_kept :
    (ActiveProjects.processProjectData id "P1".toList
        ⟨.absent, .value [⟨.value "Ana".toList, .absent, .absent, .absent, []⟩],
          .absent, .absent⟩
        [⟨.value "Ana".toList, .value "Supervisor".toList, .value "VE7".toList,
          .value ["P1".toList], []⟩]).supervisors =
      [⟨.value "Ana".toList, .value "supervisor".toList, .value "VE7".toList,
        .value ["P1".toList], []⟩] ∧
    (ActiveProjects.processProjectData id "P1".toList
        ⟨.absent, .value [⟨.value "Ana".toList, .absent, .absent, .absent, []⟩],
          .absent, .absent⟩
        [⟨.value "Ana".toList, .value "Supervisor".toList, .value "VE7".toList,
          .value ["P1".toList], []⟩]).members =
      [⟨.value "Ana".toList, .value "data_collector".toList, .value "N/A".toList,
        .absent, []⟩,
       ⟨.value "Ana".toList, .value "supervisor".toList, .value "VE7".toList,
        .value ["P1".toList], []⟩] := by
  decide

theorem roleList_subset_members (ul : List Char → List Char) (pn : List Char)
    (pd : ProjectData) (dir : List Member) (R : RoleKey) (x : Member)
    (hx : x ∈ (ActiveProjects.processProjectData ul pn pd dir).roleList R) :
    x ∈ (ActiveProjects.processProjectData ul pn pd dir).members := by
  have hm : (ActiveProjects.processProjectData ul pn pd dir).members =
      (ActiveProjects.processProjectData ul pn pd dir).roleList .dataCollector ++
      (ActiveProjects.processProjectData ul pn pd dir).roleList .supervisor ++
      (ActiveProjects.processProjectData ul pn pd dir).roleList .backchecker := rfl
  rw [hm]
  cases R
  · exact List.mem_append_left _ (List.mem_append_left _ hx)
  · exact List.mem_append_left _ (List.mem_append_right _ hx)
  · exact List.mem_append_right _ hx

/-- C15 (amended). Names are compared within one role only.  If an embedded entry `e` of
role `R` and a directory member `m`, assigned to the project with a different normalised
role `R'`, have the same trimmed name, then `e` (tagged) is in the list of `R`, and `m`
(with role `R'`) is in the list of `R'` and in the member list, unless the embedded list of
`R'` itself has an entry of that trimmed name. -/
theorem reconcile_cross_role (ul : List Char → List Char) (pn : List Char)
    (pd : ProjectData) (dir : List Member) (R R' : RoleKey) (e m : Member)
    (_hR : R ≠ R') (he : e ∈ (pd.embedded R).listOr) (hm : m ∈ dir)
    (hassigned : ∃ l, m.assigned_projects = .value l ∧ pn ∈ l)
    (hrole : ActiveProjects.normalizeRole ul m.role.toJSValue = .str R'.key)
    (_hname : e.trimmedName = m.trimmedName)
    (hfree : ∀ x ∈ (pd.embedded R').listOr, x.trimmedName ≠ m.trimmedName) :
    ActiveProjects.tagEmbedded R.key e ∈
        (ActiveProjects.processProjectData ul pn pd dir).roleList R ∧
    { m with role := .value R'.key } ∈
        (ActiveProjects.processProjectData ul pn pd dir).roleList R' ∧
    ActiveProjects.tagEmbedded R.key e ∈
        (ActiveProjects.processProjectData ul pn pd dir).members ∧
    { m with role := .value R'.key } ∈
        (ActiveProjects.processProjectData ul pn pd dir).members := by
  have h1 : ActiveProjects.tagEmbedded R.key e ∈
      (ActiveProjects.processProjectData ul pn pd dir).roleList R := by
    rw [roleList_split]
    exact List.mem_append_left _ (List.mem_map_of_mem _ he)
  have h2 : { m with role := .value R'.key } ∈
      (ActiveProjects.processProjectData ul pn pd dir).roleList R' := by
    have hd : { m with role := .value R'.key } ∈
        ((ActiveProjects.processProjectData ul pn pd dir).roleList R').drop
          (pd.embedded R').listOr.length := by
      rw [roleList_drop]
      refine List.mem_map.mpr ⟨m, List.mem_filter.mpr ⟨hm, ?_⟩, rfl⟩
      simp only [Bool.and_eq_true, Bool.not_eq_true', List.any_eq_false, beq_iff_eq,
        decide_eq_true_eq]
      exact ⟨⟨(isArrayIncluding_iff _ _).mpr hassigned, hrole⟩, hfree⟩
    exact List.mem_of_mem_drop hd
  exact ⟨h1, h2, roleList_subset_members ul pn pd dir R _ h1,
    roleList_subset_members ul pn pd dir R' _ h2⟩

/-- C15 (amended), at the embedded collector `Ana` and the directory supervisor `Ana`. -/
theorem reconcile_cross_role_witness :
    (⟨.value "Ana".toList, .value "supervisor".toList, .value "VE7".toList,
        .value ["P1".toList], []⟩ : Member) ∈
      (ActiveProjects.processProjectData id "P1".toList
        ⟨.absent, .value [⟨.value "Ana".toList, .absent, .absent, .absent, []⟩],
          .absent, .absent⟩
        [⟨.value "Ana".toList, .value "Supervisor".toList, .value "VE7".toList,
          .value ["P1".toList], []⟩]).members :=
  (reconcile_cross_role id "P1".toList
      ⟨.absent, .value [⟨.value "Ana".toList, .absent, .absent, .absent, []⟩],
        .absent, .absent⟩
      [⟨.value "Ana".toList, .value "Supervisor".toList, .value "VE7".toList,
        .value ["P1".toList], []⟩] .dataCollector .supervisor
      ⟨.value "Ana".toList, .absent, .absent, .absent, []⟩
      ⟨.value "Ana".toList, .value "Supervisor".toList, .value "VE7".toList,
        .value ["P1".toList], []⟩
      (by decide) (by decide) (by decide) ⟨["P1".toList], rfl, by decide⟩ (by decide)
      (by decide) (by decide)).2.2.2

/-- C16. In `ActiveProjects`, the first entries of the reconciled list of a role are the
embedded entries of that role in their order; each is its source record with `role` set to
the role key and `ve_code` set to the source's `ve_code` when that is a non-empty string and
to `N/A` when it is absent, `null` or empty; the name, the assignment list and every other
field are those of the source. -/
theorem reconcile_embedded_first (ul : List Char → List Char) (pn : List Char)
    (pd : ProjectData) (dir : List Member) (R : RoleKey) :
    ((ActiveProjects.processProjectData ul pn pd dir).roleList R).take
        (pd.embedded R).listOr.length =
      (pd.embedded R).listOr.map (fun src =>
        { name := src.name
          role := .value R.key
          ve_code := match src.ve_code with
            | .value code => if code = [] then .value "N/A".toList else .value code
            | _ => .value "N/A".toList
          assigned_projects := src.assigned_projects
          rest := src.rest }) := by
  rw [roleList_take]
  apply List.map_congr_left
  intro src _
  cases src with
  | mk name role ve_code assigned_projects rest =>
    cases ve_code with
    | absent => rfl
    | null => rfl
    | value code =>
      cases code with
      | nil => rfl
      | cons c cs => rfl

/-- C17. For every role `R`, the entries of the reconciled list after the embedded ones are,
in directory order, the directory members whose `assigned_projects` is a list containing the
project identifier, whose normalised role is `R`, and whose trimmed name is that of no
embedded entry of `R`; each is the directory record with `role` set to `R`. -/
theorem reconcile_directory_part (ul : List Char → List Char) (pn : List Char)
    (pd : ProjectData) (dir : List Member) (R : RoleKey) :
    ((ActiveProjects.processProjectData ul pn pd dir).roleList R).drop
        (pd.embedded R).listOr.length =
      (dir.filter (fun m => m.assigned_projects.isArrayIncluding pn &&
          decide (ActiveProjects.normalizeRole ul m.role.toJSValue = .str R.key) &&
          !(pd.embedded R).listOr.any (fun e => e.trimmedName == m.trimmedName))).map
        (fun m => { name := m.name, role := .value R.key, ve_code := m.ve_code,
                    assigned_projects := m.assigned_projects, rest := m.rest }) ∧
    ∀ x, x ∈ ((ActiveProjects.processProjectData ul pn pd dir).roleList R).drop
        (pd.embedded R).listOr.length ↔
      ∃ m ∈ dir, (∃ l, m.assigned_projects = .value l ∧ pn ∈ l) ∧
        ActiveProjects.normalizeRole ul m.role.toJSValue = .str R.key ∧
        (∀ e ∈ (pd.embedded R).listOr, e.trimmedName ≠ m.trimmedName) ∧
        x = { name := m.name, role := .value R.key, ve_code := m.ve_code,
              assigned_projects := m.assigned_projects, rest := m.rest } := by
  refine ⟨roleList_drop ul pn pd dir R, ?_⟩
  intro x
  rw [roleList_drop, List.mem_map]
  constructor
  · rintro ⟨m, hm, rfl⟩
    obtain ⟨hmd, hf⟩ := List.mem_filter.mp hm
    simp only [Bool.and_eq_true, Bool.not_eq_true', List.any_eq_false, beq_iff_eq,
      decide_eq_true_eq] at hf
    exact ⟨m, hmd, (isArrayIncluding_iff _ _).mp hf.1.1, hf.1.2, hf.2, rfl⟩
  · rintro ⟨m, hmd, ha, hr, hn, rfl⟩
    refine ⟨m, List.mem_filter.mpr ⟨hmd, ?_⟩, rfl⟩
    simp only [Bool.and_eq_true, Bool.not_eq_true', List.any_eq_false, beq_iff_eq,
      decide_eq_true_eq]
    exact ⟨⟨(isArrayIncluding_iff _ _).mpr ha, hr⟩, hn⟩

/-- C18. The member list returned by `processProjectData` is the concatenation of its
collector, supervisor and backchecker lists in that order; `memberCount` is the sum of the
three totals, and each total is the length of its list; in `ActiveProjects` and in
`DetailProject`. -/
theorem processProjectData_members (ul : List Char → List Char) (pn : List Char)
    (pd : ProjectData) (dir : List Member) (allTeam : Option (List Member)) :
    ((ActiveProjects.processProjectData ul pn pd dir).members =
        (ActiveProjects.processProjectData ul pn pd dir).dataCollectors ++
        (ActiveProjects.processProjectData ul pn pd dir).supervisors ++
        (ActiveProjects.processProjectData ul pn pd dir).backcheckers ∧
      (ActiveProjects.processProjectData ul pn pd dir).memberCount =
        (ActiveProjects.processProjectData ul pn pd dir).totalCollectors +
        (ActiveProjects.processProjectData ul pn pd dir).totalSupervisors +
        (ActiveProjects.processProjectData ul pn pd dir).totalBackcheckers ∧
      (ActiveProjects.processProjectData ul pn pd dir).totalCollectors =
        (ActiveProjects.processProjectData ul pn pd dir).dataCollectors.length ∧
      (ActiveProjects.processProjectData ul pn pd dir).totalSupervisors =
        (ActiveProjects.processProjectData ul pn pd dir).supervisors.length ∧
      (ActiveProjects.processProjectData ul pn pd dir).totalBackcheckers =
        (ActiveProjects.processProjectData ul pn pd dir).backcheckers.length) ∧
    ((DetailProject.processProjectData ul pn pd allTeam).members =
        (DetailProject.processProjectData ul pn pd allTeam).dataCollectors ++
        (DetailProject.processProjectData ul pn pd allTeam).supervisors ++
        (DetailProject.processProjectData ul pn pd allTeam).backcheckers ∧
      (DetailProject.processProjectData ul pn pd allTeam).memberCount =
        (DetailProject.processProjectData ul pn pd allTeam).totalCollectors +
        (DetailProject.processProjectData ul pn pd allTeam).totalSupervisors +
        (DetailProject.processProjectData ul pn pd allTeam).totalBackcheckers ∧
      (DetailProject.processProjectData ul pn pd allTeam).totalCollectors =
        (DetailProject.processProjectData ul pn pd allTeam).dataCollectors.length ∧
      (DetailProject.processProjectData ul pn pd allTeam).totalSupervisors =
        (DetailProject.processProjectData ul pn pd allTeam).supervisors.length ∧
      (DetailProject.processProjectData ul pn pd allTeam).totalBackcheckers =
        (DetailProject.processProjectData ul pn pd allTeam).backcheckers.length) := by
  refine ⟨⟨rfl, ?_, rfl, rfl, rfl⟩, ⟨rfl, ?_, rfl, rfl, rfl⟩⟩
  · show (_ ++ _ ++ _ : List Member).length = _
    rw [List.length_append, List.length_append]
    rfl
  · show (_ ++ _ ++ _ : List Member).length = _
    rw [List.length_append, List.length_append]
    rfl

/-- C19. `processProjectData` is defined on every payload and every directory, whichever of
the embedded lists, of `project_info` and of the members' name, role and assignment list are
absent.  When the three embedded lists are absent and no directory member has an assignment
list containing the project, the three role lists and the member list are empty and
`memberCount` is 0; an absent `project_info` gives the defaults. -/
theorem processProjectData_total (ul : List Char → List Char) (pn : List Char)
    (pd : ProjectData) (dir : List Member) :
    (∃ r, ActiveProjects.processProjectData ul pn pd dir = r) ∧
    (pd.data_collectors = .absent → pd.supervisors = .absent → pd.backcheckers = .absent →
      (∀ m ∈ dir, ¬ ∃ l, m.assigned_projects = .value l ∧ pn ∈ l) →
      (ActiveProjects.processProjectData ul pn pd dir).dataCollectors = [] ∧
      (ActiveProjects.processProjectData ul pn pd dir).supervisors = [] ∧
      (ActiveProjects.processProjectData ul pn pd dir).backcheckers = [] ∧
      (ActiveProjects.processProjectData ul pn pd dir).members = [] ∧
      (ActiveProjects.processProjectData ul pn pd dir).memberCount = 0) ∧
    (pd.project_info = .absent →
      (ActiveProjects.processProjectData ul pn pd dir).name = pn ∧
      (ActiveProjects.processProjectData ul pn pd dir).status = "Unknown".toList ∧
      (ActiveProjects.processProjectData ul pn pd dir).scrumMaster = "Not specified".toList ∧
      (ActiveProjects.processProjectData ul pn pd dir).numCollectorsNeeded = some 0 ∧
      (ActiveProjects.processProjectData ul pn pd dir).numSupervisorsNeeded = some 0 ∧
      (ActiveProjects.processProjectData ul pn pd dir).numBackcheckersNeeded = some 0) := by
  refine ⟨⟨_, rfl⟩, ?_, ?_⟩
  · intro h1 h2 h3 hdir
    have hnone : ∀ key, ActiveProjects.assignedByRole ul pn dir key = [] := by
      intro key
      unfold ActiveProjects.assignedByRole
      rw [List.map_eq_nil_iff, List.filter_eq_nil_iff]
      intro m hm hc
      simp only [Bool.and_eq_true] at hc
      exact hdir m hm ((isArrayIncluding_iff _ _).mp hc.1)
    have e1 : (ActiveProjects.processProjectData ul pn pd dir).dataCollectors = [] := by
      have := roleList_eq ul pn pd dir .dataCollector
      simp only [ProjectData.embedded, h1, hnone] at this
      exact this
    have e2 : (ActiveProjects.processProjectData ul pn pd dir).supervisors = [] := by
      have := roleList_eq ul pn pd dir .supervisor
      simp only [ProjectData.embedded, h2, hnone] at this
      exact this
    have e3 : (ActiveProjects.processProjectData ul pn pd dir).backcheckers = [] := by
      have := roleList_eq ul pn pd dir .backchecker
      simp only [ProjectData.embedded, h3, hnone] at this
      exact this
    have hm : (ActiveProjects.processProjectData ul pn pd dir).members =
        (ActiveProjects.processProjectData ul pn pd dir).dataCollectors ++
        (ActiveProjects.processProjectData ul pn pd dir).supervisors ++
        (ActiveProjects.processProjectData ul pn pd dir).backcheckers := rfl
    have hc : (ActiveProjects.processProjectData ul pn pd dir).memberCount =
        (ActiveProjects.processProjectData ul pn pd dir).members.length := rfl
    refine ⟨e1, e2, e3, ?_, ?_⟩
    · rw [hm, e1, e2, e3]; rfl
    · rw [hc, hm, e1, e2, e3]; rfl
  · intro hinfo
    unfold ActiveProjects.processProjectData
    simp only [hinfo]
    exact ⟨rfl, rfl, rfl, rfl, rfl, rfl⟩

/-- C19, at a payload without any field and a directory whose members lack a name, a role
or an assignment list, or are assigned elsewhere. -/
theorem processProjectData_total_witness :
    (ActiveProjects.processProjectData id "P1".toList ⟨.absent, .absent, .absent, .absent⟩
        [⟨.absent, .absent, .absent, .absent, []⟩,
         ⟨.value "Ben".toList, .absent, .absent, .value ["P2".toList], []⟩,
         ⟨.absent, .value "supervisor".toList, .absent, .null, []⟩]).memberCount = 0 ∧
    (ActiveProjects.processProjectData id "P1".toList ⟨.absent, .absent, .absent, .absent⟩
        [⟨.absent, .absent, .absent, .absent, []⟩,
         ⟨.value "Ben".toList, .absent, .absent, .value ["P2".toList], []⟩,
         ⟨.absent, .value "supervisor".toList, .absent, .null, []⟩]).status =
      "Unknown".toList :=
  ⟨((processProjectData_total id "P1".toList ⟨.absent, .absent, .absent, .absent⟩
      [⟨.absent, .absent, .absent, .absent, []⟩,
       ⟨.value "Ben".toList, .absent, .absent, .value ["P2".toList], []⟩,
       ⟨.absent, .value "supervisor".toList, .absent, .null, []⟩]).2.1 rfl rfl rfl
      (by
        intro m hm
        simp only [List.mem_cons, List.mem_singleton, List.not_mem_nil, or_false] at hm
        rcases hm with rfl | rfl | rfl <;> simp)).2.2.2.2,
   ((processProjectData_total id "P1".toList ⟨.absent, .absent, .absent, .absent⟩
      [⟨.absent, .absent, .absent, .absent, []⟩,
       ⟨.value "Ben".toList, .absent, .absent, .value ["P2".toList], []⟩,
       ⟨.absent, .value "supervisor".toList, .absent, .null, []⟩]).2.2 rfl).2.1⟩

/-! ## Dashboard diagnostic check -/

/-- C20 (as stated, refuted). A member with status `available` whose `assigned_projects` is
`['P1']`, with no `current_project` and no `assigned_projects_count`, is not flagged; a
member with status `available` and an empty assignment list whose
`assigned_projects_count` is 2 is flagged.  A record is written `⟨name, role, status,
current_project, projects_count, assigned_projects_count, assigned_projects,
performance_score, rest⟩`. -/
theorem anomalies_ignore_assignment_list :
    Dashboard.anomalies (Dashboard.normalizeMembers id
      [⟨.value "Ana".toList, .value "supervisor".toList, .value "available".toList, .absent,
        .absent, .absent, .value ["P1".toList], .absent, []⟩]) = [] ∧
    Dashboard.anomalies (Dashboard.normalizeMembers id
      [⟨.value "Ben".toList, .value "supervisor".toList, .value "available".toList, .absent,
        .absent, .value 2, .value [], .absent, []⟩]) =
      [⟨.value "Ben".toList, .str "supervisor".toList, .value "available".toList, .absent,
        0, 2, .value [], .absent, []⟩] := by
  decide

/-- C20 (amended). The diagnostic check flags exactly the members whose status is
`available` and that show a non-empty `current_project` or an `assigned_projects_count`
greater than 0, in directory order; the `assigned_projects` list is not read.  A member with
status `available`, assignment list `['P1']` and count 1 is flagged; one with an empty list,
no count and no current project is not. -/
theorem anomalies_iff (ul : List Char → List Char) (teamData : List Dashboard.TeamMember) :
    Dashboard.anomalies (Dashboard.normalizeMembers ul teamData) =
      Dashboard.normalizeMembers ul (teamData.filter (fun t =>
        decide (t.status = .value "available".toList) &&
          (Dashboard.textTruthy t.current_project ||
            decide (0 < Dashboard.safeNum t.assigned_projects_count)))) ∧
    (∀ (t : Dashboard.TeamMember) (l : Field (List (List Char))),
      Dashboard.anomalies (Dashboard.normalizeMembers ul [{ t with assigned_projects := l }]) =
        [] ↔ Dashboard.anomalies (Dashboard.normalizeMembers ul [t]) = []) ∧
    Dashboard.anomalies (Dashboard.normalizeMembers ul
      [⟨.value "Ana".toList, .absent, .value "available".toList, .absent,
        .absent, .value 1, .value ["P1".toList], .absent, []⟩]) ≠ [] ∧
    Dashboard.anomalies (Dashboard.normalizeMembers ul
      [⟨.value "Ben".toList, .absent, .value "available".toList, .absent,
        .absent, .absent, .value [], .absent, []⟩]) = [] := by
  have hpred : ∀ t : Dashboard.TeamMember,
      Dashboard.isAnomaly
        { name := t.name, role := Dashboard.normalizeRole ul t.role.toJSValue,
          status := t.status, current_project := t.current_project,
          projects_count := Dashboard.safeNum t.projects_count,
          assigned_projects_count := Dashboard.safeNum t.assigned_projects_count,
          assigned_projects := t.assigned_projects,
          performance_score := t.performance_score, rest := t.rest } =
        (decide (t.status = .value "available".toList) &&
          (Dashboard.textTruthy t.current_project ||
            decide (0 < Dashboard.safeNum t.assigned_projects_count))) := by
    intro t
    unfold Dashboard.isAnomaly
    simp only []
    cases hcp : t.current_project with
    | absent => simp [Dashboard.textTruthy]
    | null => simp [Dashboard.textTruthy]
    | value s => simp [Dashboard.textTruthy]
  refine ⟨?_, ?_, ?_, ?_⟩
  · unfold Dashboard.anomalies Dashboard.normalizeMembers
    rw [List.filter_map]
    congr 1
    apply List.filter_congr
    intro t _
    exact hpred t
  · intro t l
    have h1 := hpred { t with assigned_projects := l }
    have h2 := hpred t
    unfold Dashboard.anomalies Dashboard.normalizeMembers
    simp only [List.map_cons, List.map_nil, List.filter_cons, List.filter_nil]
    simp only [] at h1
    rw [h1, h2]
    split_ifs <;> simp
  · simp [Dashboard.anomalies, Dashboard.normalizeMembers, Dashboard.isAnomaly,
      Dashboard.textTruthy, Dashboard.safeNum]
  · simp [Dashboard.anomalies, Dashboard.normalizeMembers, Dashboard.isAnomaly,
      Dashboard.textTruthy, Dashboard.safeNum]

/-! ## Active projects: lemmas -/

theorem textOrEmpty_eq (s : List Char) : textOrEmpty s = s := by
  cases s <;> rfl

theorem status_active_eq (ul : List Char → List Char) (f : Field (List Char))
    (fallback : List Char) (hf : (toLowerCase ul fallback == "active".toList) = false) :
    (toLowerCase ul (textOrEmpty (f.textOr fallback)) == "active".toList) =
      (toLowerCase ul (f.textOr []) == "active".toList) := by
  have hnil : (toLowerCase ul [] == "active".toList) = false := by
    rw [toLowerCase_nil]; rfl
  rw [textOrEmpty_eq]
  cases f with
  | absent => simp only [Field.textOr]; rw [hf, hnil]
  | null => simp only [Field.textOr]; rw [hf, hnil]
  | value s =>
    cases s with
    | nil => simp only [Field.textOr, List.isEmpty_nil, if_true]; rw [hf, hnil]
    | cons c s => rfl

theorem objectEntries_of_no_index {α : Type} (own : List (List Char × α))
    (h : ∀ e ∈ own, isArrayIndex e.1 = false) : objectEntries own = own := by
  unfold objectEntries
  have h1 : own.filter (fun e => isArrayIndex e.1) = [] := by
    rw [List.filter_eq_nil_iff]
    intro e he
    simp [h e he]
  have h2 : own.filter (fun e => !isArrayIndex e.1) = own := by
    rw [List.filter_eq_self]
    intro e he
    simp [h e he]
  rw [h1, h2]
  rfl

/-! ## Active projects -/

/-- C21 (as stated, refuted). A project whose status is `Active`, which is not the string
`active`, is kept in the list of `ActiveProjects` after a successful refresh, and in the
list `activeProjects` of `ProjectsManager`. -/
theorem activeProjects_keeps_capitalised_status :
    ((ActiveProjects.fetchAllData id ⟨[], [], true, none, 0, none⟩
        (.response 200 "OK".toList (.parsed ⟨.value [("P1".toList,
          ⟨.value ⟨.absent, .absent, .absent, .absent, .absent, .absent,
            .value "Active".toList, .absent, .absent, .absent⟩, .absent, .absent, .absent⟩)]⟩))
        (.response 200 "OK".toList (.parsed ⟨.value []⟩)) false).final.projects.map
          (fun p => (p.id, p.status))) = [("P1".toList, "Active".toList)] ∧
    (ProjectsManager.activeProjects id [("P1".toList,
          ⟨.value ⟨.absent, .absent, .absent, .absent, .absent, .absent,
            .value "Active".toList, .absent, .absent, .absent⟩, .absent, .absent,
            .absent⟩)]).map
        (fun p => (p.id, p.status)) = [("P1".toList, "Active".toList)] := by
  decide

/-- C21 (amended). After a refresh in which both responses succeeded and the projects
response has an `active_projects` map, the list kept by `ActiveProjects` consists of the
processed entries whose `project_info.status`, lower-cased, equals `active` (an entry with
no status is not among them), in the order in which `Object.entries` enumerates the map;
the list `activeProjects` of `ProjectsManager` is made of the same entries; and the order
of enumeration is the order of the response when no project name is an array index. -/
theorem activeProjects_lowercased_status (ul : List Char → List Char) (st : ActiveProjects.State)
    (status status' : Nat) (statusText statusText' : List Char)
    (active_projects : List (List Char × ProjectData)) (team : TeamMembersResponse)
    (teamFirst : Bool) (h : isOk status = true) (h' : isOk status' = true) :
    (ActiveProjects.fetchAllData ul st
        (.response status statusText (.parsed ⟨.value active_projects⟩))
        (.response status' statusText' (.parsed team)) teamFirst).final.projects =
      ((objectEntries active_projects).filter (fun e =>
          toLowerCase ul ((ProjectInfo.orEmpty e.2.project_info).status.textOr [])
            == "active".toList)).map
        (fun e => ActiveProjects.processProjectData ul e.1 e.2 team.data.listOr) ∧
    ProjectsManager.activeProjects ul active_projects =
      ((objectEntries active_projects).filter (fun e =>
          toLowerCase ul ((ProjectInfo.orEmpty e.2.project_info).status.textOr [])
            == "active".toList)).map
        (fun e => ProjectsManager.listEntry e.1 e.2) ∧
    ((∀ e ∈ active_projects, isArrayIndex e.1 = false) →
      objectEntries active_projects = active_projects) := by
  refine ⟨?_, ?_, objectEntries_of_no_index active_projects⟩
  · simp only [ActiveProjects.fetchAllData, h, h', Bool.not_true, Bool.false_eq_true,
      if_false, ActiveProjects.activeProjects]
    rw [List.filter_map]
    congr 1
    apply List.filter_congr
    intro e _
    exact status_active_eq ul _ "Unknown".toList (by rw [toLowerCase_ascii ul _ (by decide)]; decide)
  · simp only [ProjectsManager.activeProjects, ProjectsManager.listFromMap, Field.listOr]
    rw [List.filter_map]
    congr 1
    apply List.filter_congr
    intro e _
    exact status_active_eq ul _ "unknown".toList (by rw [toLowerCase_ascii ul _ (by decide)]; decide)

/-- The amended C21 on a response of two projects, the second one without status. -/
theorem activeProjects_lowercased_status_witness :
    isOk 200 = true ∧
    ((ActiveProjects.fetchAllData id ⟨[], [], true, none, 0, none⟩
        (.response 200 "OK".toList (.parsed ⟨.value [("P1".toList,
          ⟨.value ⟨.absent, .absent, .absent, .absent, .absent, .absent,
            .value "ACTIVE".toList, .absent, .absent, .absent⟩, .absent, .absent, .absent⟩),
          ("P2".toList, ⟨.absent, .absent, .absent, .absent⟩)]⟩))
        (.response 200 "OK".toList (.parsed ⟨.value []⟩)) false).final.projects.map
          (fun p => p.id)) = ["P1".toList] :=
  ⟨by decide, by
    rw [(activeProjects_lowercased_status id ⟨[], [], true, none, 0, none⟩ 200 200 "OK".toList
      "OK".toList _ ⟨.value []⟩ false (by decide) (by decide)).1]
    decide⟩

/-! ## Refresh of the active projects -/

/-- C25. In `fetchAllData` of `ActiveProjects`, when the projects reply or the team-members
reply is a failure (the request is rejected or the status is not in 200..299), the refresh
ends with an empty project list, an error message and `loading` false; the stored directory
is left as it was and the state in which the handler waited holds the earlier project list,
so no project is reconciled.  Hence a non-empty project list is stored only when both
replies succeeded. -/
theorem fetchAllData_failure_is_total (ul : List Char → List Char) (st : ActiveProjects.State)
    (projectsReply : Reply ProjectsResponse) (teamMembersReply : Reply TeamMembersResponse)
    (teamFirst : Bool)
    (h : projectsReply.succeeded = false ∨ teamMembersReply.succeeded = false) :
    (ActiveProjects.fetchAllData ul st projectsReply teamMembersReply teamFirst).final.projects
      = [] ∧
    (∃ message, (ActiveProjects.fetchAllData ul st projectsReply teamMembersReply
      teamFirst).final.error = some message) ∧
    (ActiveProjects.fetchAllData ul st projectsReply teamMembersReply teamFirst).final.loading
      = false ∧
    (ActiveProjects.fetchAllData ul st projectsReply teamMembersReply
      teamFirst).final.teamMembers = st.teamMembers ∧
    (∀ s ∈ (ActiveProjects.fetchAllData ul st projectsReply teamMembersReply
      teamFirst).waiting, s.projects = st.projects) := by
  cases projectsReply with
  | rejected m =>
    cases teamMembersReply with
    | rejected m' => simp [ActiveProjects.fetchAllData]
    | response status' statusText' body' => simp [ActiveProjects.fetchAllData]
  | response status statusText body =>
    cases teamMembersReply with
    | rejected m' => simp [ActiveProjects.fetchAllData]
    | response status' statusText' body' =>
      simp only [Reply.succeeded] at h
      unfold ActiveProjects.fetchAllData
      simp only []
      by_cases hs : isOk status = true
      · have hs' : isOk status' = false := by
          rcases h with h | h
          · rw [h] at hs; exact absurd hs (by decide)
          · exact h
        simp [hs, hs']
      · simp [hs]

/-- C25 on a refresh whose projects reply succeeded and whose team-members reply has
status 500. -/
theorem fetchAllData_failure_is_total_witness :
    (Reply.succeeded (Reply.response 200 "OK".toList
        (Body.parsed (⟨.value [("P1".toList, ⟨.absent, .absent, .absent, .absent⟩)]⟩ :
          ProjectsResponse))) = false ∨
      Reply.succeeded (Reply.response 500 "Server Error".toList
        (Body.parsed (⟨.value []⟩ : TeamMembersResponse))) = false) ∧
    (ActiveProjects.fetchAllData id ⟨[], [], false, none, 0, none⟩
      (.response 200 "OK".toList
        (.parsed ⟨.value [("P1".toList, ⟨.absent, .absent, .absent, .absent⟩)]⟩))
      (.response 500 "Server Error".toList (.parsed ⟨.value []⟩)) false).final.projects = [] :=
  ⟨Or.inr (by decide),
    (fetchAllData_failure_is_total id ⟨[], [], false, none, 0, none⟩
      (.response 200 "OK".toList
        (.parsed ⟨.value [("P1".toList, ⟨.absent, .absent, .absent, .absent⟩)]⟩))
      (.response 500 "Server Error".toList (.parsed ⟨.value []⟩)) false
      (Or.inr (by decide))).1⟩

/-! ## Destructive actions -/

/-- C24. For `handleEndProject` (`ActiveProjects`), `endProject` (`ProjectsManager`) and
`deleteRow` (`TeamMembersManager`): when the user declines the confirmation, no request is
issued and the component state is unchanged; when the user accepts, the request is issued,
the in-flight flag holds the target's id in every state in which the handler waits for a
reply, and the flag is `null` when the handler has finished, whatever the replies are. -/
theorem destructive_actions_confirmed :
    (∀ (st : ActiveProjects.State) (projectId : List Char) (reply : Reply Unit),
      ActiveProjects.handleEndProject st projectId false reply =
        { requests := [], waiting := [], final := st }) ∧
    (∀ (st : ActiveProjects.State) (projectId : List Char) (reply : Reply Unit),
      (ActiveProjects.handleEndProject st projectId true reply).requests =
          [.endProject projectId] ∧
        (ActiveProjects.handleEndProject st projectId true reply).waiting ≠ [] ∧
        (∀ s ∈ (ActiveProjects.handleEndProject st projectId true reply).waiting,
          s.deletingProject = some projectId) ∧
        (ActiveProjects.handleEndProject st projectId true reply).final.deletingProject
          = none) ∧
    (∀ (st : ProjectsManager.State) (project : ProjectsManager.ListedProject)
        (reply : Reply Unit),
      ProjectsManager.endProject st project false reply =
        { requests := [], waiting := [], final := st }) ∧
    (∀ (st : ProjectsManager.State) (project : ProjectsManager.ListedProject)
        (reply : Reply Unit),
      (ProjectsManager.endProject st project true reply).requests.head? =
          some (.endProject project.id) ∧
        (ProjectsManager.endProject st project true reply).waiting ≠ [] ∧
        (∀ s ∈ (ProjectsManager.endProject st project true reply).waiting,
          s.endingId = some project.id) ∧
        (ProjectsManager.endProject st project true reply).final.endingId = none) ∧
    (∀ (st : TeamMembersManager.State) (id : Int) (reply : Reply Unit)
        (membersReply : Reply TeamMembersManager.MembersJson),
      TeamMembersManager.deleteRow st id false reply membersReply =
        { requests := [], waiting := [], final := st }) ∧
    (∀ (st : TeamMembersManager.State) (id : Int) (reply : Reply Unit)
        (membersReply : Reply TeamMembersManager.MembersJson),
      (TeamMembersManager.deleteRow st id true reply membersReply).requests.head? =
          some (.deleteMember id) ∧
        (TeamMembersManager.deleteRow st id true reply membersReply).waiting ≠ [] ∧
        (∀ s ∈ (TeamMembersManager.deleteRow st id true reply membersReply).waiting,
          s.deletingId = some id) ∧
        (TeamMembersManager.deleteRow st id true reply membersReply).final.deletingId
          = none) := by
  refine ⟨fun _ _ _ => rfl, ?_, fun _ _ _ => rfl, ?_, fun _ _ _ _ => rfl, ?_⟩
  · intro st projectId reply
    cases reply with
    | rejected m => simp [ActiveProjects.handleEndProject]
    | response status statusText body =>
      cases body <;> by_cases hs : isOk status = true <;>
        simp [ActiveProjects.handleEndProject, hs]
  · intro st project reply
    cases reply with
    | rejected m => simp [ProjectsManager.endProject]
    | response status statusText body =>
      cases body <;> by_cases hs : isOk status = true <;>
        simp [ProjectsManager.endProject, ProjectsManager.fetchAllStarted, hs]
  · intro st id reply membersReply
    cases reply with
    | rejected m => simp [TeamMembersManager.deleteRow]
    | response status statusText body =>
      by_cases hs : (!isOk status && status != 204) = true
      · simp [TeamMembersManager.deleteRow, hs]
      · cases membersReply with
        | rejected m' => simp [TeamMembersManager.deleteRow, TeamMembersManager.fetchMembers, hs]
        | response status' statusText' body' =>
          cases body' <;> by_cases hs' : isOk status' = true <;>
            simp [TeamMembersManager.deleteRow, TeamMembersManager.fetchMembers, hs, hs']

/-! ## Ratings: lemmas -/

theorem fetchRatings_final (st : DetailProject.State) (status : Nat) (statusText : List Char)
    (arr : List DetailProject.Rating) (theid : Int) (h1 : st.theid = .value theid)
    (h2 : theid ≠ 0) (h3 : isOk status = true) :
    (DetailProject.fetchRatingsAndSeparateMembers st
        (.response status statusText (.parsed arr))).final =
      { st with
        tabLoading := false
        allRatings := arr
        unratedMembers := DetailProject.unrated theid arr st.teamMembers
        ratedMembers := DetailProject.rated theid arr st.allTeamMembers
        ratings := DetailProject.ratingsMap theid arr } := by
  unfold DetailProject.fetchRatingsAndSeparateMembers
  rw [h1]
  simp [h2, h3]

theorem countP_or_disjoint {α : Type} (p q : α → Bool) (l : List α)
    (h : ∀ a ∈ l, ¬ (p a = true ∧ q a = true)) :
    l.countP (fun a => p a || q a) = l.countP p + l.countP q := by
  induction l with
  | nil => rfl
  | cons a l ih =>
    have ih' := ih (fun b hb => h b (List.mem_cons_of_mem a hb))
    have ha := h a (List.mem_cons_self a l)
    simp only [List.countP_cons, ih']
    cases hp : p a <;> cases hq : q a <;> simp_all <;> omega

/-- When the ids of a list are distinct and each is the id of exactly one member of the
team, the members whose id is in the list are as many as the ids. -/
theorem countP_contains_id (team : List Member) (ids : List (Option Scalar))
    (hn : ids.Nodup)
    (h1 : ∀ x ∈ ids, (team.filter (fun m => decide (m.id = x))).length = 1) :
    team.countP (fun m => ids.contains m.id) = ids.length := by
  induction ids with
  | nil => simp
  | cons x ids ih =>
    rw [List.nodup_cons] at hn
    have ih' := ih hn.2 (fun y hy => h1 y (List.mem_cons_of_mem x hy))
    have hx := h1 x (List.mem_cons_self x ids)
    rw [← List.countP_eq_length_filter] at hx
    have hsplit : team.countP (fun m => (x :: ids).contains m.id) =
        team.countP (fun m => decide (m.id = x) || ids.contains m.id) := by
      congr 1
      funext m
      simp [List.contains_cons]
    have hdisj := countP_or_disjoint (fun m : Member => decide (m.id = x))
      (fun m : Member => ids.contains m.id) team ?_
    · rw [hsplit, hdisj, hx, ih']
      simp only [List.length_cons]
      omega
    · intro m _ hm
      simp only [decide_eq_true_eq, List.contains_eq_any_beq, List.any_eq_true,
        beq_iff_eq] at hm
      obtain ⟨hmx, y, hy, hyx⟩ := hm
      exact hn.1 (by rw [← hmx, hyx]; exact hy)

/-! ## Ratings -/

/-- C23. After `fetchRatingsAndSeparateMembers` has received the ratings (the project id is
set and the response is a success), the unrated list is the sublist, in order, of the team
members whose `id` is not the `team_member` of a rating whose `project` is this project's
id.  So no listed member has a rating for this project, and two rating lists with the same
ratings for this project give the same unrated list. -/
theorem unrated_members (st : DetailProject.State) (status : Nat) (statusText : List Char)
    (arr : List DetailProject.Rating) (theid : Int) (h1 : st.theid = .value theid)
    (h2 : theid ≠ 0) (h3 : isOk status = true) :
    (DetailProject.fetchRatingsAndSeparateMembers st
        (.response status statusText (.parsed arr))).final.unratedMembers =
      st.teamMembers.filter (fun m =>
        !arr.any (fun r =>
          decide (r.project = some (.num theid)) && decide (r.team_member = m.id))) ∧
    (∀ m ∈ (DetailProject.fetchRatingsAndSeparateMembers st
        (.response status statusText (.parsed arr))).final.unratedMembers,
      ∀ r ∈ arr, r.project = some (.num theid) → r.team_member ≠ m.id) ∧
    (∀ arr' : List DetailProject.Rating,
      arr'.filter (fun r => decide (r.project = some (.num theid))) =
        arr.filter (fun r => decide (r.project = some (.num theid))) →
      (DetailProject.fetchRatingsAndSeparateMembers st
        (.response status statusText (.parsed arr'))).final.unratedMembers =
      (DetailProject.fetchRatingsAndSeparateMembers st
        (.response status statusText (.parsed arr))).final.unratedMembers) := by
  have hmain : ∀ arr : List DetailProject.Rating,
      (DetailProject.fetchRatingsAndSeparateMembers st
        (.response status statusText (.parsed arr))).final.unratedMembers =
      st.teamMembers.filter (fun m =>
        !arr.any (fun r =>
          decide (r.project = some (.num theid)) && decide (r.team_member = m.id))) := by
    intro arr
    rw [fetchRatings_final st status statusText arr theid h1 h2 h3]
    simp only [DetailProject.unrated, DetailProject.projectRatings]
    apply List.filter_congr
    intro m _
    congr 1
    rw [Bool.eq_iff_iff]
    simp only [List.contains_eq_any_beq, List.any_eq_true, List.mem_map, List.mem_filter,
      decide_eq_true_eq, beq_iff_eq, Bool.and_eq_true]
    constructor
    · rintro ⟨x, ⟨r, ⟨hr, hp⟩, rfl⟩, hx⟩
      exact ⟨r, hr, hp, hx.symm⟩
    · rintro ⟨r, hr, hp, hx⟩
      exact ⟨_, ⟨r, ⟨hr, hp⟩, rfl⟩, hx.symm⟩
  refine ⟨hmain arr, ?_, ?_⟩
  · intro m hm r hr hp heq
    rw [hmain arr, List.mem_filter] at hm
    have := hm.2
    simp only [Bool.not_eq_true', List.any_eq_false, Bool.and_eq_true, decide_eq_true_eq,
      not_and] at this
    exact this r hr hp heq
  · intro arr' h
    rw [fetchRatings_final st status statusText arr' theid h1 h2 h3,
      fetchRatings_final st status statusText arr theid h1 h2 h3]
    simp only [DetailProject.unrated, DetailProject.projectRatings, h]

/-- C23 on a team of two members, the first one rated for project 7, with a rating of the
second one for another project. -/
theorem unrated_members_witness :
    (DetailProject.fetchRatingsAndSeparateMembers
        ⟨[⟨.value "Ana".toList, .absent, .absent, .absent, [("id".toList, .num 1)]⟩,
          ⟨.value "Ben".toList, .absent, .absent, .absent, [("id".toList, .num 2)]⟩],
          [], .value 7, [], [], [], [], false, []⟩
        (.response 200 "OK".toList (.parsed
          [⟨some (.num 1), some (.num 7), .value 9, .absent, []⟩,
           ⟨some (.num 2), some (.num 8), .value 5, .absent, []⟩]))).final.unratedMembers =
      [⟨.value "Ben".toList, .absent, .absent, .absent, [("id".toList, .num 2)]⟩] :=
  ((unrated_members
      ⟨[⟨.value "Ana".toList, .absent, .absent, .absent, [("id".toList, .num 1)]⟩,
        ⟨.value "Ben".toList, .absent, .absent, .absent, [("id".toList, .num 2)]⟩],
        [], .value 7, [], [], [], [], false, []⟩ 200 "OK".toList
      [⟨some (.num 1), some (.num 7), .value 9, .absent, []⟩,
       ⟨some (.num 2), some (.num 8), .value 5, .absent, []⟩] 7 rfl (by decide)
      (by decide)).1).trans (by decide)

/-- C29 (as stated, refuted). With a team of one member and two ratings for project 7, one
of them of a member who is not in the team, there are two rated entries and no unrated
member: their sum is not the team size, and the progress shown is two of one. -/
theorem rated_unrated_not_partition :
    (DetailProject.fetchRatingsAndSeparateMembers
        ⟨[⟨.value "Ana".toList, .absent, .absent, .absent, [("id".toList, .num 1)]⟩],
          [], .value 7, [], [], [], [], false, []⟩
        (.response 200 "OK".toList (.parsed
          [⟨some (.num 1), some (.num 7), .value 9, .absent, []⟩,
           ⟨some (.num 2), some (.num 7), .value 5, .absent, []⟩]))).final.ratedMembers.length
      = 2 ∧
    (DetailProject.fetchRatingsAndSeparateMembers
        ⟨[⟨.value "Ana".toList, .absent, .absent, .absent, [("id".toList, .num 1)]⟩],
          [], .value 7, [], [], [], [], false, []⟩
        (.response 200 "OK".toList (.parsed
          [⟨some (.num 1), some (.num 7), .value 9, .absent, []⟩,
           ⟨some (.num 2), some (.num 7), .value 5, .absent, []⟩]))).final.unratedMembers
      = [] ∧
    (DetailProject.fetchRatingsAndSeparateMembers
        ⟨[⟨.value "Ana".toList, .absent, .absent, .absent, [("id".toList, .num 1)]⟩],
          [], .value 7, [], [], [], [], false, []⟩
        (.response 200 "OK".toList (.parsed
          [⟨some (.num 1), some (.num 7), .value 9, .absent, []⟩,
           ⟨some (.num 2), some (.num 7), .value 5, .absent, []⟩]))).final.teamMembers.length
      = 1 := by
  decide

/-- C29 (amended). After `fetchRatingsAndSeparateMembers` has received the ratings, the rated
entries are as many as the ratings of this project.  When these ratings are of distinct
members and each of them is of exactly one member of the team, the rated entries and the
unrated members together are as many as the team members, and the rated entries are at
most as many as the team members. -/
theorem rated_unrated_partition (st : DetailProject.State) (status : Nat)
    (statusText : List Char) (arr : List DetailProject.Rating) (theid : Int)
    (h1 : st.theid = .value theid) (h2 : theid ≠ 0) (h3 : isOk status = true)
    (hdistinct : ((DetailProject.projectRatings theid arr).map
      (fun r => r.team_member)).Nodup)
    (hteam : ∀ r ∈ DetailProject.projectRatings theid arr,
      (st.teamMembers.filter (fun m => decide (m.id = r.team_member))).length = 1) :
    (DetailProject.fetchRatingsAndSeparateMembers st
        (.response status statusText (.parsed arr))).final.ratedMembers.length =
      (DetailProject.projectRatings theid arr).length ∧
    (DetailProject.fetchRatingsAndSeparateMembers st
        (.response status statusText (.parsed arr))).final.ratedMembers.length +
      (DetailProject.fetchRatingsAndSeparateMembers st
        (.response status statusText (.parsed arr))).final.unratedMembers.length =
      (DetailProject.fetchRatingsAndSeparateMembers st
        (.response status statusText (.parsed arr))).final.teamMembers.length ∧
    (DetailProject.fetchRatingsAndSeparateMembers st
        (.response status statusText (.parsed arr))).final.ratedMembers.length ≤
      (DetailProject.fetchRatingsAndSeparateMembers st
        (.response status statusText (.parsed arr))).final.teamMembers.length := by
  rw [fetchRatings_final st status statusText arr theid h1 h2 h3]
  simp only [DetailProject.rated, DetailProject.unrated, List.length_map]
  have hcount := countP_contains_id st.teamMembers
    ((DetailProject.projectRatings theid arr).map (fun r => r.team_member)) hdistinct
    (by
      intro x hx
      rw [List.mem_map] at hx
      obtain ⟨r, hr, rfl⟩ := hx
      exact hteam r hr)
  rw [List.length_map] at hcount
  have hsplit := List.length_eq_countP_add_countP
    (fun m => ((DetailProject.projectRatings theid arr).map
      (fun r => r.team_member)).contains m.id) st.teamMembers
  rw [hcount] at hsplit
  have hneg : st.teamMembers.countP (fun m => decide ¬ (((DetailProject.projectRatings theid
      arr).map (fun r => r.team_member)).contains m.id = true)) =
      (st.teamMembers.filter (fun m => !((DetailProject.projectRatings theid arr).map
        (fun r => r.team_member)).contains m.id)).length := by
    rw [← List.countP_eq_length_filter]
    apply List.countP_congr
    intro m _
    simp
  rw [hneg] at hsplit
  refine ⟨trivial, ?_, ?_⟩ <;> omega

/-- The amended C29 on a team of two members, of whom the first has the one rating of
project 7. -/
theorem rated_unrated_partition_witness :
    (DetailProject.fetchRatingsAndSeparateMembers
        ⟨[⟨.value "Ana".toList, .absent, .absent, .absent, [("id".toList, .num 1)]⟩,
          ⟨.value "Ben".toList, .absent, .absent, .absent, [("id".toList, .num 2)]⟩],
          [], .value 7, [], [], [], [], false, []⟩
        (.response 200 "OK".toList (.parsed
          [⟨some (.num 1), some (.num 7), .value 9, .absent, []⟩]))).final.ratedMembers.length +
      (DetailProject.fetchRatingsAndSeparateMembers
        ⟨[⟨.value "Ana".toList, .absent, .absent, .absent, [("id".toList, .num 1)]⟩,
          ⟨.value "Ben".toList, .absent, .absent, .absent, [("id".toList, .num 2)]⟩],
          [], .value 7, [], [], [], [], false, []⟩
        (.response 200 "OK".toList (.parsed
          [⟨some (.num 1), some (.num 7), .value 9, .absent, []⟩]))).final.unratedMembers.length
      =
      (DetailProject.fetchRatingsAndSeparateMembers
        ⟨[⟨.value "Ana".toList, .absent, .absent, .absent, [("id".toList, .num 1)]⟩,
          ⟨.value "Ben".toList, .absent, .absent, .absent, [("id".toList, .num 2)]⟩],
          [], .value 7, [], [], [], [], false, []⟩
        (.response 200 "OK".toList (.parsed
          [⟨some (.num 1), some (.num 7), .value 9, .absent, []⟩]))).final.teamMembers.length :=
  (rated_unrated_partition
      ⟨[⟨.value "Ana".toList, .absent, .absent, .absent, [("id".toList, .num 1)]⟩,
        ⟨.value "Ben".toList, .absent, .absent, .absent, [("id".toList, .num 2)]⟩],
        [], .value 7, [], [], [], [], false, []⟩ 200 "OK".toList
      [⟨some (.num 1), some (.num 7), .value 9, .absent, []⟩] 7 rfl (by decide) (by decide)
      (by decide) (by decide)).2.1

/-! ## Rating bound: lemmas -/

theorem fetchRatings_requests (st : DetailProject.State)
    (reply : Reply (List DetailProject.Rating)) (r : Request)
    (hr : r ∈ (DetailProject.fetchRatingsAndSeparateMembers st reply).requests) :
    r = .getRatings := by
  unfold DetailProject.fetchRatingsAndSeparateMembers at hr
  split at hr
  · split_ifs at hr
    · simp at hr
    · split at hr
      · simpa using hr
      · split_ifs at hr
        · split at hr <;> simpa using hr
        · simpa using hr
  · simp at hr

theorem submitRating_requests (st : DetailProject.State) (member : Member)
    (reply : Reply Unit) (ratingsReply : Reply (List DetailProject.Rating)) (r : Request)
    (hr : r ∈ (DetailProject.submitRating st member reply ratingsReply).requests) :
    r = .getRatings ∨
      ∃ theid d, st.theid = .value theid ∧
        st.ratings.lookup (propertyKey member.id) = some d ∧
        (DetailProject.scoreTruthy d.rating = true ∨
          DetailProject.feedbackTruthy d.feedback = true) ∧
        (DetailProject.scoreTruthy d.rating = true → d.rating.getD 0 ≤ 12) ∧
        r = .postRating
          { team_member := member.id
            project := theid
            rating := if DetailProject.scoreTruthy d.rating then d.rating else none
            feedback := d.feedback.getD [] } := by
  unfold DetailProject.submitRating at hr
  simp only [] at hr
  split at hr
  · rename_i theid d hth hd
    by_cases h0 : theid = 0
    · rw [if_pos h0] at hr
      simp at hr
    rw [if_neg h0] at hr
    by_cases hA : (!DetailProject.scoreTruthy d.rating &&
        !DetailProject.feedbackTruthy d.feedback) = true
    · rw [if_pos hA] at hr
      simp at hr
    rw [if_neg hA] at hr
    by_cases hB : (DetailProject.scoreTruthy d.rating &&
        decide (d.rating.getD 0 > 12)) = true
    · rw [if_pos hB] at hr
      simp at hr
    rw [if_neg hB] at hr
    have hcond : (DetailProject.scoreTruthy d.rating = true ∨
        DetailProject.feedbackTruthy d.feedback = true) ∧
        (DetailProject.scoreTruthy d.rating = true → d.rating.getD 0 ≤ 12) := by
      constructor
      · cases h1 : DetailProject.scoreTruthy d.rating <;>
          cases h2 : DetailProject.feedbackTruthy d.feedback <;> simp_all
      · intro h1
        simp only [h1, Bool.true_and, decide_eq_true_eq, not_lt] at hB
        exact hB
    cases reply with
    | rejected m =>
      simp only [List.mem_singleton] at hr
      exact Or.inr ⟨theid, d, hth, hd, hcond.1, hcond.2, hr⟩
    | response status statusText body =>
      simp only [] at hr
      by_cases hs : isOk status = true
      · rw [if_pos hs] at hr
        simp only [List.mem_cons] at hr
        rcases hr with hr | hr
        · exact Or.inr ⟨theid, d, hth, hd, hcond.1, hcond.2, hr⟩
        · exact Or.inl (fetchRatings_requests _ _ r hr)
      · rw [if_neg hs] at hr
        simp only [List.mem_singleton] at hr
        exact Or.inr ⟨theid, d, hth, hd, hcond.1, hcond.2, hr⟩
  · simp at hr

/-! ## Rating bound -/

/-- C22 (as stated, refuted). With the project id set, a draft whose score is `-3` is sent
as it is, and a draft whose score is `0` with the feedback `ok` is sent without a score:
neither is refused. -/
theorem submitRating_sends_score_below_bound :
    (DetailProject.submitRating
        ⟨[], [], .value 7, [("1".toList, ⟨some (-3), none⟩)], [], [], [], false, []⟩
        ⟨.value "Ana".toList, .absent, .absent, .absent, [("id".toList, .num 1)]⟩
        (.rejected []) (.rejected [])).requests =
      [.postRating ⟨some (.num 1), 7, some (-3), []⟩] ∧
    (DetailProject.submitRating
        ⟨[], [], .value 7, [("1".toList, ⟨some 0, some "ok".toList⟩)], [], [], [], false, []⟩
        ⟨.value "Ana".toList, .absent, .absent, .absent, [("id".toList, .num 1)]⟩
        (.rejected []) (.rejected [])).requests =
      [.postRating ⟨some (.num 1), 7, none, "ok".toList⟩] := by
  decide

/-- C22 (amended). `submitRating` sends a rating request only for a draft that has a score
other than zero or a non-empty feedback; the request carries no score or the score of the
draft, which is then not zero and at most 12.  A draft whose score is above 12, a draft
with neither score nor feedback and a member without draft are refused: no request is sent
and the state is unchanged.  Scores below 1 are not refused by `submitRating`; they are kept
out by the score input, which leaves the state as it is or stores an empty score or a whole
number from 1 to 12. -/
theorem submitRating_bound :
    (∀ (st : DetailProject.State) (member : Member) (reply : Reply Unit)
        (ratingsReply : Reply (List DetailProject.Rating)) (body : RatingBody),
      Request.postRating body ∈
          (DetailProject.submitRating st member reply ratingsReply).requests →
        ∃ d, st.ratings.lookup (propertyKey member.id) = some d ∧
          (DetailProject.scoreTruthy d.rating = true ∨
            DetailProject.feedbackTruthy d.feedback = true) ∧
          (body.rating = none ∨
            ∃ n, body.rating = some n ∧ d.rating = some n ∧ n ≠ 0 ∧ n ≤ 12)) ∧
    (∀ (st : DetailProject.State) (member : Member) (reply : Reply Unit)
        (ratingsReply : Reply (List DetailProject.Rating)) (d : DetailProject.RatingDraft)
        (n : Int),
      st.ratings.lookup (propertyKey member.id) = some d → d.rating = some n → 12 < n →
        DetailProject.submitRating st member reply ratingsReply =
          { requests := [], waiting := [], final := st }) ∧
    (∀ (st : DetailProject.State) (member : Member) (reply : Reply Unit)
        (ratingsReply : Reply (List DetailProject.Rating)) (d : DetailProject.RatingDraft),
      st.ratings.lookup (propertyKey member.id) = some d →
        DetailProject.scoreTruthy d.rating = false →
        DetailProject.feedbackTruthy d.feedback = false →
        DetailProject.submitRating st member reply ratingsReply =
          { requests := [], waiting := [], final := st }) ∧
    (∀ (st : DetailProject.State) (member : Member) (reply : Reply Unit)
        (ratingsReply : Reply (List DetailProject.Rating)),
      st.ratings.lookup (propertyKey member.id) = none →
        DetailProject.submitRating st member reply ratingsReply =
          { requests := [], waiting := [], final := st }) ∧
    (∀ (st : DetailProject.State) (memberId : Option Scalar) (value : List Char),
      DetailProject.ratingInputChange st memberId value = st ∨
        DetailProject.ratingInputChange st memberId value =
          DetailProject.handleRatingChange st memberId (.rating none) ∨
        ∃ n : Int, 1 ≤ n ∧ n ≤ 12 ∧
          DetailProject.ratingInputChange st memberId value =
            DetailProject.handleRatingChange st memberId (.rating (some n))) := by
  refine ⟨?_, ?_, ?_, ?_, ?_⟩
  · intro st member reply ratingsReply body hmem
    rcases submitRating_requests st member reply ratingsReply _ hmem with h | h
    · exact absurd h (by simp)
    · obtain ⟨theid, d, _, hd, hsome, hle, hbody⟩ := h
      refine ⟨d, hd, hsome, ?_⟩
      have hr : body.rating = if DetailProject.scoreTruthy d.rating then d.rating else none := by
        injection hbody with hbody
        rw [hbody]
      cases hs : DetailProject.scoreTruthy d.rating with
      | false => left; rw [hr, hs]; rfl
      | true =>
        right
        cases hd' : d.rating with
        | none => rw [hd'] at hs; exact absurd hs (by simp [DetailProject.scoreTruthy])
        | some n =>
          refine ⟨n, ?_, rfl, ?_, ?_⟩
          · rw [hr, hs, hd']; rfl
          · rw [hd'] at hs
            simpa [DetailProject.scoreTruthy] using hs
          · have := hle hs
            rw [hd'] at this
            exact this
  · intro st member reply ratingsReply d n hd hn hlt
    unfold DetailProject.submitRating
    simp only [hd, hn]
    cases st.theid with
    | absent => rfl
    | null => rfl
    | value theid =>
      have hn0 : n ≠ 0 := by omega
      simp [DetailProject.scoreTruthy, hn, hn0, hlt]
  · intro st member reply ratingsReply d hd h1 h2
    unfold DetailProject.submitRating
    simp only [hd]
    cases st.theid with
    | absent => rfl
    | null => rfl
    | value theid => simp [h1, h2]
  · intro st member reply ratingsReply hd
    unfold DetailProject.submitRating
    simp only [hd]
    cases st.theid <;> rfl
  · intro st memberId value
    unfold DetailProject.ratingInputChange
    simp only []
    cases hv : value.isEmpty with
    | true => right; left; simp
    | false =>
      cases hp : parseInt value with
      | none => left; simp
      | some n =>
        by_cases hb : 1 ≤ n ∧ n ≤ 12
        · right; right
          exact ⟨n, hb.1, hb.2, by simp [hb.1, hb.2]⟩
        · left
          have : (decide (1 ≤ n) && decide (n ≤ 12)) = false := by
            simpa using hb
          simp [this]

/-- The amended C22 on a draft with the score 9: the request is sent and carries the
score of the draft. -/
theorem submitRating_bound_witness :
    ∃ d, ([("1".toList, ⟨some 9, none⟩)] : List (List Char × DetailProject.RatingDraft)).lookup
        (propertyKey (Member.id
          ⟨.value "Ana".toList, .absent, .absent, .absent, [("id".toList, .num 1)]⟩)) = some d ∧
      (DetailProject.scoreTruthy d.rating = true ∨
        DetailProject.feedbackTruthy d.feedback = true) ∧
      ((some 9 : Option Int) = none ∨
        ∃ n, (some 9 : Option Int) = some n ∧ d.rating = some n ∧ n ≠ 0 ∧ n ≤ 12) :=
  submitRating_bound.1
    ⟨[], [], .value 7, [("1".toList, ⟨some 9, none⟩)], [], [], [], false, []⟩
    ⟨.value "Ana".toList, .absent, .absent, .absent, [("id".toList, .num 1)]⟩
    (.rejected []) (.rejected []) ⟨some (.num 1), 7, some 9, []⟩ (by decide)

/-! ## Reconciled counts and embedded counts -/

theorem roleList_of_no_addition (ul : List Char → List Char) (pn : List Char)
    (pd : ProjectData) (dir : List Member) (R : RoleKey)
    (h : ∀ m ∈ dir, m.assigned_projects.isArrayIncluding pn = true →
      ActiveProjects.normalizeRole ul m.role.toJSValue = .str R.key →
      ∃ e ∈ (pd.embedded R).listOr, e.trimmedName = m.trimmedName) :
    (ActiveProjects.processProjectData ul pn pd dir).roleList R =
      (pd.embedded R).listOr.map (ActiveProjects.tagEmbedded R.key) := by
  rw [roleList_eq]
  unfold ActiveProjects.dedupeByName
  have hnil : (ActiveProjects.assignedByRole ul pn dir R.key).filter (fun assigned =>
      !((pd.embedded R).listOr.map (ActiveProjects.tagEmbedded R.key)).any
        (fun existing => existing.trimmedName == assigned.trimmedName)) = [] := by
    rw [List.filter_eq_nil_iff]
    intro a ha
    unfold ActiveProjects.assignedByRole at ha
    rw [List.mem_map] at ha
    obtain ⟨m, hm, rfl⟩ := ha
    rw [List.mem_filter] at hm
    simp only [Bool.and_eq_true, decide_eq_true_eq] at hm
    obtain ⟨e, he, hname⟩ := h m hm.1 hm.2.1 hm.2.2
    simp only [Bool.not_eq_true', Bool.not_eq_false, List.any_eq_true, beq_iff_eq]
    exact ⟨ActiveProjects.tagEmbedded R.key e, List.mem_map_of_mem _ he, hname⟩
  rw [hnil, List.append_nil]

/-- C26 (as stated, refuted). For a project that needs two collectors, has no embedded
member, and is in the assignment list of one collector of the directory, `ActiveProjects`
computes 50 and `ProjectsManager` computes 0. -/
theorem staffedPercent_reconciled_differs :
    ActiveProjects.staffedPercent (ActiveProjects.processProjectData id "P1".toList
        ⟨.value ⟨.absent, .absent, .absent, .absent, .absent, .absent,
          .value "active".toList, .value 2, .absent, .absent⟩, .absent, .absent, .absent⟩
        [⟨.value "Ana".toList, .value "data_collector".toList, .absent,
          .value ["P1".toList], []⟩]).toProject = 50 ∧
    ProjectsManager.staffedPercent (ProjectsManager.listEntry "P1".toList
        ⟨.value ⟨.absent, .absent, .absent, .absent, .absent, .absent,
          .value "active".toList, .value 2, .absent, .absent⟩, .absent, .absent,
          .absent⟩).toProject = 0 := by
  decide

/-- C26 (amended). When every directory member that lists the project and has the role of
one of the three lists bears the trimmed name of an embedded entry of that list, so that the
reconciler adds nobody, the staffed percentage that `ActiveProjects` computes from the
reconciled counts equals the one that `ProjectsManager` computes from the lengths of the
embedded lists. -/
theorem staffedPercent_embedded_counts (ul : List Char → List Char) (pn : List Char)
    (pd : ProjectData) (dir : List Member)
    (h : ∀ R : RoleKey, ∀ m ∈ dir, m.assigned_projects.isArrayIncluding pn = true →
      ActiveProjects.normalizeRole ul m.role.toJSValue = .str R.key →
      ∃ e ∈ (pd.embedded R).listOr, e.trimmedName = m.trimmedName) :
    ActiveProjects.staffedPercent (ActiveProjects.processProjectData ul pn pd dir).toProject =
      ProjectsManager.staffedPercent (ProjectsManager.listEntry pn pd).toProject := by
  have h1 : (ActiveProjects.processProjectData ul pn pd dir).totalCollectors =
      pd.data_collectors.listOr.length := by
    have := congrArg List.length (roleList_of_no_addition ul pn pd dir .dataCollector
      (h .dataCollector))
    rw [List.length_map] at this
    exact this
  have h2 : (ActiveProjects.processProjectData ul pn pd dir).totalSupervisors =
      pd.supervisors.listOr.length := by
    have := congrArg List.length (roleList_of_no_addition ul pn pd dir .supervisor
      (h .supervisor))
    rw [List.length_map] at this
    exact this
  have h3 : (ActiveProjects.processProjectData ul pn pd dir).totalBackcheckers =
      pd.backcheckers.listOr.length := by
    have := congrArg List.length (roleList_of_no_addition ul pn pd dir .backchecker
      (h .backchecker))
    rw [List.length_map] at this
    exact this
  unfold ActiveProjects.staffedPercent ProjectsManager.staffedPercent
    ActiveProjects.Project.assigned ProjectsManager.Project.assigned
    ActiveProjects.Project.needed ProjectsManager.Project.needed
  rw [h1, h2, h3]
  simp only [ProjectsManager.listEntry, ActiveProjects.processProjectData, List.length_map]

/-- The amended C26 on a project with one embedded collector who is also in the directory. -/
theorem staffedPercent_embedded_counts_witness :
    ActiveProjects.staffedPercent (ActiveProjects.processProjectData id "P1".toList
        ⟨.value ⟨.absent, .absent, .absent, .absent, .absent, .absent,
          .value "active".toList, .value 2, .absent, .absent⟩,
          .value [⟨.value "Ana".toList, .absent, .absent, .absent, []⟩], .absent, .absent⟩
        [⟨.value " Ana ".toList, .value "collector".toList, .absent,
          .value ["P1".toList], []⟩]).toProject =
      ProjectsManager.staffedPercent (ProjectsManager.listEntry "P1".toList
        ⟨.value ⟨.absent, .absent, .absent, .absent, .absent, .absent,
          .value "active".toList, .value 2, .absent, .absent⟩,
          .value [⟨.value "Ana".toList, .absent, .absent, .absent, []⟩], .absent,
          .absent⟩).toProject :=
  staffedPercent_embedded_counts id "P1".toList
    ⟨.value ⟨.absent, .absent, .absent, .absent, .absent, .absent,
      .value "active".toList, .value 2, .absent, .absent⟩,
      .value [⟨.value "Ana".toList, .absent, .absent, .absent, []⟩], .absent, .absent⟩
    [⟨.value " Ana ".toList, .value "collector".toList, .absent, .value ["P1".toList], []⟩]
    (by
      intro R m hm _ hrole
      simp only [List.mem_singleton] at hm
      subst hm
      cases R with
      | dataCollector => exact ⟨_, List.mem_singleton_self _, by decide⟩
      | supervisor => exact absurd hrole (by decide)
      | backchecker => exact absurd hrole (by decide))

/-- Whatever the directory holds, for a needed total that is not negative the staffed
percentage of `ProjectsManager` is at most the one of `ActiveProjects`. -/
theorem staffedPercent_embedded_le (ul : List Char → List Char) (pn : List Char)
    (pd : ProjectData) (dir : List Member)
    (hn : 0 ≤ (ProjectsManager.listEntry pn pd).toProject.needed) :
    ProjectsManager.staffedPercent (ProjectsManager.listEntry pn pd).toProject ≤
      ActiveProjects.staffedPercent
        (ActiveProjects.processProjectData ul pn pd dir).toProject := by
  have hlen : ∀ R : RoleKey, (pd.embedded R).listOr.length ≤
      ((ActiveProjects.processProjectData ul pn pd dir).roleList R).length := by
    intro R
    rw [roleList_eq]
    unfold ActiveProjects.dedupeByName
    rw [List.length_append, List.length_map]
    omega
  have h1 : pd.data_collectors.listOr.length ≤
      (ActiveProjects.processProjectData ul pn pd dir).totalCollectors := hlen .dataCollector
  have h2 : pd.supervisors.listOr.length ≤
      (ActiveProjects.processProjectData ul pn pd dir).totalSupervisors := hlen .supervisor
  have h3 : pd.backcheckers.listOr.length ≤
      (ActiveProjects.processProjectData ul pn pd dir).totalBackcheckers := hlen .backchecker
  have hneeded : (ActiveProjects.processProjectData ul pn pd dir).toProject.needed =
      (ProjectsManager.listEntry pn pd).toProject.needed := rfl
  have hassigned : (ProjectsManager.listEntry pn pd).toProject.assigned ≤
      (ActiveProjects.processProjectData ul pn pd dir).toProject.assigned := by
    unfold ProjectsManager.Project.assigned ActiveProjects.Project.assigned
    simp only [orZero_some]
    have e1 : (ProjectsManager.listEntry pn pd).totals.collectors =
        pd.data_collectors.listOr.length := by
      simp [ProjectsManager.listEntry]
    have e2 : (ProjectsManager.listEntry pn pd).totals.supervisors =
        pd.supervisors.listOr.length := by
      simp [ProjectsManager.listEntry]
    have e3 : (ProjectsManager.listEntry pn pd).totals.backcheckers =
        pd.backcheckers.listOr.length := by
      simp [ProjectsManager.listEntry]
    rw [e1, e2, e3]
    have h1' : ((pd.data_collectors.listOr.length : Nat) : Int) ≤
        ((ActiveProjects.processProjectData ul pn pd dir).totalCollectors : Int) := by
      exact_mod_cast h1
    have h2' : ((pd.supervisors.listOr.length : Nat) : Int) ≤
        ((ActiveProjects.processProjectData ul pn pd dir).totalSupervisors : Int) := by
      exact_mod_cast h2
    have h3' : ((pd.backcheckers.listOr.length : Nat) : Int) ≤
        ((ActiveProjects.processProjectData ul pn pd dir).totalBackcheckers : Int) := by
      exact_mod_cast h3
    omega
  have hnonneg : 0 ≤ (ProjectsManager.listEntry pn pd).toProject.assigned :=
    projectsManager_assigned_nonneg _
  unfold ProjectsManager.staffedPercent ActiveProjects.staffedPercent
  simp only [hneeded]
  by_cases h0 : (ProjectsManager.listEntry pn pd).toProject.needed = 0
  · rw [if_pos h0, if_pos h0]
  · rw [if_neg h0, if_neg h0]
    exact percentExpr_mono hnonneg (lt_of_le_of_ne hn (Ne.symm h0)) hassigned

/-! ## The two reconcilers -/

theorem trimmedName_augment (team : List Member) (m : Member) (role : List Char)
    (h : ∃ s, m.name = .value s ∧ s ≠ []) :
    (DetailProject.augment team m role).trimmedName = m.trimmedName := by
  obtain ⟨s, hs, hne⟩ := h
  have hempty : s.isEmpty = false := by
    cases s with
    | nil => exact absurd rfl hne
    | cons c s => rfl
  unfold DetailProject.augment
  cases (DetailProject.byName team).lookup m.trimmedName with
  | none => simp [Member.trimmedName, Field.textOr, hs, hempty]
  | some full => simp [Member.trimmedName, Field.textOr, hs, hempty]

theorem any_trimmedName_eq (primary : List Member) (n : List Char) :
    primary.any (fun y => y.trimmedName == n) =
      (primary.map Member.trimmedName).any (fun k => k == n) := by
  induction primary with
  | nil => rfl
  | cons a l ih => simp only [List.any_cons, List.map_cons, ih]

theorem dedupe_names (primary primary' extras : List Member)
    (h : primary.map Member.trimmedName = primary'.map Member.trimmedName) :
    (ActiveProjects.dedupeByName primary extras).map Member.trimmedName =
      (DetailProject.dedupe primary' extras).map Member.trimmedName := by
  unfold ActiveProjects.dedupeByName DetailProject.dedupe
  rw [List.map_append, List.map_append, h]
  congr 2
  apply List.filter_congr
  intro x _
  congr 1
  rw [any_trimmedName_eq primary, any_trimmedName_eq primary', h]

theorem reconcilers_roleList_names (ul : List Char → List Char) (pn : List Char)
    (pd : ProjectData) (allTeam : Option (List Member)) (R : RoleKey)
    (h : ∀ e ∈ (pd.embedded R).listOr, ∃ s, e.name = .value s ∧ s ≠ []) :
    ((ActiveProjects.processProjectData ul pn pd (allTeam.getD [])).roleList R).map
        Member.trimmedName =
      ((DetailProject.processProjectData ul pn pd allTeam).roleList R).map
        Member.trimmedName := by
  rw [roleList_eq, detailProject_roleList_eq]
  apply dedupe_names
  rw [List.map_map, List.map_map]
  apply List.map_congr_left
  intro e he
  simp only [Function.comp_apply]
  rw [trimmedName_tagEmbedded, trimmedName_augment _ _ _ (h e he)]

/-- C27 (as stated, refuted). For a project whose embedded collector has no name,
`ActiveProjects` keeps the empty name and `DetailProject` names the entry `Unknown`; when
the directory has a collector without name on the project, `ActiveProjects` counts one
collector and one member, `DetailProject` two. -/
theorem reconcilers_differ_on_missing_name :
    (ActiveProjects.processProjectData id "P1".toList
        ⟨.absent, .value [⟨.absent, .absent, .absent, .absent, []⟩], .absent, .absent⟩
        []).dataCollectors.map Member.trimmedName = [[]] ∧
    (DetailProject.processProjectData id "P1".toList
        ⟨.absent, .value [⟨.absent, .absent, .absent, .absent, []⟩], .absent, .absent⟩
        (some [])).dataCollectors.map Member.trimmedName = ["Unknown".toList] ∧
    (ActiveProjects.processProjectData id "P1".toList
        ⟨.absent, .value [⟨.absent, .absent, .absent, .absent, []⟩], .absent, .absent⟩
        [⟨.absent, .value "data_collector".toList, .absent, .value ["P1".toList],
          []⟩]).totalCollectors = 1 ∧
    (DetailProject.processProjectData id "P1".toList
        ⟨.absent, .value [⟨.absent, .absent, .absent, .absent, []⟩], .absent, .absent⟩
        (some [⟨.absent, .value "data_collector".toList, .absent, .value ["P1".toList],
          []⟩])).totalCollectors = 2 ∧
    (ActiveProjects.processProjectData id "P1".toList
        ⟨.absent, .value [⟨.absent, .absent, .absent, .absent, []⟩], .absent, .absent⟩
        [⟨.absent, .value "data_collector".toList, .absent, .value ["P1".toList],
          []⟩]).memberCount = 1 ∧
    (DetailProject.processProjectData id "P1".toList
        ⟨.absent, .value [⟨.absent, .absent, .absent, .absent, []⟩], .absent, .absent⟩
        (some [⟨.absent, .value "data_collector".toList, .absent, .value ["P1".toList],
          []⟩])).memberCount = 2 := by
  decide

/-- C27 (amended). When every embedded entry of the project payload has a non-empty name,
`processProjectData` of `ActiveProjects` and `processProjectData` of `DetailProject` return
the same `totalCollectors`, `totalSupervisors`, `totalBackcheckers` and `memberCount`, and
for each role the same sequence of trimmed member names; the names of the directory members
may be missing or empty. -/
theorem reconcilers_agree (ul : List Char → List Char) (pn : List Char) (pd : ProjectData)
    (allTeam : Option (List Member))
    (h : ∀ R : RoleKey, ∀ e ∈ (pd.embedded R).listOr, ∃ s, e.name = .value s ∧ s ≠ []) :
    (ActiveProjects.processProjectData ul pn pd (allTeam.getD [])).totalCollectors =
      (DetailProject.processProjectData ul pn pd allTeam).totalCollectors ∧
    (ActiveProjects.processProjectData ul pn pd (allTeam.getD [])).totalSupervisors =
      (DetailProject.processProjectData ul pn pd allTeam).totalSupervisors ∧
    (ActiveProjects.processProjectData ul pn pd (allTeam.getD [])).totalBackcheckers =
      (DetailProject.processProjectData ul pn pd allTeam).totalBackcheckers ∧
    (ActiveProjects.processProjectData ul pn pd (allTeam.getD [])).memberCount =
      (DetailProject.processProjectData ul pn pd allTeam).memberCount ∧
    (∀ R : RoleKey,
      ((ActiveProjects.processProjectData ul pn pd (allTeam.getD [])).roleList R).map
          Member.trimmedName =
        ((DetailProject.processProjectData ul pn pd allTeam).roleList R).map
          Member.trimmedName) := by
  have hnames := fun R => reconcilers_roleList_names ul pn pd allTeam R (h R)
  have hlen : ∀ R : RoleKey,
      ((ActiveProjects.processProjectData ul pn pd (allTeam.getD [])).roleList R).length =
      ((DetailProject.processProjectData ul pn pd allTeam).roleList R).length := by
    intro R
    have := congrArg List.length (hnames R)
    rw [List.length_map, List.length_map] at this
    exact this
  have h1 := hlen .dataCollector
  have h2 := hlen .supervisor
  have h3 := hlen .backchecker
  refine ⟨h1, h2, h3, ?_, hnames⟩
  show (_ ++ _ ++ _ : List Member).length = (_ ++ _ ++ _ : List Member).length
  simp only [List.length_append]
  have h1' : (ActiveProjects.processProjectData ul pn pd (allTeam.getD [])).dataCollectors.length
      = (DetailProject.processProjectData ul pn pd allTeam).dataCollectors.length := h1
  have h2' : (ActiveProjects.processProjectData ul pn pd (allTeam.getD [])).supervisors.length
      = (DetailProject.processProjectData ul pn pd allTeam).supervisors.length := h2
  have h3' : (ActiveProjects.processProjectData ul pn pd (allTeam.getD [])).backcheckers.length
      = (DetailProject.processProjectData ul pn pd allTeam).backcheckers.length := h3
  simp only [ActiveProjects.processProjectData, DetailProject.processProjectData] at h1' h2' h3'
  omega

/-- The amended C27 on a project with one embedded collector and a directory whose one
member, without name, lists the project. -/
theorem reconcilers_agree_witness :
    (ActiveProjects.processProjectData id "P1".toList
        ⟨.absent, .value [⟨.value "Ana".toList, .absent, .absent, .absent, []⟩], .absent,
          .absent⟩
        ((some [⟨.absent, .value "data_collector".toList, .absent, .value ["P1".toList],
          []⟩] : Option (List Member)).getD [])).memberCount =
      (DetailProject.processProjectData id "P1".toList
        ⟨.absent, .value [⟨.value "Ana".toList, .absent, .absent, .absent, []⟩], .absent,
          .absent⟩
        (some [⟨.absent, .value "data_collector".toList, .absent, .value ["P1".toList],
          []⟩])).memberCount :=
  (reconcilers_agree id "P1".toList
    ⟨.absent, .value [⟨.value "Ana".toList, .absent, .absent, .absent, []⟩], .absent, .absent⟩
    (some [⟨.absent, .value "data_collector".toList, .absent, .value ["P1".toList], []⟩])
    (by
      intro R e he
      cases R with
      | dataCollector =>
        simp only [ProjectData.embedded, Field.listOr, List.mem_singleton] at he
        subst he
        exact ⟨"Ana".toList, rfl, by decide⟩
      | supervisor => simp [ProjectData.embedded, Field.listOr] at he
      | backchecker => simp [ProjectData.embedded, Field.listOr] at he)).2.2.2.1

/-! ## Dashboard figures -/

/-- The value of `avgPerfOverall` exists exactly when some member has a `performance_score`
that is a number or `null`. -/
theorem avgPerfOverall_ok_iff (members : List Dashboard.NormalizedMember) :
    (∃ s, Dashboard.avgPerfOverall members = .ok s) ↔
      ∃ m ∈ members, m.performance_score ≠ .absent := by
  unfold Dashboard.avgPerfOverall Dashboard.avg
  simp only []
  constructor
  · intro h
    by_contra hno
    push_neg at hno
    have hnil : (members.map (fun m => m.performance_score)).filterMap Dashboard.number = [] := by
      rw [List.filterMap_eq_nil_iff]
      intro v hv
      rw [List.mem_map] at hv
      obtain ⟨m, hm, rfl⟩ := hv
      rw [hno m hm]
      rfl
    rw [hnil] at h
    obtain ⟨s, hs⟩ := h
    simp at hs
  · rintro ⟨m, hm, hscore⟩
    have hne : (members.map (fun m => m.performance_score)).filterMap Dashboard.number ≠ [] := by
      intro hnil
      rw [List.filterMap_eq_nil_iff] at hnil
      have := hnil m.performance_score (List.mem_map_of_mem _ hm)
      cases hp : m.performance_score with
      | absent => exact hscore hp
      | null => rw [hp] at this; simp [Dashboard.number] at this
      | value n => rw [hp] at this; simp [Dashboard.number] at this
    have hlen : ((members.map (fun m => m.performance_score)).filterMap
        Dashboard.number).length ≠ 0 := by
      intro h0
      exact hne (List.length_eq_zero.mp h0)
    rw [if_neg hlen]
    exact ⟨_, rfl⟩

/-- C28 (failing input). For the empty member list, and for a list in which no member has a
`performance_score`, `avg` returns `null` and the call `.toFixed(1)` on it throws a
`TypeError`: `avgPerfOverall` has no value. -/
theorem avgPerfOverall_throws_without_scores :
    Dashboard.avg [] = none ∧
    Dashboard.avgPerfOverall (Dashboard.normalizeMembers id []) = .error .typeError ∧
    Dashboard.avgPerfOverall (Dashboard.normalizeMembers id
      [⟨.value "Ana".toList, .value "supervisor".toList, .value "available".toList, .absent,
        .absent, .absent, .absent, .absent, []⟩]) = .error .typeError := by
  refine ⟨rfl, rfl, rfl⟩

theorem totalAvailable_eq_not_deployed (members : List Dashboard.NormalizedMember) :
    Dashboard.totalAvailable members =
      ((members.filter (fun m => !Dashboard.isDeployed m)).length : Int) := by
  unfold Dashboard.totalAvailable Dashboard.totalMembers Dashboard.totalDeployed
  have h := List.length_eq_countP_add_countP Dashboard.isDeployed members
  have h2 : members.countP (fun a => decide ¬ (Dashboard.isDeployed a = true)) =
      (members.filter (fun m => !Dashboard.isDeployed m)).length := by
    rw [← List.countP_eq_length_filter]
    apply List.countP_congr
    intro m _
    simp
  rw [h2, List.countP_eq_length_filter] at h
  omega

/-- When every status is `available` or `deployed`, `totalAvailable` is the number of
members whose status is `available`. -/
theorem totalAvailable_of_two_statuses (members : List Dashboard.NormalizedMember)
    (h : ∀ m ∈ members, Dashboard.isAvailable m = true ∨ Dashboard.isDeployed m = true) :
    Dashboard.totalAvailable members =
      ((members.filter Dashboard.isAvailable).length : Int) := by
  rw [totalAvailable_eq_not_deployed]
  congr 2
  apply List.filter_congr
  intro m hm
  rcases h m hm with ha | hd
  · have : Dashboard.isDeployed m = false := by
      unfold Dashboard.isAvailable at ha
      unfold Dashboard.isDeployed
      simp only [decide_eq_true_eq] at ha
      rw [ha]
      decide
    rw [ha, this]
    rfl
  · have : Dashboard.isAvailable m = false := by
      unfold Dashboard.isDeployed at hd
      unfold Dashboard.isAvailable
      simp only [decide_eq_true_eq] at hd
      rw [hd]
      decide
    rw [hd, this]
    rfl

/-- When every member has one of the three canonical roles, the three `ready` lists together
are as long as the list of the members whose status is `available`. -/
theorem ready_lists_length (members : List Dashboard.NormalizedMember)
    (h : ∀ m ∈ members, m.role = .str "data_collector".toList ∨
      m.role = .str "supervisor".toList ∨ m.role = .str "backchecker".toList) :
    (Dashboard.readyDCs members).length + (Dashboard.readySUPs members).length +
      (Dashboard.readyBCKs members).length = (members.filter Dashboard.isAvailable).length := by
  induction members with
  | nil => rfl
  | cons a l ih =>
    have ih' := ih (fun m hm => h m (List.mem_cons_of_mem a hm))
    unfold Dashboard.readyDCs Dashboard.readySUPs Dashboard.readyBCKs Dashboard.DCs
      Dashboard.SUPs Dashboard.BCKs at ih' ⊢
    have hroles : ∃ bD bS bB : Bool,
        decide (a.role = .str "data_collector".toList) = bD ∧
        decide (a.role = .str "supervisor".toList) = bS ∧
        decide (a.role = .str "backchecker".toList) = bB ∧
        ((bD = true ∧ bS = false ∧ bB = false) ∨ (bD = false ∧ bS = true ∧ bB = false) ∨
          (bD = false ∧ bS = false ∧ bB = true)) := by
      rcases h a (List.mem_cons_self a l) with ha | ha | ha <;> rw [ha] <;>
        exact ⟨_, _, _, rfl, rfl, rfl, by decide⟩
    obtain ⟨bD, bS, bB, hD, hS, hB, hcases⟩ := hroles
    rcases hcases with ⟨rfl, rfl, rfl⟩ | ⟨rfl, rfl, rfl⟩ | ⟨rfl, rfl, rfl⟩ <;>
      cases hav : Dashboard.isAvailable a <;>
      simp only [List.filter_cons, hD, hS, hB, hav, if_true, Bool.false_eq_true, if_false,
        List.length_cons] <;> omega

/-- C30 (failing input). For a member list of one supervisor whose status is `inactive`,
`totalAvailable` is 1, while no member has the status `available` and the three `ready`
lists are empty. -/
theorem totalAvailable_counts_inactive :
    Dashboard.totalAvailable (Dashboard.normalizeMembers id
      [⟨.value "Ana".toList, .value "supervisor".toList, .value "inactive".toList, .absent,
        .absent, .absent, .absent, .absent, []⟩]) = 1 ∧
    ((Dashboard.normalizeMembers id
      [⟨.value "Ana".toList, .value "supervisor".toList, .value "inactive".toList, .absent,
        .absent, .absent, .absent, .absent, []⟩]).filter Dashboard.isAvailable).length = 0 ∧
    (Dashboard.readyDCs (Dashboard.normalizeMembers id
      [⟨.value "Ana".toList, .value "supervisor".toList, .value "inactive".toList, .absent,
        .absent, .absent, .absent, .absent, []⟩])).length +
    (Dashboard.readySUPs (Dashboard.normalizeMembers id
      [⟨.value "Ana".toList, .value "supervisor".toList, .value "inactive".toList, .absent,
        .absent, .absent, .absent, .absent, []⟩])).length +
    (Dashboard.readyBCKs (Dashboard.normalizeMembers id
      [⟨.value "Ana".toList, .value "supervisor".toList, .value "inactive".toList, .absent,
        .absent, .absent, .absent, .absent, []⟩])).length = 0 := by
  decide

end DataCollectors
